import Mathlib

/-!
NodePassDash, endpoint reconciliation (`internal/api/endpoint.go`).

A shallow embedding of `refreshTunnels` and of the descriptor parser
`parseInstanceURL` it calls, of the deletion handlers of the recycle bin and of
the endpoints, and of the pagination of the log search, followed by the
properties that the specification states.

Go strings are embedded as Lean strings (sequences of code points). Every
separator the parser looks for is an ASCII character, so cutting a valid UTF-8
string at a byte offset found by `strings.Index` and cutting the code point
sequence at the corresponding position give the same pieces.
-/

namespace NodePassDash

/-! ## Go standard library primitives used by the parser -/

/-- Position of the first occurrence of `sub` in the string, `none` when there is
none (`strings.Index`, which returns `-1` in that case). -/
def indexOf (sub : List Char) : List Char → Option Nat
  | [] => if sub = [] then some 0 else none
  | c :: cs =>
    if sub.isPrefixOf (c :: cs) then some 0
    else match indexOf sub cs with
      | some i => some (i + 1)
      | none => none

/-- Position of the last occurrence of the character `c` (`strings.LastIndex`
with a one character separator). -/
def lastIndexOf (c : Char) : List Char → Option Nat
  | [] => none
  | d :: ds =>
    match lastIndexOf c ds with
    | some i => some (i + 1)
    | none => if d = c then some 0 else none

/-- White space in the sense of `unicode.IsSpace`. -/
def isSpace (c : Char) : Bool :=
  let n := c.toNat
  (9 ≤ n && n ≤ 13) || n = 32 || n = 0x85 || n = 0xA0 || n = 0x1680 ||
  (0x2000 ≤ n && n ≤ 0x200A) || n = 0x2028 || n = 0x2029 || n = 0x202F ||
  n = 0x205F || n = 0x3000

/-- Leading and trailing white space removed (`strings.TrimSpace`). -/
def trimSpace (s : List Char) : List Char :=
  ((s.dropWhile isSpace).reverse.dropWhile isSpace).reverse

/-- An ASCII decimal digit. -/
def isDigit (c : Char) : Bool := 48 ≤ c.toNat && c.toNat ≤ 57

/-- Value of a string of decimal digits. -/
def digitsValue (s : List Char) : Nat :=
  s.foldl (fun acc d => acc * 10 + (d.toNat - 48)) 0

/-- Embedding of `strconv.Atoi` on a 64-bit platform: the value and whether the
error is nil. An optional sign followed by at least one decimal digit is
well-formed; anything else yields `0` and an error. A well-formed number outside
the `int64` range yields the nearest bound and an error. -/
def Atoi (s : String) : Int × Bool :=
  match s.data with
  | [] => (0, false)
  | c :: cs =>
    let body := if c = '-' ∨ c = '+' then cs else c :: cs
    if body = [] ∨ ¬ body.all isDigit = true then (0, false)
    else
      let n := digitsValue body
      if c = '-' then
        if n > 2 ^ 63 then (-(2 ^ 63 : Int), false) else (-(n : Int), true)
      else
        if n ≥ 2 ^ 63 then ((2 ^ 63 : Int) - 1, false) else ((n : Int), true)

/-- Pieces of the string between the occurrences of `sep` (`strings.Split` with a
one character separator). -/
def splitOnChar (sep : Char) : List Char → List (List Char)
  | [] => [[]]
  | c :: cs =>
    if c = sep then [] :: splitOnChar sep cs
    else match splitOnChar sep cs with
      | [] => [[c]]
      | p :: ps => (c :: p) :: ps

/-- Lower-casing of `strings.ToLower` on the ASCII range. Go maps letters outside
ASCII through the Unicode tables of its runtime; the embedding leaves those code
points as they are. -/
def toLower (s : List Char) : List Char := s.map Char.toLower

/-- UTF-8 encoding of one code point, as a list of byte values. -/
def utf8Encode (c : Char) : List Nat :=
  let n := c.toNat
  if n < 0x80 then [n]
  else if n < 0x800 then [0xC0 + n / 64, 0x80 + n % 64]
  else if n < 0x10000 then [0xE0 + n / 4096, 0x80 + (n / 64) % 64, 0x80 + n % 64]
  else [0xF0 + n / 262144, 0x80 + (n / 4096) % 64, 0x80 + (n / 64) % 64, 0x80 + n % 64]

/-- A UTF-8 continuation byte. -/
def isCont (b : Nat) : Bool := 0x80 ≤ b && b < 0xC0

/-- First code point of a byte sequence and the number of bytes it takes
(`utf8.DecodeRune`): a byte that does not start a valid UTF-8 sequence yields
U+FFFD and width 1. -/
def decodeRune : List Nat → Char × Nat
  | [] => (Char.ofNat 0xFFFD, 1)
  | b0 :: rest =>
    if b0 < 0x80 then (Char.ofNat b0, 1)
    else
      let b1 := rest.getD 0 0
      let b2 := rest.getD 1 0
      let b3 := rest.getD 2 0
      let v2 := (b0 - 0xC0) * 64 + (b1 - 0x80)
      let v3 := (b0 - 0xE0) * 4096 + (b1 - 0x80) * 64 + (b2 - 0x80)
      let v4 := (b0 - 0xF0) * 262144 + (b1 - 0x80) * 4096 + (b2 - 0x80) * 64 + (b3 - 0x80)
      if 0xC2 ≤ b0 ∧ b0 < 0xE0 ∧ isCont b1 = true then (Char.ofNat v2, 2)
      else if 0xE0 ≤ b0 ∧ b0 < 0xF0 ∧ isCont b1 = true ∧ isCont b2 = true ∧ 0x800 ≤ v3 ∧
          ¬ (0xD800 ≤ v3 ∧ v3 < 0xE000) then (Char.ofNat v3, 3)
      else if 0xF0 ≤ b0 ∧ b0 < 0xF8 ∧ isCont b1 = true ∧ isCont b2 = true ∧
          isCont b3 = true ∧ 0x10000 ≤ v4 ∧ v4 < 0x110000 then (Char.ofNat v4, 4)
      else (Char.ofNat 0xFFFD, 1)

/-- Decoding loop of `utf8Decode`; the first argument bounds the number of code
points and is the number of bytes at the start. -/
def utf8DecodeAux : Nat → List Nat → List Char
  | 0, _ => []
  | _ + 1, [] => []
  | fuel + 1, b :: bs =>
    (decodeRune (b :: bs)).1 :: utf8DecodeAux fuel ((b :: bs).drop (decodeRune (b :: bs)).2)

/-- Decoding of a byte sequence into code points. A byte that does not start a
valid UTF-8 sequence becomes U+FFFD, as when Go ranges over a string; a Go string
keeps such a byte as it is, which a Lean string cannot hold. -/
def utf8Decode (bs : List Nat) : List Char := utf8DecodeAux bs.length bs

/-- Value of a hexadecimal digit, `none` for any other character (`ishex` and
`unhex` of `net/url`). -/
def unhex (c : Char) : Option Nat :=
  let n := c.toNat
  if 48 ≤ n ∧ n ≤ 57 then some (n - 48)
  else if 97 ≤ n ∧ n ≤ 102 then some (n - 97 + 10)
  else if 65 ≤ n ∧ n ≤ 70 then some (n - 65 + 10)
  else none

/-- Bytes of the percent-decoding of a string: `%XY` with two hexadecimal digits
is one byte, `+` is a space, every other character stands for itself. `none` when
a `%` is not followed by two hexadecimal digits. -/
def unescapeBytes : List Char → Option (List Nat)
  | [] => some []
  | '%' :: h :: l :: rest =>
    match unhex h, unhex l, unescapeBytes rest with
    | some a, some b, some bs => some ((a * 16 + b) :: bs)
    | _, _, _ => none
  | '%' :: _ => none
  | '+' :: rest =>
    match unescapeBytes rest with
    | some bs => some (32 :: bs)
    | none => none
  | c :: rest =>
    match unescapeBytes rest with
    | some bs => some (utf8Encode c ++ bs)
    | none => none

/-- Embedding of `url.QueryUnescape`: the decoded string, `none` when Go returns an
error. -/
def QueryUnescape (s : String) : Option String :=
  match unescapeBytes s.data with
  | some bs => some (String.mk (utf8Decode bs))
  | none => none

/-! ## The descriptor parser -/

/-- Result record of `parseInstanceURL`. -/
structure ParsedURL where
  TunnelAddress : String
  TunnelPort : String
  TargetAddress : String
  TargetPort : String
  TLSMode : String
  LogLevel : String
  CertPath : String
  KeyPath : String
  Password : String
  Min : String
  Max : String
deriving DecidableEq, Repr

/-- The closure `parsePart` of `parseInstanceURL`: address and port of one
segment, with support for bracketed IPv6 literals. -/
def parsePart (part0 : String) : String × String :=
  let part := trimSpace part0.data
  if part = [] then ("", "")
  else
    match (if part.head? = some '[' then indexOf [']'] part else none) with
    | some e =>
      let addr := part.take (e + 1)
      let port := if part.length > e + 1 ∧ part.get? (e + 1) = some ':' then part.drop (e + 2) else []
      (String.mk addr, String.mk port)
    | none =>
      if ':' ∈ part then
        let colonCount := part.count ':'
        if colonCount > 1 ∨ (indexOf [':', ':'] part).isSome = true then
          match lastIndexOf ':' part with
          | some lastColonIdx =>
            if lastColonIdx < part.length - 1 then
              let potentialPort := part.drop (lastColonIdx + 1)
              let r := Atoi (String.mk potentialPort)
              if r.2 = true ∧ r.1 > 0 ∧ r.1 ≤ 65535 then
                (String.mk (part.take lastColonIdx), String.mk potentialPort)
              else (String.mk part, "")
            else (String.mk part, "")
          | none => (String.mk part, "")
        else
          match indexOf [':'] part with
          | some i => (String.mk (part.take i), String.mk (part.drop (i + 1)))
          | none => (String.mk part, "")
      else
        if (Atoi (String.mk part)).2 = true then ("", String.mk part)
        else (String.mk part, "")

/-- One `key=value` item of the query applied to the record (the body of the loop
over `strings.Split(query, "&")`). -/
def applyQueryItem (mode : String) (res : ParsedURL) (kv : List Char) : ParsedURL :=
  if kv = [] then res
  else
    match indexOf ['='] kv with
    | none => res
    | some i =>
      let key := String.mk (kv.take i)
      let val := String.mk (kv.drop (i + 1))
      if key = "tls" then
        if mode = "server" then
          if val = "0" then { res with TLSMode := "mode0" }
          else if val = "1" then { res with TLSMode := "mode1" }
          else if val = "2" then { res with TLSMode := "mode2" }
          else res
        else res
      else if key = "log" then { res with LogLevel := String.mk (toLower val.data) }
      else if key = "crt" then
        match QueryUnescape val with
        | some decodedVal => { res with CertPath := decodedVal }
        | none => { res with CertPath := val }
      else if key = "key" then
        match QueryUnescape val with
        | some decodedVal => { res with KeyPath := decodedVal }
        | none => { res with KeyPath := val }
      else if key = "min" then { res with Min := val }
      else if key = "max" then { res with Max := val }
      else res

/-- Embedding of `parseInstanceURL`. -/
def parseInstanceURL (raw mode : String) : ParsedURL :=
  let res : ParsedURL :=
    { TunnelAddress := "", TunnelPort := "", TargetAddress := "", TargetPort := "",
      TLSMode := "inherit", LogLevel := "inherit", CertPath := "", KeyPath := "",
      Password := "", Min := "", Max := "" }
  if raw = "" then res
  else
    let raw2 := match indexOf [':', '/', '/'] raw.data with
      | some idx => raw.data.drop (idx + 3)
      | none => raw.data
    let (password, raw3) := match indexOf ['@'] raw2 with
      | some atIdx => (raw2.take atIdx, raw2.drop (atIdx + 1))
      | none => ([], raw2)
    let (query, raw4) := match indexOf ['?'] raw3 with
      | some qIdx => (raw3.drop (qIdx + 1), raw3.take qIdx)
      | none => ([], raw3)
    let (hostPart, pathPart) := match indexOf ['/'] raw4 with
      | some pIdx => (raw4.take pIdx, raw4.drop (pIdx + 1))
      | none => (raw4, [])
    let res1 := { res with Password := String.mk password }
    let res2 :=
      if hostPart ≠ [] then
        let r := parsePart (String.mk hostPart)
        { res1 with TunnelAddress := r.1, TunnelPort := r.2 }
      else res1
    let res3 :=
      if pathPart ≠ [] then
        let r := parsePart (String.mk pathPart)
        { res2 with TargetAddress := r.1, TargetPort := r.2 }
      else res2
    if query ≠ [] then (splitOnChar '&' query).foldl (applyQueryItem mode) res3
    else res3

/-! ## Data model of the reconciliation -/

/-- One entry of the snapshot returned by the NodePass client
(`nodepass.Instance`, declared in package `internal/nodepass`, which is not among
the sources), with the fields that `refreshTunnels` reads. The Go field `Type`
is named `Typ` here. -/
structure Instance where
  ID : String
  Typ : String
  URL : String
  Alias : String
  Status : String
  TCPRx : Int
  TCPTx : Int
  UDPRx : Int
  UDPTx : Int
  Restart : Bool
deriving DecidableEq, Repr

/-- A row of the table `Tunnel`, with the columns that the statements of
`refreshTunnels` name. The column `instanceId` is nullable (the handlers of this
file filter on `instanceId IS NOT NULL`); `min` and `max` are nullable integers
(`convInt` writes NULL for an empty string). -/
structure Tunnel where
  id : Int
  instanceId : Option String
  name : String
  endpointId : Int
  mode : String
  tunnelAddress : String
  tunnelPort : Int
  targetAddress : String
  targetPort : Int
  tlsMode : String
  certPath : String
  keyPath : String
  logLevel : String
  commandLine : String
  password : String
  status : String
  min : Option Int
  max : Option Int
  tcpRx : Int
  tcpTx : Int
  udpRx : Int
  udpTx : Int
  restart : Bool
  createdAt : Nat
  updatedAt : Nat
deriving DecidableEq, Repr

/-- A row of the table `Endpoint`, with the columns the reconciliation touches. -/
structure Endpoint where
  id : Int
  url : String
  apiPath : String
  apiKey : String
  tunnelCount : Int
deriving DecidableEq, Repr

/-- The two tables of the materialized state. -/
structure DB where
  endpoints : List Endpoint
  tunnels : List Tunnel
deriving DecidableEq, Repr

/-- The step at which `refreshTunnels` gave up. -/
inductive RefreshError where
  | endpoint
  | fetch
  | beginTx
  | query
  | insert
  | update
  | list
  | delete
  | commit
deriving DecidableEq, Repr

/-- Which storage steps fail during one call. The existence query and the write of
the `n`-th snapshot entry are indexed by `n`, a delete by the surrogate id of the
row it removes. -/
structure Faults where
  getEndpoint : Bool
  beginTx : Bool
  query : Nat → Bool
  write : Nat → Bool
  list : Bool
  delete : Int → Bool
  count : Bool
  commit : Bool

/-- No storage step fails. -/
def noFaults : Faults :=
  { getEndpoint := false, beginTx := false, query := fun _ => false, write := fun _ => false,
    list := false, delete := fun _ => false, count := false, commit := false }

/-- Modelled from the spec: `endpoint.Service.GetEndpointByID` of package
`internal/endpoint`, which is not among the sources, is the "query by id" of the
materialized state: the Endpoint row with this id, an error when the storage
fails or holds no such row. -/
def GetEndpointByID (F : Faults) (db : DB) (id : Int) : Option Endpoint :=
  if F.getEndpoint then none else db.endpoints.find? (fun ep => decide (ep.id = id))

/-- The closure `convPort`: the integer value of a port string, with the error of
`strconv.Atoi` discarded. -/
def convPort (p : String) : Int := (Atoi p).1

/-- The closure `convInt`: NULL for the empty string, otherwise as `convPort`. -/
def convInt (s : String) : Option Int := if s = "" then none else some (Atoi s).1

/-- Surrogate id that SQLite gives to an inserted row of a table with an integer
primary key: one more than the largest id in use, 1 in an empty table. -/
def freshId (tx : List Tunnel) : Int :=
  match tx with
  | [] => 1
  | t :: rest => rest.foldl (fun m u => max m u.id) t.id + 1

/-- The row written by the `INSERT` statement. -/
def insertedTunnel (id : Int) (endpointID : Int) (now : Nat) (inst : Instance) : Tunnel :=
  let parsed := parseInstanceURL inst.URL inst.Typ
  { id := id
    instanceId := some inst.ID
    name := if inst.Alias ≠ "" then inst.Alias else "auto-" ++ inst.ID
    endpointId := endpointID
    mode := inst.Typ
    tunnelAddress := parsed.TunnelAddress
    tunnelPort := convPort parsed.TunnelPort
    targetAddress := parsed.TargetAddress
    targetPort := convPort parsed.TargetPort
    tlsMode := parsed.TLSMode
    certPath := parsed.CertPath
    keyPath := parsed.KeyPath
    logLevel := parsed.LogLevel
    commandLine := inst.URL
    password := parsed.Password
    status := inst.Status
    min := convInt parsed.Min
    max := convInt parsed.Max
    tcpRx := inst.TCPRx
    tcpTx := inst.TCPTx
    udpRx := inst.UDPRx
    udpTx := inst.UDPTx
    restart := inst.Restart
    createdAt := now
    updatedAt := now }

/-- The effect of the `UPDATE` statement on the row it selects: `name` is assigned
only when the alias is not empty. -/
def updatedTunnel (now : Nat) (inst : Instance) (t : Tunnel) : Tunnel :=
  let parsed := parseInstanceURL inst.URL inst.Typ
  { t with
    name := if inst.Alias ≠ "" then inst.Alias else t.name
    mode := inst.Typ
    tunnelAddress := parsed.TunnelAddress
    tunnelPort := convPort parsed.TunnelPort
    targetAddress := parsed.TargetAddress
    targetPort := convPort parsed.TargetPort
    tlsMode := parsed.TLSMode
    certPath := parsed.CertPath
    keyPath := parsed.KeyPath
    logLevel := parsed.LogLevel
    commandLine := inst.URL
    password := parsed.Password
    status := inst.Status
    min := convInt parsed.Min
    max := convInt parsed.Max
    tcpRx := inst.TCPRx
    tcpTx := inst.TCPTx
    udpRx := inst.UDPRx
    udpTx := inst.UDPTx
    restart := inst.Restart
    updatedAt := now }

/-- Result of `SELECT id FROM "Tunnel" WHERE instanceId = ?` read with `QueryRow`:
the first row of the table with this instance id, whatever its endpoint. -/
def findTunnel (tx : List Tunnel) (instanceID : String) : Option Tunnel :=
  tx.find? (fun t => decide (t.instanceId = some instanceID))

/-- `UPDATE "Tunnel" SET ... WHERE id = ?`. -/
def execUpdate (now : Nat) (inst : Instance) (tunnelID : Int) (tx : List Tunnel) : List Tunnel :=
  tx.map (fun t => if t.id = tunnelID then updatedTunnel now inst t else t)

/-- `INSERT INTO "Tunnel" ...`. -/
def execInsert (endpointID : Int) (now : Nat) (inst : Instance) (tx : List Tunnel) : List Tunnel :=
  tx ++ [insertedTunnel (freshId tx) endpointID now inst]

/-- The upsert loop of `refreshTunnels` over the snapshot entries from position `i`
on: the table inside the transaction and the set `instanceIDSet` after the loop,
or the error that made the function roll back. -/
def upsertLoop (F : Faults) (endpointID : Int) (now : Nat) :
    Nat → List Instance → List Tunnel → List String →
      Except RefreshError (List Tunnel × List String)
  | _, [], tx, idSet => .ok (tx, idSet)
  | i, inst :: rest, tx, idSet =>
    if inst.Typ = "" then upsertLoop F endpointID now (i + 1) rest tx idSet
    else if F.query i then .error .query
    else
      match findTunnel tx inst.ID with
      | none =>
        if F.write i then .error .insert
        else upsertLoop F endpointID now (i + 1) rest (execInsert endpointID now inst tx)
          (inst.ID :: idSet)
      | some row =>
        if F.write i then .error .update
        else upsertLoop F endpointID now (i + 1) rest (execUpdate now inst row.id tx)
          (inst.ID :: idSet)

/-- Rows of `SELECT id, instanceId FROM "Tunnel" WHERE endpointId = ?`. -/
def listTunnels (endpointID : Int) (tx : List Tunnel) : List (Int × Option String) :=
  (tx.filter (fun t => decide (t.endpointId = endpointID))).map (fun t => (t.id, t.instanceId))

/-- The delete loop of `refreshTunnels` over the listed rows. Scanning a NULL
`instanceId` into a Go string fails and the row is passed over; a row with an
id outside `instanceIDSet` is deleted by its surrogate id. -/
def deleteLoop (F : Faults) (idSet : List String) :
    List (Int × Option String) → List Tunnel → Except RefreshError (List Tunnel)
  | [], tx => .ok tx
  | (_, none) :: rest, tx => deleteLoop F idSet rest tx
  | (id, some iid) :: rest, tx =>
    if iid ∈ idSet then deleteLoop F idSet rest tx
    else if F.delete id then .error .delete
    else deleteLoop F idSet rest (tx.filter (fun t => decide (t.id ≠ id)))

/-- `UPDATE "Endpoint" SET tunnelCount = (SELECT COUNT(*) FROM "Tunnel" WHERE
endpointId = ?) WHERE id = ?`. -/
def updateTunnelCount (endpointID : Int) (db : DB) : DB :=
  { db with
    endpoints := db.endpoints.map (fun ep =>
      if ep.id = endpointID then
        { ep with tunnelCount := ((db.tunnels.filter (fun t => decide (t.endpointId = endpointID))).length : Int) }
      else ep) }

/-- Embedding of `refreshTunnels`. `snapshot` is what `GetInstances` returns
(`none` for an error), `now` the value of `CURRENT_TIMESTAMP`. The result is the
returned error (`none` for nil) and the committed state of the tables: every path
that rolls back, or fails to begin or to commit, leaves the state `db`. The error
of the tunnel-count statement is discarded by the code. -/
def refreshTunnels (F : Faults) (now : Nat) (snapshot : Option (List Instance)) (db : DB)
    (endpointID : Int) : Option RefreshError × DB :=
  match GetEndpointByID F db endpointID with
  | none => (some .endpoint, db)
  | some _ =>
    match snapshot with
    | none => (some .fetch, db)
    | some instances =>
      if F.beginTx then (some .beginTx, db)
      else
        match upsertLoop F endpointID now 0 instances db.tunnels [] with
        | .error e => (some e, db)
        | .ok (tx1, idSet) =>
          if F.list then (some .list, db)
          else
            match deleteLoop F idSet (listTunnels endpointID tx1) tx1 with
            | .error e => (some e, db)
            | .ok tx2 =>
              let pending : DB := { db with tunnels := tx2 }
              let pending2 : DB := if F.count then pending else updateTunnelCount endpointID pending
              if F.commit then (some .commit, db) else (none, pending2)

/-! ## The reconciliation without its failure paths

`reconcile` is what a call that commits leaves in the table `Tunnel`; the lemmas
of this section connect it with `refreshTunnels`. -/

/-- Snapshot entries that pass the guard `inst.Type == ""`. -/
def typed (S : List Instance) : List Instance := S.filter (fun i => decide (i.Typ ≠ ""))

/-- Instance ids put into `instanceIDSet`: the ids of the entries with a type. -/
def seenIDs (S : List Instance) : List String := (typed S).map (fun i => i.ID)

/-- One iteration of the upsert loop when no statement fails. -/
def upsertOne (endpointID : Int) (now : Nat) (tx : List Tunnel) (inst : Instance) : List Tunnel :=
  match findTunnel tx inst.ID with
  | none => execInsert endpointID now inst tx
  | some row => execUpdate now inst row.id tx

/-- The upsert loop when no statement fails. -/
def upsertAll (endpointID : Int) (now : Nat) (S : List Instance) (tx : List Tunnel) : List Tunnel :=
  (typed S).foldl (upsertOne endpointID now) tx

/-- Surrogate ids that the delete loop removes, given the listed rows. -/
def doomedOf (idSet : List String) (rows : List (Int × Option String)) : List Int :=
  rows.filterMap (fun r =>
    match r.2 with
    | some iid => if iid ∈ idSet then none else some r.1
    | none => none)

/-- The delete loop when no statement fails. -/
def purge (endpointID : Int) (idSet : List String) (tx : List Tunnel) : List Tunnel :=
  tx.filter (fun t => decide (t.id ∉ doomedOf idSet (listTunnels endpointID tx)))

/-- The table `Tunnel` after a reconciliation that commits. -/
def reconcile (endpointID : Int) (now : Nat) (S : List Instance) (tx : List Tunnel) : List Tunnel :=
  purge endpointID (seenIDs S) (upsertAll endpointID now S tx)

/-- Rows of the table have pairwise different surrogate ids (primary key). -/
def DistinctIds (tx : List Tunnel) : Prop := (tx.map (fun t => t.id)).Nodup

instance (tx : List Tunnel) : Decidable (DistinctIds tx) := by
  unfold DistinctIds; infer_instance

/-- Two rows with the same surrogate id, endpoint and instance id. -/
def SameKey (a b : Tunnel) : Prop :=
  a.id = b.id ∧ a.endpointId = b.endpointId ∧ a.instanceId = b.instanceId

/-- Two rows for the same (endpoint, remote instance id) pair. A NULL instance id
is no remote id and forms no pair. -/
def SamePair (a b : Tunnel) : Prop :=
  a.endpointId = b.endpointId ∧ a.instanceId ≠ none ∧ a.instanceId = b.instanceId

instance (a b : Tunnel) : Decidable (SamePair a b) := by
  unfold SamePair; infer_instance

/-- At most one row per (endpoint, remote instance id) pair. -/
def UniquePairs (tx : List Tunnel) : Prop := tx.Pairwise (fun a b => ¬ SamePair a b)

instance (tx : List Tunnel) : Decidable (UniquePairs tx) := by
  unfold UniquePairs; infer_instance

/-- Some step of the call fails: the endpoint lookup, the snapshot fetch, the
begin of the transaction, the existence query or the write of an entry with a
type, the listing of the rows, the delete of a row that the delete loop removes,
or the commit. The tunnel-count statement is not among them. -/
def StepFails (F : Faults) (now : Nat) (snapshot : Option (List Instance)) (db : DB)
    (E : Int) : Prop :=
  GetEndpointByID F db E = none ∨ snapshot = none ∨ F.beginTx = true ∨
  ∃ S, snapshot = some S ∧
    ((∃ j inst, S[j]? = some inst ∧ inst.Typ ≠ "" ∧ (F.query j = true ∨ F.write j = true)) ∨
      F.list = true ∨
      (∃ id ∈ doomedOf (seenIDs S) (listTunnels E (upsertAll E now S db.tunnels)),
        F.delete id = true) ∨
      F.commit = true)

/-- Instance ids of the rows of an endpoint: the non-NULL values of `instanceId`
in the rows with this `endpointId`. -/
def endpointIDs (endpointID : Int) (tx : List Tunnel) : List String :=
  (tx.filter (fun t => decide (t.endpointId = endpointID))).filterMap (fun t => t.instanceId)

/-- The updates of the entries of a list applied to one row, in order. -/
def applyAll (now : Nat) (L : List Instance) (t : Tunnel) : Tunnel :=
  L.foldl (fun t i => updatedTunnel now i t) t

/-- A snapshot entry with the given id, type, descriptor and alias. -/
def demoInstance (id typ url name : String) : Instance :=
  { ID := id, Typ := typ, URL := url, Alias := name, Status := "running",
    TCPRx := 10, TCPTx := 20, UDPRx := 30, UDPTx := 40, Restart := true }

/-- A stored row with the given surrogate id, endpoint, instance id and name. -/
def demoRow (id endpointID : Int) (iid : Option String) (name : String) : Tunnel :=
  { id := id, instanceId := iid, name := name, endpointId := endpointID, mode := "client",
    tunnelAddress := "old.example", tunnelPort := 1000, targetAddress := "10.0.0.9",
    targetPort := 2000, tlsMode := "inherit", certPath := "", keyPath := "",
    logLevel := "inherit", commandLine := "client://old.example:1000/10.0.0.9:2000",
    password := "", status := "stopped", min := none, max := none,
    tcpRx := 1, tcpTx := 2, udpRx := 3, udpTx := 4, restart := false,
    createdAt := 1, updatedAt := 1 }

/-- An Endpoint row with the given id and cached tunnel count. -/
def demoEndpoint (id count : Int) : Endpoint :=
  { id := id, url := "https://node.example", apiPath := "/api", apiKey := "k",
    tunnelCount := count }

/-- A snapshot with one server instance "x" whose alias is "web". -/
def demoSnapshot : List Instance :=
  [demoInstance "x" "server" "server://0.0.0.0:10101/127.0.0.1:8080?tls=1" "web"]

/-- A state where endpoint 1 holds a row for "gone" and a row for "x". -/
def demoDB : DB :=
  { endpoints := [demoEndpoint 1 2],
    tunnels := [demoRow 1 1 (some "gone") "old", demoRow 2 1 (some "x") "auto-x"] }

/-- A client instance "n" without alias. -/
def demoNew : Instance := demoInstance "n" "client" "client://a:1/b:2" ""

/-- The instance "x" reported without alias. -/
def demoPlain : Instance := demoInstance "x" "server" "server://0.0.0.0:10101/127.0.0.1:8080?tls=1" ""

/-- A state where endpoint 1 holds one row for "x", named after an alias. -/
def demoNamedDB : DB :=
  { endpoints := [demoEndpoint 1 1], tunnels := [demoRow 2 1 (some "x") "web"] }

/-! ## The pieces of a descriptor, as `parseInstanceURL` cuts them -/

/-- The descriptor after the scheme is stripped: the text after the first "://",
the whole descriptor when there is none. -/
def stripScheme (raw : List Char) : List Char :=
  match indexOf [':', '/', '/'] raw with
  | some idx => raw.drop (idx + 3)
  | none => raw

/-- The text before the first '@' of a descriptor without scheme, empty when there
is no '@'. -/
def passwordPart (body : List Char) : List Char :=
  match indexOf ['@'] body with
  | some atIdx => body.take atIdx
  | none => []

/-- The text after the first '@' of a descriptor without scheme, all of it when
there is no '@'. -/
def afterPassword (body : List Char) : List Char :=
  match indexOf ['@'] body with
  | some atIdx => body.drop (atIdx + 1)
  | none => body

/-- The variable `query`: the text after the first '?'. -/
def queryOf (rest : List Char) : List Char :=
  match indexOf ['?'] rest with
  | some qIdx => rest.drop (qIdx + 1)
  | none => []

/-- The text before the first '?'. -/
def beforeQuery (rest : List Char) : List Char :=
  match indexOf ['?'] rest with
  | some qIdx => rest.take qIdx
  | none => rest

/-- The variable `hostPart`: the text before the first '/' of what precedes the
query. -/
def hostOf (rest : List Char) : List Char :=
  match indexOf ['/'] (beforeQuery rest) with
  | some pIdx => (beforeQuery rest).take pIdx
  | none => beforeQuery rest

/-- The variable `pathPart`: the text after the first '/' of what precedes the
query. -/
def pathOf (rest : List Char) : List Char :=
  match indexOf ['/'] (beforeQuery rest) with
  | some pIdx => (beforeQuery rest).drop (pIdx + 1)
  | none => []

/-- The record with the defaults of `parseInstanceURL`. -/
def defaultParsed : ParsedURL :=
  { TunnelAddress := "", TunnelPort := "", TargetAddress := "", TargetPort := "",
    TLSMode := "inherit", LogLevel := "inherit", CertPath := "", KeyPath := "",
    Password := "", Min := "", Max := "" }

/-- The record before the query is read: password, tunnel side and target side. -/
def baseParsed (password rest : List Char) : ParsedURL :=
  let res1 := { defaultParsed with Password := String.mk password }
  let res2 :=
    if hostOf rest ≠ [] then
      { res1 with TunnelAddress := (parsePart (String.mk (hostOf rest))).1,
                  TunnelPort := (parsePart (String.mk (hostOf rest))).2 }
    else res1
  if pathOf rest ≠ [] then
    { res2 with TargetAddress := (parsePart (String.mk (pathOf rest))).1,
                TargetPort := (parsePart (String.mk (pathOf rest))).2 }
  else res2

/-- What `parseInstanceURL` does with a descriptor without scheme: the password is
cut off, the rest is split into host, path and query, and the query items are
applied in order. -/
def parseBody (mode : String) (body : List Char) : ParsedURL :=
  (splitOnChar '&' (queryOf (afterPassword body))).foldl (applyQueryItem mode)
    (baseParsed (passwordPart body) (afterPassword body))

/-- The host segment of a descriptor. -/
def hostPart (raw : String) : List Char := hostOf (afterPassword (stripScheme raw.data))

/-- The target segment of a descriptor. -/
def pathPart (raw : String) : List Char := pathOf (afterPassword (stripScheme raw.data))

/-- The query of a descriptor. -/
def queryPart (raw : String) : List Char := queryOf (afterPassword (stripScheme raw.data))

/-- Key and value of one item of the query, `none` for an item that the loop passes
over: an empty item or an item without '='. -/
def itemOf (kv : List Char) : Option (String × String) :=
  if kv = [] then none
  else
    match indexOf ['='] kv with
    | none => none
    | some i => some (String.mk (kv.take i), String.mk (kv.drop (i + 1)))

/-- The `switch key` of the query loop applied to one key and value. -/
def applyParam (mode : String) (res : ParsedURL) (kv : String × String) : ParsedURL :=
  if kv.1 = "tls" then
    if mode = "server" then
      if kv.2 = "0" then { res with TLSMode := "mode0" }
      else if kv.2 = "1" then { res with TLSMode := "mode1" }
      else if kv.2 = "2" then { res with TLSMode := "mode2" }
      else res
    else res
  else if kv.1 = "log" then { res with LogLevel := String.mk (toLower kv.2.data) }
  else if kv.1 = "crt" then
    match QueryUnescape kv.2 with
    | some decodedVal => { res with CertPath := decodedVal }
    | none => { res with CertPath := kv.2 }
  else if kv.1 = "key" then
    match QueryUnescape kv.2 with
    | some decodedVal => { res with KeyPath := decodedVal }
    | none => { res with KeyPath := kv.2 }
  else if kv.1 = "min" then { res with Min := kv.2 }
  else if kv.1 = "max" then { res with Max := kv.2 }
  else res

/-- The `key=value` items of the query of a descriptor, in order. -/
def queryItems (raw : String) : List (String × String) :=
  (splitOnChar '&' (queryPart raw)).filterMap itemOf

/-- The values of the items of the query with a given key, in order. -/
def paramValues (key : String) (raw : String) : List String :=
  ((queryItems raw).filter (fun kv => decide (kv.1 = key))).map (fun kv => kv.2)

/-- The TLS mode that the specification names for a `tls` value: "mode0", "mode1"
or "mode2" for "0", "1" or "2", and "inherit" for anything else. -/
def tlsModeOf (v : String) : String :=
  if v = "0" then "mode0" else if v = "1" then "mode1" else if v = "2" then "mode2"
  else "inherit"

/-- The TLS mode after a further `tls` value in server mode: a value "0", "1" or
"2" sets it, any other value leaves it as it is. -/
def tlsAfter (cur v : String) : String :=
  if v = "0" ∨ v = "1" ∨ v = "2" then tlsModeOf v else cur

/-- The parse of a text that holds neither scheme nor password: host segment,
target segment and query. -/
def parseRest (mode : String) (rest : List Char) : ParsedURL :=
  (splitOnChar '&' (queryOf rest)).foldl (applyQueryItem mode) (baseParsed [] rest)

/-- Spec-side definition, after the words "percent-decoded": the bytes of the
percent-decoding of a text. `%XY` with two hexadecimal digits is the byte XY,
every other character stands for itself; `none` when a '%' is not followed by two
hexadecimal digits, that is when the text is not validly percent-encoded. -/
def percentBytes : List Char → Option (List Nat)
  | [] => some []
  | '%' :: h :: l :: rest =>
    match unhex h, unhex l, percentBytes rest with
    | some a, some b, some bs => some ((a * 16 + b) :: bs)
    | _, _, _ => none
  | '%' :: _ => none
  | c :: rest =>
    match percentBytes rest with
    | some bs => some (utf8Encode c ++ bs)
    | none => none

/-- Spec-side definition: the percent-decoding of a text, `none` when the text is
not validly percent-encoded. -/
def percentDecode (v : String) : Option String :=
  match percentBytes v.data with
  | some bs => some (String.mk (utf8Decode bs))
  | none => none

/-- A text with every '+' replaced by a space. -/
def plusToSpace (v : String) : String :=
  String.mk (v.data.map (fun c => if c = '+' then ' ' else c))

/-- The port that follows a bracketed literal: the text after the ':' when the
literal is followed by ':', nothing otherwise. -/
def portAfterBracket (tail : List Char) : List Char :=
  match tail with
  | [] => []
  | c :: rest => if c = ':' then rest else []

/-- A text that `strconv.Atoi` reads as an integer from 1 to 65535. -/
def isPortNumber (p : List Char) : Prop :=
  (Atoi (String.mk p)).2 = true ∧ 0 < (Atoi (String.mk p)).1 ∧ (Atoi (String.mk p)).1 ≤ 65535

instance (p : List Char) : Decidable (isPortNumber p) := by
  unfold isPortNumber; infer_instance

/-- A segment that starts with a bracketed literal: it starts with '[' and holds a
']'. -/
def startsBracketed (part : List Char) : Prop := part.head? = some '[' ∧ ']' ∈ part

instance (part : List Char) : Decidable (startsBracketed part) := by
  unfold startsBracketed; infer_instance

/-! ## Pagination of `HandleSearchEndpointLogs` -/

/-- A Go `int` on a 64-bit platform: the result of an arithmetic operation is
reduced to the signed 64-bit range. -/
def wrapInt (x : Int) : Int := (x + 2 ^ 63) % 2 ^ 64 - 2 ^ 63

/-- The query of the request (`url.Values`) as its key and value pairs in order,
with `url.Values.Get`: the first value of the key, the empty string when the key
is missing. -/
def queryGet (q : List (String × String)) (key : String) : String :=
  match q.find? (fun kv => decide (kv.1 = key)) with
  | some kv => kv.2
  | none => ""

/-- The variable `page` after lines 620 to 623: the value of `strconv.Atoi`, its
error discarded, replaced by 1 when it is not positive. -/
def effectivePage (q : List (String × String)) : Int :=
  let page := (Atoi (queryGet q "page")).1
  if page ≤ 0 then 1 else page

/-- The variable `size` after lines 624 to 627, with the default 20. -/
def effectiveSize (q : List (String × String)) : Int :=
  let size := (Atoi (queryGet q "size")).1
  if size ≤ 0 then 20 else size

/-- The variable `offset` of line 682, `(page - 1) * size` in `int` arithmetic. -/
def pageOffset (page size : Int) : Int := wrapInt (wrapInt (page - 1) * size)

/-- The closure that computes `totalPages` (lines 734 to 743). The operators `/`
and `%` of Go truncate toward zero. -/
def totalPages (total size : Int) : Int :=
  if size = 0 then 0
  else if total.tmod size = 0 then wrapInt (total.tdiv size)
  else wrapInt (total.tdiv size + 1)

/-- A string that `strconv.Atoi` reads as a number: an optional sign followed by
at least one decimal digit. -/
def isNumeric (s : String) : Bool :=
  match s.data with
  | [] => false
  | c :: cs =>
    let body := if c = '-' ∨ c = '+' then cs else c :: cs
    decide (body ≠ []) && body.all isDigit

/-! ## Recycle bin and endpoint deletion -/

/-- `strconv.ParseInt(s, 10, 64)`: the value when the error is nil. In base 10 and
with 64 bits it accepts the strings that `strconv.Atoi` accepts, with the same
values. -/
def ParseInt (s : String) : Option Int :=
  if (Atoi s).2 = true then some (Atoi s).1 else none

/-- A row of the table `TunnelRecycle`, with the columns that the statements of
the handlers below name. -/
structure RecycleRow where
  id : Int
  endpointId : Int
  instanceId : Option String
deriving DecidableEq, Repr

/-- A row of the table `EndpointSSE`, the event journal, with the columns that the
statements of this file name. -/
structure JournalRow where
  id : Int
  endpointId : Int
  instanceId : Option String
  eventType : String
  logs : String
  createdAt : String
deriving DecidableEq, Repr

/-- The tables that the deletion handlers read and write. -/
structure Store where
  tunnels : List Tunnel
  recycle : List RecycleRow
  journal : List JournalRow
deriving DecidableEq, Repr

/-- A call that a handler makes on the session manager, the endpoint service or
the file log store. -/
inductive Call where
  | disconnectEndpoint (endpointID : Int)
  | deleteEndpoint (endpointID : Int)
  | clearLogs (endpointID : Int) (instanceID : String)
deriving DecidableEq, Repr

/-- The session manager `sse.Manager` (package `internal/sse`, not among the
sources) as far as the handlers look at it: whether `GetFileLogger()` returns a
logger or nil. -/
structure Manager where
  hasFileLogger : Bool
deriving DecidableEq, Repr

/-- The handler: its session manager, nil or present, and the method
`DeleteEndpoint` of its endpoint service (package `internal/endpoint`, not among
the sources), taken as a parameter: whether the error is nil and the tables it
leaves. -/
structure EndpointHandler where
  sseManager : Option Manager
  DeleteEndpoint : Store → Int → Bool × Store

/-- Which storage steps of a handler fail during one call. -/
structure HandlerFaults where
  selectTunnel : Bool
  selectRecycle : Bool
  beginTx : Bool
  deleteRecycle : Bool
  deleteJournal : Bool
  commit : Bool
deriving DecidableEq, Repr

/-- No storage step fails. -/
def noHandlerFaults : HandlerFaults :=
  { selectTunnel := false, selectRecycle := false, beginTx := false, deleteRecycle := false,
    deleteJournal := false, commit := false }

/-- The status written to the response. -/
inductive Reply where
  | methodNotAllowed
  | badRequest
  | notFound
  | internalError
  | success
deriving DecidableEq, Repr

/-- Whether the guard `h.sseManager != nil && h.sseManager.GetFileLogger() != nil`
holds. -/
def hasFileLogger (h : EndpointHandler) : Bool :=
  match h.sseManager with
  | some m => m.hasFileLogger
  | none => false

/-- Embedding of `HandleRecycleDelete`: the response, the committed tables and the
calls made on the file log store. A path that rolls back, or fails to begin or to
commit, leaves the tables as they were. -/
def HandleRecycleDelete (h : EndpointHandler) (F : HandlerFaults) (method epStr recStr : String)
    (db : Store) : Reply × Store × List Call :=
  if method ≠ "DELETE" then (.methodNotAllowed, db, [])
  else
    match ParseInt epStr, ParseInt recStr with
    | some endpointID, some recycleID =>
      if F.selectRecycle then (.internalError, db, [])
      else
        match db.recycle.find? (fun r => decide (r.id = recycleID ∧ r.endpointId = endpointID)) with
        | none => (.notFound, db, [])
        | some row =>
          if F.beginTx then (.internalError, db, [])
          else if F.deleteRecycle then (.internalError, db, [])
          else
            let recycle2 := db.recycle.filter (fun r => decide (r.id ≠ recycleID))
            match row.instanceId with
            | some instanceID =>
              if F.deleteJournal then (.internalError, db, [])
              else
                let journal2 := db.journal.filter (fun j =>
                  decide (¬ (j.endpointId = endpointID ∧ j.instanceId = some instanceID)))
                if F.commit then (.internalError, db, [])
                else
                  (.success, { db with recycle := recycle2, journal := journal2 },
                    if hasFileLogger h then [.clearLogs endpointID instanceID] else [])
            | none =>
              if F.commit then (.internalError, db, [])
              else (.success, { db with recycle := recycle2 }, [])
    | _, _ => (.badRequest, db, [])

/-- The values of a `SELECT DISTINCT`: each value once, in the order of its first
occurrence. -/
def distinct : List String → List String
  | [] => []
  | x :: xs => x :: (distinct xs).filter (fun y => decide (y ≠ x))

/-- The instance ids that `HandleDeleteEndpoint` collects from the rows of
`SELECT DISTINCT instanceId FROM ... WHERE endpointId = ? AND instanceId IS NOT
NULL`, given the `instanceId` column of the rows of the endpoint: the empty
string is passed over. -/
def collectIDs (column : List (Option String)) : List String :=
  (distinct (column.filterMap id)).filter (fun i => decide (i ≠ ""))

/-- The slice `instanceIDs` of `HandleDeleteEndpoint` before the deletion: the ids
from `Tunnel`, then those from `TunnelRecycle`; a query that fails contributes
nothing. -/
def instanceIDsOf (F : HandlerFaults) (db : Store) (id : Int) : List String :=
  (if F.selectTunnel then []
    else collectIDs ((db.tunnels.filter (fun t => decide (t.endpointId = id))).map
      (fun t => t.instanceId))) ++
  (if F.selectRecycle then []
    else collectIDs ((db.recycle.filter (fun r => decide (r.endpointId = id))).map
      (fun r => r.instanceId)))

/-- Embedding of `HandleDeleteEndpoint`: the response, the tables that
`DeleteEndpoint` leaves and the calls made, in the order in which they are
made. -/
def HandleDeleteEndpoint (h : EndpointHandler) (F : HandlerFaults) (method idStr : String)
    (db : Store) : Reply × Store × List Call :=
  if method ≠ "DELETE" then (.methodNotAllowed, db, [])
  else
    match ParseInt idStr with
    | none => (.badRequest, db, [])
    | some id =>
      let instanceIDs := instanceIDsOf F db id
      let calls1 : List Call :=
        match h.sseManager with
        | some _ => [.disconnectEndpoint id]
        | none => []
      let deleted := h.DeleteEndpoint db id
      if deleted.1 = false then (.badRequest, deleted.2, calls1 ++ [.deleteEndpoint id])
      else
        (.success, deleted.2,
          calls1 ++ [.deleteEndpoint id] ++
            (if hasFileLogger h then instanceIDs.map (fun i => Call.clearLogs id i) else []))

/-- Result of `SELECT endpointId, instanceId FROM "TunnelRecycle" WHERE instanceId
IS NOT NULL`. -/
def recycleItems (db : Store) : List (Int × String) :=
  db.recycle.filterMap (fun r => r.instanceId.map (fun i => (r.endpointId, i)))

/-- Whether `DELETE FROM "EndpointSSE" WHERE instanceId IN (SELECT instanceId FROM
"TunnelRecycle" WHERE instanceId IS NOT NULL)` selects a journal row: its
instance id is not NULL and is the instance id of a recycle row. -/
def inRecycledInstances (db : Store) (j : JournalRow) : Bool :=
  match j.instanceId with
  | some i => db.recycle.any (fun r => decide (r.instanceId = some i))
  | none => false

/-- Embedding of `HandleRecycleClearAll`: the response, the committed tables and
the calls made on the file log store. -/
def HandleRecycleClearAll (h : EndpointHandler) (F : HandlerFaults) (method : String)
    (db : Store) : Reply × Store × List Call :=
  if method ≠ "DELETE" then (.methodNotAllowed, db, [])
  else
    let items := if F.selectRecycle then [] else recycleItems db
    if F.beginTx then (.internalError, db, [])
    else if F.deleteJournal then (.internalError, db, [])
    else
      let journal2 := db.journal.filter (fun j => ! inRecycledInstances db j)
      if F.deleteRecycle then (.internalError, db, [])
      else if F.commit then (.internalError, db, [])
      else
        (.success, { db with recycle := [], journal := journal2 },
          if hasFileLogger h then items.map (fun it => Call.clearLogs it.1 it.2) else [])

/-- The (endpoint, instance) pairs of the recycle bin. -/
def recycledPair (db : Store) (E : Int) (i : String) : Prop :=
  ∃ r ∈ db.recycle, r.endpointId = E ∧ r.instanceId = some i

instance (db : Store) (E : Int) (i : String) : Decidable (recycledPair db E i) := by
  unfold recycledPair; infer_instance

/-! ## Sample data for the handlers -/

/-- A journal row of event type "log". -/
def demoJournal (id endpointID : Int) (iid : Option String) : JournalRow :=
  { id := id, endpointId := endpointID, instanceId := iid, eventType := "log",
    logs := "INFO ready", createdAt := "2024-05-01 10:00:00" }

/-- A sample `DeleteEndpoint` that succeeds and removes the rows of the endpoint
from the three tables. -/
def demoDeleteEndpoint (db : Store) (id : Int) : Bool × Store :=
  (true,
    { tunnels := db.tunnels.filter (fun t => decide (t.endpointId ≠ id)),
      recycle := db.recycle.filter (fun r => decide (r.endpointId ≠ id)),
      journal := db.journal.filter (fun j => decide (j.endpointId ≠ id)) })

/-- A handler with a session manager and a file logger. -/
def demoHandler : EndpointHandler :=
  { sseManager := some { hasFileLogger := true }, DeleteEndpoint := demoDeleteEndpoint }

/-- A handler whose session manager has no file logger. -/
def demoHandlerNoLogger : EndpointHandler :=
  { sseManager := some { hasFileLogger := false }, DeleteEndpoint := demoDeleteEndpoint }

/-- A handler without session manager. -/
def demoHandlerNoManager : EndpointHandler :=
  { sseManager := none, DeleteEndpoint := demoDeleteEndpoint }

/-- Tables where endpoint 1 has the tunnel "x" and the recycled instance "old", and
endpoint 2 the tunnel "old"; the journal has records of both "old" pairs. -/
def demoStore : Store :=
  { tunnels := [demoRow 1 1 (some "x") "auto-x", demoRow 2 2 (some "old") "auto-old"],
    recycle := [{ id := 5, endpointId := 1, instanceId := some "old" }],
    journal := [demoJournal 1 1 (some "old"), demoJournal 2 2 (some "old"),
      demoJournal 3 1 (some "x"), demoJournal 4 1 none] }

/-- A state where endpoint 2 holds a row for the instance id "x" and endpoint 1
holds no row. -/
def demoSharedDB : DB :=
  { endpoints := [demoEndpoint 1 0, demoEndpoint 2 1],
    tunnels := [demoRow 7 2 (some "x") "theirs"] }

/-- A snapshot that reports "x" with a type and "gone" without one. -/
def demoUntypedSnapshot : List Instance :=
  [demoInstance "x" "server" "server://0.0.0.0:10101/127.0.0.1:8080?tls=1" "web",
    demoInstance "gone" "" "" ""]

theorem typed_cons (inst : Instance) (S : List Instance) :
    typed (inst :: S) = if inst.Typ = "" then typed S else inst :: typed S := by
  unfold typed
  by_cases h : inst.Typ = "" <;> simp [List.filter_cons, h]

theorem upsertLoop_ok (F : Faults) (E : Int) (now : Nat) (S : List Instance) :
    ∀ (i : Nat) (tx : List Tunnel) (idSet : List String) (r : List Tunnel × List String),
      upsertLoop F E now i S tx idSet = .ok r →
        r.1 = upsertAll E now S tx ∧ r.2 = (seenIDs S).reverse ++ idSet := by
  induction S with
  | nil =>
    intro i tx idSet r h
    simp only [upsertLoop, Except.ok.injEq] at h
    subst h
    simp [upsertAll, seenIDs, typed]
  | cons inst rest ih =>
    intro i tx idSet r h
    unfold upsertLoop at h
    by_cases hT : inst.Typ = ""
    · simp only [hT, if_true] at h
      have := ih _ _ _ _ h
      simpa [upsertAll, seenIDs, typed_cons, hT] using this
    · simp only [hT, if_false] at h
      by_cases hq : F.query i = true
      · simp [hq] at h
      · simp only [hq] at h
        cases hf : findTunnel tx inst.ID with
        | none =>
          simp only [hf] at h
          by_cases hw : F.write i = true
          · simp [hw] at h
          · simp only [hw] at h
            have := ih _ _ _ _ h
            simpa [upsertAll, seenIDs, typed_cons, hT, upsertOne, hf] using this
        | some row =>
          simp only [hf] at h
          by_cases hw : F.write i = true
          · simp [hw] at h
          · simp only [hw] at h
            have := ih _ _ _ _ h
            simpa [upsertAll, seenIDs, typed_cons, hT, upsertOne, hf] using this

theorem upsertLoop_quiet (F : Faults) (E : Int) (now : Nat) (S : List Instance)
    (hq : ∀ n, F.query n = false) (hw : ∀ n, F.write n = false) :
    ∀ (i : Nat) (tx : List Tunnel) (idSet : List String),
      upsertLoop F E now i S tx idSet =
        .ok (upsertAll E now S tx, (seenIDs S).reverse ++ idSet) := by
  induction S with
  | nil => intro i tx idSet; simp [upsertLoop, upsertAll, seenIDs, typed]
  | cons inst rest ih =>
    intro i tx idSet
    unfold upsertLoop
    by_cases hT : inst.Typ = ""
    · simp [hT, ih, upsertAll, seenIDs, typed_cons]
    · cases hf : findTunnel tx inst.ID <;>
        simp [hT, hq, hw, ih, upsertAll, seenIDs, typed_cons, upsertOne, hf]

theorem doomedOf_cons_none (idSet : List String) (id : Int) (rows : List (Int × Option String)) :
    doomedOf idSet ((id, none) :: rows) = doomedOf idSet rows := by
  simp [doomedOf, List.filterMap_cons]

theorem doomedOf_cons_seen (idSet : List String) (id : Int) (iid : String)
    (rows : List (Int × Option String)) (h : iid ∈ idSet) :
    doomedOf idSet ((id, some iid) :: rows) = doomedOf idSet rows := by
  simp [doomedOf, List.filterMap_cons, h]

theorem doomedOf_cons_unseen (idSet : List String) (id : Int) (iid : String)
    (rows : List (Int × Option String)) (h : iid ∉ idSet) :
    doomedOf idSet ((id, some iid) :: rows) = id :: doomedOf idSet rows := by
  simp [doomedOf, List.filterMap_cons, h]

theorem filter_delete_step (tx : List Tunnel) (id : Int) (ds : List Int) :
    (tx.filter (fun t => decide (t.id ≠ id))).filter (fun t => decide (t.id ∉ ds)) =
      tx.filter (fun t => decide (t.id ∉ id :: ds)) := by
  rw [List.filter_filter]
  apply List.filter_congr
  intro t _
  by_cases h1 : t.id = id <;> by_cases h2 : t.id ∈ ds <;> simp [h1, h2]

theorem deleteLoop_ok (F : Faults) (idSet : List String) (rows : List (Int × Option String)) :
    ∀ (tx tx2 : List Tunnel), deleteLoop F idSet rows tx = .ok tx2 →
      tx2 = tx.filter (fun t => decide (t.id ∉ doomedOf idSet rows)) := by
  induction rows with
  | nil => intro tx tx2 h; simp [deleteLoop] at h; simp [doomedOf, h]
  | cons r rest ih =>
    intro tx tx2 h
    obtain ⟨id, oi⟩ := r
    cases oi with
    | none =>
      simp only [deleteLoop] at h
      rw [doomedOf_cons_none]
      exact ih _ _ h
    | some iid =>
      simp only [deleteLoop] at h
      by_cases hm : iid ∈ idSet
      · simp only [hm, if_true] at h
        rw [doomedOf_cons_seen _ _ _ _ hm]
        exact ih _ _ h
      · simp only [hm, if_false] at h
        by_cases hd : F.delete id = true
        · simp [hd] at h
        · simp only [hd] at h
          rw [doomedOf_cons_unseen _ _ _ _ hm, ih _ _ h, filter_delete_step]

theorem deleteLoop_quiet (F : Faults) (idSet : List String) (hd : ∀ n, F.delete n = false)
    (rows : List (Int × Option String)) :
    ∀ (tx : List Tunnel), deleteLoop F idSet rows tx =
      .ok (tx.filter (fun t => decide (t.id ∉ doomedOf idSet rows))) := by
  induction rows with
  | nil => intro tx; simp [deleteLoop, doomedOf]
  | cons r rest ih =>
    intro tx
    obtain ⟨id, oi⟩ := r
    cases oi with
    | none =>
      simp only [deleteLoop]
      rw [doomedOf_cons_none]
      exact ih tx
    | some iid =>
      by_cases hm : iid ∈ idSet
      · simp only [deleteLoop, hm, if_true]
        rw [doomedOf_cons_seen _ _ _ _ hm]
        exact ih tx
      · have h1 : deleteLoop F idSet ((id, some iid) :: rest) tx =
            deleteLoop F idSet rest (tx.filter (fun t => decide (t.id ≠ id))) := by
          simp [deleteLoop, hm, hd]
        rw [h1, doomedOf_cons_unseen _ _ _ _ hm, ← filter_delete_step]
        exact ih _

theorem doomedOf_congr (a b : List String) (h : ∀ x, x ∈ a ↔ x ∈ b)
    (rows : List (Int × Option String)) : doomedOf a rows = doomedOf b rows := by
  unfold doomedOf
  apply List.filterMap_congr
  intro r _
  cases r.2 with
  | none => rfl
  | some iid => simp [h iid]

theorem purge_reverse (E : Int) (idSet : List String) (tx : List Tunnel) :
    purge E (idSet.reverse ++ []) tx = purge E idSet tx := by
  unfold purge
  rw [doomedOf_congr (idSet.reverse ++ []) idSet (by simp)]

/-- What a call that returns nil has done: the snapshot was fetched, the endpoint
exists, the table `Tunnel` is the reconciled one and the tunnel count was
recomputed unless its statement failed. -/
theorem refreshTunnels_commit (F : Faults) (now : Nat) (snapshot : Option (List Instance))
    (db db2 : DB) (E : Int) (h : refreshTunnels F now snapshot db E = (none, db2)) :
    ∃ S, snapshot = some S ∧ (∃ ep ∈ db.endpoints, ep.id = E) ∧
      db2.tunnels = reconcile E now S db.tunnels ∧
      db2.endpoints =
        if F.count = true then db.endpoints
        else (updateTunnelCount E { db with tunnels := reconcile E now S db.tunnels }).endpoints := by
  unfold refreshTunnels at h
  cases hg : GetEndpointByID F db E with
  | none => simp [hg] at h
  | some ep =>
    simp only [hg] at h
    cases snapshot with
    | none => simp at h
    | some S =>
      simp only at h
      by_cases hb : F.beginTx = true
      · simp [hb] at h
      · simp only [hb] at h
        cases hu : upsertLoop F E now 0 S db.tunnels [] with
        | error e => simp [hu] at h
        | ok r =>
          obtain ⟨tx1, idSet⟩ := r
          simp only [hu] at h
          by_cases hl : F.list = true
          · simp [hl] at h
          · simp only [hl] at h
            cases hd : deleteLoop F idSet (listTunnels E tx1) tx1 with
            | error e => simp [hd] at h
            | ok tx2 =>
              simp only [hd] at h
              by_cases hc : F.commit = true
              · simp [hc] at h
              · simp only [hc, if_false, Bool.false_eq_true, Prod.mk.injEq, true_and] at h
                obtain ⟨h1, h2⟩ := upsertLoop_ok F E now S 0 db.tunnels [] _ hu
                simp only at h1 h2
                have h3 := deleteLoop_ok F idSet _ _ _ hd
                have h4 : tx2 = reconcile E now S db.tunnels := by
                  rw [h3, h2, h1]
                  exact purge_reverse E (seenIDs S) _
                refine ⟨S, rfl, ?_, ?_, ?_⟩
                · unfold GetEndpointByID at hg
                  by_cases hge : F.getEndpoint = true
                  · simp [hge] at hg
                  · simp only [hge] at hg
                    have hm := List.mem_of_find?_eq_some hg
                    have hp := List.find?_some hg
                    exact ⟨ep, hm, by simpa using hp⟩
                · subst h
                  by_cases hcount : F.count = true <;> simp [hcount, h4, updateTunnelCount]
                · subst h
                  by_cases hcount : F.count = true <;> simp [hcount, h4, updateTunnelCount]

/-- A call that returns an error leaves both tables as they were. -/
theorem refreshTunnels_rollback (F : Faults) (now : Nat) (snapshot : Option (List Instance))
    (db : DB) (E : Int) (e : RefreshError)
    (h : (refreshTunnels F now snapshot db E).1 = some e) :
    (refreshTunnels F now snapshot db E).2 = db := by
  unfold refreshTunnels at h ⊢
  cases hg : GetEndpointByID F db E with
  | none => simp
  | some ep =>
    simp only [hg] at h ⊢
    cases snapshot with
    | none => simp
    | some S =>
      simp only at h ⊢
      by_cases hb : F.beginTx = true
      · simp [hb]
      · simp only [hb] at h ⊢
        cases hu : upsertLoop F E now 0 S db.tunnels [] with
        | error e => simp
        | ok r =>
          obtain ⟨tx1, idSet⟩ := r
          simp only [hu] at h ⊢
          by_cases hl : F.list = true
          · simp [hl]
          · simp only [hl] at h ⊢
            cases hd : deleteLoop F idSet (listTunnels E tx1) tx1 with
            | error e => simp
            | ok tx2 =>
              simp only [hd] at h ⊢
              by_cases hc : F.commit = true
              · simp [hc]
              · simp [hc] at h

/-- When no storage step fails, the snapshot is fetched and the endpoint exists,
the call returns nil and commits the reconciled table and the recomputed count. -/
theorem refreshTunnels_noFaults (now : Nat) (S : List Instance) (db : DB) (E : Int)
    (hE : ∃ ep ∈ db.endpoints, ep.id = E) :
    refreshTunnels noFaults now (some S) db E =
      (none, updateTunnelCount E { db with tunnels := reconcile E now S db.tunnels }) := by
  unfold refreshTunnels
  have hg : ∃ ep, GetEndpointByID noFaults db E = some ep := by
    unfold GetEndpointByID
    obtain ⟨ep, hm, hid⟩ := hE
    cases hf : db.endpoints.find? (fun ep => decide (ep.id = E)) with
    | none =>
      have := List.find?_eq_none.mp hf ep hm
      simp [hid] at this
    | some ep2 => exact ⟨ep2, by simp [noFaults, hf]⟩
  obtain ⟨ep, hg⟩ := hg
  simp only [hg]
  rw [upsertLoop_quiet noFaults E now S (fun _ => rfl) (fun _ => rfl)]
  simp only [noFaults, Bool.false_eq_true, if_false]
  rw [deleteLoop_quiet _ _ (fun _ => rfl)]
  simp only [reconcile]
  rw [← purge_reverse]
  rfl

/-! ## Keys of the rows: what the statements never change -/

@[simp]
theorem updatedTunnel_id (now : Nat) (inst : Instance) (t : Tunnel) :
    (updatedTunnel now inst t).id = t.id := rfl

@[simp]
theorem updatedTunnel_endpointId (now : Nat) (inst : Instance) (t : Tunnel) :
    (updatedTunnel now inst t).endpointId = t.endpointId := rfl

@[simp]
theorem updatedTunnel_instanceId (now : Nat) (inst : Instance) (t : Tunnel) :
    (updatedTunnel now inst t).instanceId = t.instanceId := rfl

theorem findTunnel_some {tx : List Tunnel} {x : String} {row : Tunnel}
    (h : findTunnel tx x = some row) : row ∈ tx ∧ row.instanceId = some x := by
  unfold findTunnel at h
  exact ⟨List.mem_of_find?_eq_some h, by simpa using List.find?_some h⟩

theorem findTunnel_none {tx : List Tunnel} {x : String}
    (h : findTunnel tx x = none) : ∀ t ∈ tx, t.instanceId ≠ some x := by
  unfold findTunnel at h
  intro t ht
  simpa using List.find?_eq_none.mp h t ht

theorem le_foldl_max (tx : List Tunnel) :
    ∀ (m : Int), m ≤ tx.foldl (fun m t => max m t.id) m ∧
      ∀ t ∈ tx, t.id ≤ tx.foldl (fun m t => max m t.id) m := by
  induction tx with
  | nil => intro m; simp
  | cons a rest ih =>
    intro m
    simp only [List.foldl_cons, List.mem_cons]
    obtain ⟨h1, h2⟩ := ih (max m a.id)
    refine ⟨le_trans (le_max_left _ _) h1, ?_⟩
    intro t ht
    rcases ht with rfl | ht
    · exact le_trans (le_max_right _ _) h1
    · exact h2 t ht

theorem lt_freshId (tx : List Tunnel) : ∀ t ∈ tx, t.id < freshId tx := by
  intro t ht
  cases tx with
  | nil => simp at ht
  | cons a rest =>
    obtain ⟨h1, h2⟩ := le_foldl_max rest a.id
    simp only [freshId]
    rcases List.mem_cons.mp ht with rfl | ht
    · omega
    · have := h2 t ht
      omega

theorem execUpdate_ids (now : Nat) (inst : Instance) (id : Int) (tx : List Tunnel) :
    (execUpdate now inst id tx).map (fun t => t.id) = tx.map (fun t => t.id) := by
  unfold execUpdate
  rw [List.map_map]
  apply List.map_congr_left
  intro t _
  by_cases h : t.id = id <;> simp [h]

theorem upsertOne_distinctIds (E : Int) (now : Nat) (tx : List Tunnel) (inst : Instance)
    (h : DistinctIds tx) : DistinctIds (upsertOne E now tx inst) := by
  unfold upsertOne
  cases hf : findTunnel tx inst.ID with
  | none =>
    simp only [DistinctIds, execInsert, List.map_append, List.map_cons, List.map_nil]
    rw [List.nodup_append]
    refine ⟨h, List.nodup_singleton _, ?_⟩
    intro a ha hb
    simp only [List.mem_singleton] at hb
    obtain ⟨t, ht, rfl⟩ := List.mem_map.mp ha
    have := lt_freshId tx t ht
    simp only [insertedTunnel] at hb
    omega
  | some row =>
    simp only [DistinctIds, execUpdate_ids]
    exact h

theorem foldl_upsert_distinctIds (E : Int) (now : Nat) (L : List Instance) :
    ∀ (tx : List Tunnel), DistinctIds tx → DistinctIds (L.foldl (upsertOne E now) tx) := by
  induction L with
  | nil => intro tx h; simpa using h
  | cons inst rest ih =>
    intro tx h
    simp only [List.foldl_cons]
    exact ih _ (upsertOne_distinctIds E now tx inst h)

theorem upsertAll_distinctIds (E : Int) (now : Nat) (S : List Instance) (tx : List Tunnel)
    (h : DistinctIds tx) : DistinctIds (upsertAll E now S tx) :=
  foldl_upsert_distinctIds E now (typed S) tx h

/-- In a table with distinct ids, two rows with the same id are the same row. -/
theorem eq_of_id_eq {tx : List Tunnel} (h : DistinctIds tx) {a b : Tunnel}
    (ha : a ∈ tx) (hb : b ∈ tx) (hid : a.id = b.id) : a = b :=
  List.inj_on_of_nodup_map h ha hb hid

/-- The delete loop removes from a table with distinct ids exactly the rows of the
endpoint that carry an instance id outside the set. -/
theorem mem_purge {E : Int} {idSet : List String} {tx : List Tunnel} (h : DistinctIds tx)
    (t : Tunnel) :
    t ∈ purge E idSet tx ↔
      t ∈ tx ∧ ¬ (t.endpointId = E ∧ ∃ iid, t.instanceId = some iid ∧ iid ∉ idSet) := by
  unfold purge
  simp only [List.mem_filter, decide_eq_true_eq, and_congr_right_iff]
  intro ht
  simp only [doomedOf, listTunnels, List.mem_filterMap, List.mem_map, List.mem_filter,
    decide_eq_true_eq, not_iff_not]
  constructor
  · rintro ⟨r, ⟨u, ⟨hu, huE⟩, rfl⟩, hr⟩
    simp only at hr
    cases hi : u.instanceId with
    | none => simp [hi] at hr
    | some iid =>
      simp only [hi] at hr
      by_cases hm : iid ∈ idSet
      · simp [hm] at hr
      · simp only [hm, if_false, Option.some.injEq] at hr
        have : u = t := eq_of_id_eq h hu ht hr
        subst this
        exact ⟨huE, iid, hi, hm⟩
  · rintro ⟨hE, iid, hi, hm⟩
    exact ⟨(t.id, t.instanceId), ⟨t, ⟨ht, hE⟩, rfl⟩, by simp [hi, hm]⟩

/-- Whatever the ids, no row of the endpoint with an instance id outside the set
is left by the delete loop. -/
theorem purge_clean {E : Int} {idSet : List String} {tx : List Tunnel} (t : Tunnel)
    (ht : t ∈ purge E idSet tx) (hE : t.endpointId = E) (iid : String)
    (hi : t.instanceId = some iid) : iid ∈ idSet := by
  unfold purge at ht
  simp only [List.mem_filter, decide_eq_true_eq] at ht
  by_contra hm
  apply ht.2
  simp only [doomedOf, listTunnels, List.mem_filterMap, List.mem_map, List.mem_filter,
    decide_eq_true_eq]
  exact ⟨(t.id, t.instanceId), ⟨t, ⟨ht.1, hE⟩, rfl⟩, by simp [hi, hm]⟩

theorem upsertOne_sameKey (E : Int) (now : Nat) (tx : List Tunnel) (inst : Instance)
    (t : Tunnel) (ht : t ∈ tx) : ∃ t2 ∈ upsertOne E now tx inst, SameKey t2 t := by
  unfold upsertOne
  cases hf : findTunnel tx inst.ID with
  | none => exact ⟨t, by simp [execInsert, ht], rfl, rfl, rfl⟩
  | some row =>
    refine ⟨if t.id = row.id then updatedTunnel now inst t else t, ?_, ?_⟩
    · exact List.mem_map.mpr ⟨t, ht, rfl⟩
    · by_cases h : t.id = row.id <;> simp [h, SameKey]

theorem foldl_upsert_sameKey (E : Int) (now : Nat) (L : List Instance) :
    ∀ (tx : List Tunnel) (t : Tunnel), t ∈ tx →
      ∃ t2 ∈ L.foldl (upsertOne E now) tx, SameKey t2 t := by
  induction L with
  | nil => intro tx t ht; exact ⟨t, by simpa using ht, rfl, rfl, rfl⟩
  | cons inst rest ih =>
    intro tx t ht
    simp only [List.foldl_cons]
    obtain ⟨t1, h1, k1⟩ := upsertOne_sameKey E now tx inst t ht
    obtain ⟨t2, h2, k2⟩ := ih _ t1 h1
    exact ⟨t2, h2, k2.1.trans k1.1, k2.2.1.trans k1.2.1, k2.2.2.trans k1.2.2⟩

theorem upsertAll_sameKey (E : Int) (now : Nat) (S : List Instance) (tx : List Tunnel)
    (t : Tunnel) (ht : t ∈ tx) : ∃ t2 ∈ upsertAll E now S tx, SameKey t2 t :=
  foldl_upsert_sameKey E now (typed S) tx t ht

/-- Where a row of the table after one iteration comes from: a row that was there
with the same key, or the insert of this entry for this endpoint. -/
theorem upsertOne_origin (E : Int) (now : Nat) (tx : List Tunnel) (inst : Instance)
    (t2 : Tunnel) (h : t2 ∈ upsertOne E now tx inst) :
    (∃ t ∈ tx, SameKey t2 t) ∨
      (t2.endpointId = E ∧ t2.instanceId = some inst.ID ∧ findTunnel tx inst.ID = none) := by
  unfold upsertOne at h
  cases hf : findTunnel tx inst.ID with
  | none =>
    simp only [hf, execInsert, List.mem_append, List.mem_singleton] at h
    rcases h with h | h
    · exact Or.inl ⟨t2, h, rfl, rfl, rfl⟩
    · right; subst h; simp [insertedTunnel]
  | some row =>
    simp only [hf, execUpdate, List.mem_map] at h
    obtain ⟨t, ht, rfl⟩ := h
    left
    refine ⟨t, ht, ?_⟩
    by_cases hid : t.id = row.id <;> simp [hid, SameKey]

theorem foldl_upsert_origin (E : Int) (now : Nat) (L : List Instance) :
    ∀ (tx : List Tunnel) (t2 : Tunnel), t2 ∈ L.foldl (upsertOne E now) tx →
      (∃ t ∈ tx, SameKey t2 t) ∨
        (t2.endpointId = E ∧ ∃ i ∈ L, t2.instanceId = some i.ID) := by
  induction L with
  | nil => intro tx t2 h; exact Or.inl ⟨t2, by simpa using h, rfl, rfl, rfl⟩
  | cons inst rest ih =>
    intro tx t2 h
    simp only [List.foldl_cons] at h
    rcases ih _ t2 h with ⟨t1, h1, k1⟩ | ⟨hE, i, hi, hid⟩
    · rcases upsertOne_origin E now tx inst t1 h1 with ⟨t, ht, k⟩ | ⟨hE, hid, _⟩
      · exact Or.inl ⟨t, ht, k1.1.trans k.1, k1.2.1.trans k.2.1, k1.2.2.trans k.2.2⟩
      · exact Or.inr ⟨k1.2.1.trans hE, inst, by simp, k1.2.2.trans hid⟩
    · exact Or.inr ⟨hE, i, by simp [hi], hid⟩

theorem upsertAll_origin (E : Int) (now : Nat) (S : List Instance) (tx : List Tunnel)
    (t2 : Tunnel) (h : t2 ∈ upsertAll E now S tx) :
    (∃ t ∈ tx, SameKey t2 t) ∨
      (t2.endpointId = E ∧ ∃ i ∈ typed S, t2.instanceId = some i.ID) :=
  foldl_upsert_origin E now (typed S) tx t2 h

theorem mem_seenIDs {S : List Instance} {x : String} :
    x ∈ seenIDs S ↔ ∃ i ∈ typed S, i.ID = x := by
  simp [seenIDs]

theorem upsertOne_uniquePairs (E : Int) (now : Nat) (tx : List Tunnel) (inst : Instance)
    (h : UniquePairs tx) : UniquePairs (upsertOne E now tx inst) := by
  unfold upsertOne
  cases hf : findTunnel tx inst.ID with
  | none =>
    simp only [UniquePairs, execInsert]
    rw [List.pairwise_append]
    refine ⟨h, List.pairwise_singleton _ _, ?_⟩
    intro a ha b hb
    simp only [List.mem_singleton] at hb
    subst hb
    intro hp
    exact findTunnel_none hf a ha (by simpa [insertedTunnel] using hp.2.2)
  | some row =>
    simp only [UniquePairs, execUpdate]
    rw [List.pairwise_map]
    refine List.Pairwise.imp ?_ h
    intro a b hab hp
    apply hab
    by_cases ha : a.id = row.id <;> by_cases hb : b.id = row.id <;>
      simpa [SamePair, ha, hb] using hp

theorem reconcile_uniquePairs (E : Int) (now : Nat) (S : List Instance) (tx : List Tunnel)
    (h : UniquePairs tx) : UniquePairs (reconcile E now S tx) := by
  have h1 : ∀ (L : List Instance) (tx : List Tunnel), UniquePairs tx →
      UniquePairs (L.foldl (upsertOne E now) tx) := by
    intro L
    induction L with
    | nil => intro tx h; simpa using h
    | cons inst rest ih =>
      intro tx h
      simp only [List.foldl_cons]
      exact ih _ (upsertOne_uniquePairs E now tx inst h)
  unfold reconcile purge
  exact List.Pairwise.sublist (List.filter_sublist _) (h1 _ _ h)

theorem upsertLoop_fault (F : Faults) (E : Int) (now : Nat) (S : List Instance) :
    ∀ (k : Nat) (tx : List Tunnel) (idSet : List String),
      (∃ j inst, S[j]? = some inst ∧ inst.Typ ≠ "" ∧
        (F.query (k + j) = true ∨ F.write (k + j) = true)) →
      ∃ e, upsertLoop F E now k S tx idSet = .error e := by
  induction S with
  | nil => intro k tx idSet ⟨j, inst, hj, _⟩; simp at hj
  | cons a rest ih =>
    intro k tx idSet ⟨j, inst, hj, hT, hF⟩
    have hrest : ∀ (tx2 : List Tunnel) (s2 : List String), 0 < j →
        ∃ e, upsertLoop F E now (k + 1) rest tx2 s2 = .error e := by
      intro tx2 s2 hpos
      obtain ⟨j2, rfl⟩ : ∃ j2, j = j2 + 1 := ⟨j - 1, by omega⟩
      apply ih
      refine ⟨j2, inst, by simpa using hj, hT, ?_⟩
      have : k + 1 + j2 = k + (j2 + 1) := by omega
      rw [this]
      exact hF
    unfold upsertLoop
    by_cases hTa : a.Typ = ""
    · simp only [hTa, if_true]
      apply hrest
      rcases Nat.eq_zero_or_pos j with h0 | hpos
      · subst h0
        simp only [List.getElem?_cons_zero, Option.some.injEq] at hj
        subst hj
        exact absurd hTa hT
      · exact hpos
    · simp only [hTa, if_false]
      by_cases hq : F.query k = true
      · exact ⟨.query, by simp [hq]⟩
      · simp only [hq]
        rcases Nat.eq_zero_or_pos j with h0 | hpos
        · subst h0
          have hw : F.write k = true := by
            rcases hF with h | h
            · exact absurd h hq
            · exact h
          cases findTunnel tx a.ID <;> simp [hw]
        · cases findTunnel tx a.ID with
          | none =>
            by_cases hw : F.write k = true
            · exact ⟨.insert, by simp [hw]⟩
            · simpa [hw] using hrest _ _ hpos
          | some row =>
            by_cases hw : F.write k = true
            · exact ⟨.update, by simp [hw]⟩
            · simpa [hw] using hrest _ _ hpos

theorem deleteLoop_fault (F : Faults) (idSet : List String) (rows : List (Int × Option String)) :
    ∀ (tx : List Tunnel), (∃ id ∈ doomedOf idSet rows, F.delete id = true) →
      ∃ e, deleteLoop F idSet rows tx = .error e := by
  induction rows with
  | nil => intro tx ⟨id, hid, _⟩; simp [doomedOf] at hid
  | cons r rest ih =>
    intro tx ⟨id, hid, hF⟩
    obtain ⟨rid, oi⟩ := r
    cases oi with
    | none =>
      rw [doomedOf_cons_none] at hid
      simpa [deleteLoop] using ih tx ⟨id, hid, hF⟩
    | some iid =>
      by_cases hm : iid ∈ idSet
      · rw [doomedOf_cons_seen _ _ _ _ hm] at hid
        simpa [deleteLoop, hm] using ih tx ⟨id, hid, hF⟩
      · rw [doomedOf_cons_unseen _ _ _ _ hm] at hid
        by_cases hd : F.delete rid = true
        · exact ⟨.delete, by simp [deleteLoop, hm, hd]⟩
        · rcases List.mem_cons.mp hid with h | h
          · subst h; exact absurd hF hd
          · simpa [deleteLoop, hm, hd] using ih _ ⟨id, h, hF⟩

theorem upsertOne_of_none {E : Int} {now : Nat} {tx : List Tunnel} {inst : Instance}
    (h : findTunnel tx inst.ID = none) : upsertOne E now tx inst = execInsert E now inst tx := by
  simp [upsertOne, h]

theorem upsertOne_of_some {E : Int} {now : Nat} {tx : List Tunnel} {inst : Instance}
    {row : Tunnel} (h : findTunnel tx inst.ID = some row) :
    upsertOne E now tx inst = execUpdate now inst row.id tx := by
  simp [upsertOne, h]

/-- Once every row with the instance id of a reported entry belongs to the
endpoint, the upsert loop leaves a row of the endpoint with that instance id. -/
theorem foldl_upsert_has_row (E : Int) (now : Nat) (inst : Instance) (L : List Instance) :
    ∀ (tx : List Tunnel), inst ∈ L →
      (∀ t ∈ tx, t.instanceId = some inst.ID → t.endpointId = E) →
      ∃ t ∈ L.foldl (upsertOne E now) tx, t.endpointId = E ∧ t.instanceId = some inst.ID := by
  induction L with
  | nil => intro tx hin; simp at hin
  | cons a rest ih =>
    intro tx hin hown
    simp only [List.foldl_cons]
    have hown2 : ∀ t ∈ upsertOne E now tx a, t.instanceId = some inst.ID → t.endpointId = E := by
      intro t ht hi
      rcases upsertOne_origin E now tx a t ht with ⟨u, hu, k⟩ | ⟨hE, _, _⟩
      · rw [k.2.1]; exact hown u hu (k.2.2 ▸ hi)
      · exact hE
    rcases List.mem_cons.mp hin with rfl | hin
    · have hrow : ∃ t ∈ upsertOne E now tx inst, t.endpointId = E ∧ t.instanceId = some inst.ID := by
        cases hf : findTunnel tx inst.ID with
        | none =>
          refine ⟨insertedTunnel (freshId tx) E now inst, ?_, rfl, rfl⟩
          simp [upsertOne, hf, execInsert]
        | some row =>
          obtain ⟨hm, hi⟩ := findTunnel_some hf
          obtain ⟨t2, h2, k⟩ := upsertOne_sameKey E now tx inst row hm
          exact ⟨t2, h2, k.2.1.trans (hown row hm hi), k.2.2.trans hi⟩
      obtain ⟨t1, h1, hE1, hi1⟩ := hrow
      obtain ⟨t2, h2, k⟩ := foldl_upsert_sameKey E now rest _ t1 h1
      exact ⟨t2, h2, k.2.1.trans hE1, k.2.2.trans hi1⟩
    · exact ih _ hin hown2

/-- A row whose instance id is that of no entry of the list goes through the
upsert loop untouched. -/
theorem foldl_upsert_untouched (E : Int) (now : Nat) (L : List Instance) :
    ∀ (tx : List Tunnel) (t : Tunnel), DistinctIds tx → t ∈ tx →
      (∀ i ∈ L, t.instanceId ≠ some i.ID) → t ∈ L.foldl (upsertOne E now) tx := by
  induction L with
  | nil => intro tx t _ ht _; simpa using ht
  | cons a rest ih =>
    intro tx t hd ht hL
    simp only [List.foldl_cons]
    apply ih _ t (upsertOne_distinctIds E now tx a hd)
    · unfold upsertOne
      cases hf : findTunnel tx a.ID with
      | none => simp [execInsert, ht]
      | some row =>
        obtain ⟨hm, hi⟩ := findTunnel_some hf
        have hne : t.id ≠ row.id := by
          intro hid
          have := eq_of_id_eq hd ht hm hid
          subst this
          exact hL a (by simp) hi
        exact List.mem_map.mpr ⟨t, ht, by simp [hne]⟩
    · intro i hi
      exact hL i (by simp [hi])

/-- An instance id reported exactly once splits the entries with a type around
its entry. -/
theorem typed_split (S : List Instance) (inst : Instance) (hin : inst ∈ S) (hT : inst.Typ ≠ "")
    (hone : (S.map (fun i => i.ID)).count inst.ID = 1) :
    ∃ L1 L2, typed S = L1 ++ inst :: L2 ∧ (∀ i ∈ L1, i.ID ≠ inst.ID) ∧
      (∀ i ∈ L2, i.ID ≠ inst.ID) := by
  have hmem : inst ∈ typed S := by
    unfold typed
    simp [hin, hT]
  obtain ⟨L1, L2, hsplit⟩ := List.append_of_mem hmem
  have hle : ((typed S).map (fun i => i.ID)).count inst.ID ≤ 1 := by
    rw [← hone]
    exact List.Sublist.count_le ((List.filter_sublist S).map _) _
  rw [hsplit] at hle
  simp only [List.map_append, List.map_cons, List.count_append, List.count_cons_self] at hle
  have h1 : (L1.map (fun i => i.ID)).count inst.ID = 0 := by omega
  have h2 : (L2.map (fun i => i.ID)).count inst.ID = 0 := by omega
  refine ⟨L1, L2, hsplit, ?_, ?_⟩
  · intro i hi heq
    exact List.count_eq_zero.mp h1 (List.mem_map.mpr ⟨i, hi, heq⟩)
  · intro i hi heq
    exact List.count_eq_zero.mp h2 (List.mem_map.mpr ⟨i, hi, heq⟩)

/-- The only row with the instance id of an entry that is reported once receives
exactly the update of that entry. -/
theorem foldl_upsert_single_update (E : Int) (now : Nat) (inst : Instance)
    (L1 L2 : List Instance) (tx : List Tunnel) (r : Tunnel) (hd : DistinctIds tx)
    (hr : r ∈ tx) (hri : r.instanceId = some inst.ID)
    (huniq : ∀ t ∈ tx, t.instanceId = some inst.ID → t = r)
    (h1 : ∀ i ∈ L1, i.ID ≠ inst.ID) (h2 : ∀ i ∈ L2, i.ID ≠ inst.ID) :
    updatedTunnel now inst r ∈ (L1 ++ inst :: L2).foldl (upsertOne E now) tx := by
  rw [List.foldl_append, List.foldl_cons]
  have hd1 := foldl_upsert_distinctIds E now L1 tx hd
  have hr1 : r ∈ L1.foldl (upsertOne E now) tx :=
    foldl_upsert_untouched E now L1 tx r hd hr
      (fun i hi heq => h1 i hi (by rw [hri] at heq; exact (Option.some.inj heq).symm))
  have huniq1 : ∀ t ∈ L1.foldl (upsertOne E now) tx, t.instanceId = some inst.ID → t = r := by
    intro t ht hi
    rcases foldl_upsert_origin E now L1 tx t ht with ⟨u, hu, k⟩ | ⟨_, i, hiL, hid⟩
    · have hur : u = r := huniq u hu (k.2.2 ▸ hi)
      exact eq_of_id_eq hd1 ht hr1 (by rw [k.1, hur])
    · rw [hi] at hid
      exact absurd (Option.some.inj hid).symm (h1 i hiL)
  have hstep : updatedTunnel now inst r ∈ upsertOne E now (L1.foldl (upsertOne E now) tx) inst := by
    cases hf : findTunnel (L1.foldl (upsertOne E now) tx) inst.ID with
    | none => exact absurd hri (findTunnel_none hf r hr1)
    | some row =>
      obtain ⟨hm, hi⟩ := findTunnel_some hf
      have hrow : row = r := huniq1 row hm hi
      rw [upsertOne_of_some hf]
      simp only [execUpdate, List.mem_map]
      exact ⟨r, hr1, by rw [hrow]; simp⟩
  exact foldl_upsert_untouched E now L2 _ _ (upsertOne_distinctIds E now _ inst hd1) hstep
    (fun i hi heq => h2 i hi (by
      simp only [updatedTunnel_instanceId, hri, Option.some.injEq] at heq
      exact heq.symm))

/-- An entry that is reported once and has no row anywhere is inserted, and the
inserted row goes through the rest of the loop untouched. -/
theorem foldl_upsert_single_insert (E : Int) (now : Nat) (inst : Instance)
    (L1 L2 : List Instance) (tx : List Tunnel) (hd : DistinctIds tx)
    (hnew : ∀ t ∈ tx, t.instanceId ≠ some inst.ID)
    (h1 : ∀ i ∈ L1, i.ID ≠ inst.ID) (h2 : ∀ i ∈ L2, i.ID ≠ inst.ID) :
    ∃ id, (∀ u ∈ tx, u.id ≠ id) ∧
      insertedTunnel id E now inst ∈ (L1 ++ inst :: L2).foldl (upsertOne E now) tx := by
  rw [List.foldl_append, List.foldl_cons]
  have hd1 := foldl_upsert_distinctIds E now L1 tx hd
  have hnew1 : ∀ t ∈ L1.foldl (upsertOne E now) tx, t.instanceId ≠ some inst.ID := by
    intro t ht hi
    rcases foldl_upsert_origin E now L1 tx t ht with ⟨u, hu, k⟩ | ⟨_, i, hiL, hid⟩
    · exact hnew u hu (k.2.2 ▸ hi)
    · rw [hi] at hid
      exact absurd (Option.some.inj hid).symm (h1 i hiL)
  have hf : findTunnel (L1.foldl (upsertOne E now) tx) inst.ID = none := by
    cases hf : findTunnel (L1.foldl (upsertOne E now) tx) inst.ID with
    | none => rfl
    | some row => exact absurd (findTunnel_some hf).2 (hnew1 row (findTunnel_some hf).1)
  refine ⟨freshId (L1.foldl (upsertOne E now) tx), ?_, ?_⟩
  · intro u hu heq
    obtain ⟨u1, hu1, k⟩ := foldl_upsert_sameKey E now L1 tx u hu
    have := lt_freshId _ u1 hu1
    rw [k.1, heq] at this
    exact lt_irrefl _ this
  · apply foldl_upsert_untouched E now L2 _ _ (upsertOne_distinctIds E now _ inst hd1)
    · rw [upsertOne_of_none hf]
      simp [execInsert]
    · intro i hi heq
      simp only [insertedTunnel, Option.some.injEq] at heq
      exact h2 i hi heq.symm

theorem mem_typed {S : List Instance} {inst : Instance} :
    inst ∈ typed S ↔ inst ∈ S ∧ inst.Typ ≠ "" := by
  simp [typed]

theorem mem_endpointIDs {E : Int} {tx : List Tunnel} {x : String} :
    x ∈ endpointIDs E tx ↔ ∃ t ∈ tx, t.endpointId = E ∧ t.instanceId = some x := by
  simp [endpointIDs, List.mem_filterMap, and_assoc]

/-- In a table with one row per pair, the row of the endpoint for an instance id
that no other endpoint uses is the only row with that instance id. -/
theorem unique_row {E : Int} {tx : List Tunnel} {x : String} {r : Tunnel}
    (hu : UniquePairs tx) (hr : r ∈ tx) (hrE : r.endpointId = E)
    (hri : r.instanceId = some x)
    (hforeign : ∀ t ∈ tx, t.endpointId ≠ E → t.instanceId ≠ some x) :
    ∀ t ∈ tx, t.instanceId = some x → t = r := by
  intro t ht hi
  by_contra hne
  have hsym : Symmetric (fun a b : Tunnel => ¬ SamePair a b) := by
    intro a b hab hba
    apply hab
    obtain ⟨h1, h2, h3⟩ := hba
    exact ⟨h1.symm, by rw [← h3]; exact h2, h3.symm⟩
  have hE : t.endpointId = E := by
    by_contra hE
    exact hforeign t ht hE hi
  exact List.Pairwise.forall hsym hu ht hr hne ⟨hE.trans hrE.symm, by simp [hi], hi.trans hri.symm⟩

/-- A row of the table after the upsert loop that the delete loop has no reason to
remove is in the reconciled table. -/
theorem mem_reconcile_of_seen {E : Int} {now : Nat} {S : List Instance} {tx : List Tunnel}
    (hd : DistinctIds tx) {t : Tunnel} (ht : t ∈ upsertAll E now S tx) {x : String}
    (hi : t.instanceId = some x) (hx : x ∈ seenIDs S) : t ∈ reconcile E now S tx := by
  unfold reconcile
  rw [mem_purge (upsertAll_distinctIds E now S tx hd)]
  refine ⟨ht, ?_⟩
  rintro ⟨_, y, hy, hn⟩
  rw [hi] at hy
  exact hn ((Option.some.inj hy) ▸ hx)

theorem reconcile_single_update (E : Int) (now : Nat) (S : List Instance) (tx : List Tunnel)
    (inst : Instance) (r : Tunnel) (hd : DistinctIds tx) (hin : inst ∈ S) (hT : inst.Typ ≠ "")
    (hone : (S.map (fun i => i.ID)).count inst.ID = 1) (hr : r ∈ tx)
    (hri : r.instanceId = some inst.ID)
    (huniq : ∀ t ∈ tx, t.instanceId = some inst.ID → t = r) :
    updatedTunnel now inst r ∈ reconcile E now S tx := by
  obtain ⟨L1, L2, hsplit, h1, h2⟩ := typed_split S inst hin hT hone
  have hmem : updatedTunnel now inst r ∈ upsertAll E now S tx := by
    unfold upsertAll
    rw [hsplit]
    exact foldl_upsert_single_update E now inst L1 L2 tx r hd hr hri huniq h1 h2
  exact mem_reconcile_of_seen hd hmem (by simpa using hri)
    (mem_seenIDs.mpr ⟨inst, mem_typed.mpr ⟨hin, hT⟩, rfl⟩)

theorem reconcile_single_insert (E : Int) (now : Nat) (S : List Instance) (tx : List Tunnel)
    (inst : Instance) (hd : DistinctIds tx) (hin : inst ∈ S) (hT : inst.Typ ≠ "")
    (hone : (S.map (fun i => i.ID)).count inst.ID = 1)
    (hnew : ∀ t ∈ tx, t.instanceId ≠ some inst.ID) :
    ∃ id, (∀ u ∈ tx, u.id ≠ id) ∧ insertedTunnel id E now inst ∈ reconcile E now S tx := by
  obtain ⟨L1, L2, hsplit, h1, h2⟩ := typed_split S inst hin hT hone
  obtain ⟨id, hfresh, hmem⟩ := foldl_upsert_single_insert E now inst L1 L2 tx hd hnew h1 h2
  refine ⟨id, hfresh, ?_⟩
  have hmem2 : insertedTunnel id E now inst ∈ upsertAll E now S tx := by
    unfold upsertAll
    rw [hsplit]
    exact hmem
  exact mem_reconcile_of_seen hd hmem2 rfl
    (mem_seenIDs.mpr ⟨inst, mem_typed.mpr ⟨hin, hT⟩, rfl⟩)

/-! ## Running the reconciliation a second time -/

@[simp]
theorem applyAll_id (now : Nat) (L : List Instance) :
    ∀ (t : Tunnel), (applyAll now L t).id = t.id := by
  induction L with
  | nil => intro t; rfl
  | cons a rest ih => intro t; simp only [applyAll, List.foldl_cons] at ih ⊢; rw [ih]; rfl

@[simp]
theorem applyAll_instanceId (now : Nat) (L : List Instance) :
    ∀ (t : Tunnel), (applyAll now L t).instanceId = t.instanceId := by
  induction L with
  | nil => intro t; rfl
  | cons a rest ih => intro t; simp only [applyAll, List.foldl_cons] at ih ⊢; rw [ih]; rfl

@[simp]
theorem applyAll_endpointId (now : Nat) (L : List Instance) :
    ∀ (t : Tunnel), (applyAll now L t).endpointId = t.endpointId := by
  induction L with
  | nil => intro t; rfl
  | cons a rest ih => intro t; simp only [applyAll, List.foldl_cons] at ih ⊢; rw [ih]; rfl

@[simp]
theorem applyAll_createdAt (now : Nat) (L : List Instance) :
    ∀ (t : Tunnel), (applyAll now L t).createdAt = t.createdAt := by
  induction L with
  | nil => intro t; rfl
  | cons a rest ih => intro t; simp only [applyAll, List.foldl_cons] at ih ⊢; rw [ih]; rfl

@[simp]
theorem updatedTunnel_createdAt (now : Nat) (inst : Instance) (t : Tunnel) :
    (updatedTunnel now inst t).createdAt = t.createdAt := rfl

/-- C4, as stated, fails: when the tunnel-count statement fails, `refreshTunnels`
still returns nil and commits the changes to `Tunnel` (here the delete of the row
of an instance that the snapshot no longer reports), while the cached count of
the endpoint keeps its old value. -/
theorem refreshTunnels_count_failure_committed :
    refreshTunnels { noFaults with count := true } 9 (some [])
        { endpoints := [demoEndpoint 1 5], tunnels := [demoRow 1 1 (some "gone") "old"] } 1 =
      (none, { endpoints := [demoEndpoint 1 5], tunnels := [] }) := by
  decide

/-- C4, amended: if the endpoint lookup, the snapshot fetch, the begin of the
transaction, an existence query, an insert or update, the listing of the local
rows, a delete or the commit fails, `refreshTunnels` returns an error and the
tables `Tunnel` and `Endpoint` are exactly as before the call. -/
theorem refreshTunnels_atomic (F : Faults) (now : Nat) (snapshot : Option (List Instance))
    (db : DB) (E : Int) (h : StepFails F now snapshot db E) :
    (refreshTunnels F now snapshot db E).1 ≠ none ∧
      (refreshTunnels F now snapshot db E).2 = db := by
  have key : (refreshTunnels F now snapshot db E).1 ≠ none := by
    intro hnone
    have hres : refreshTunnels F now snapshot db E =
        (none, (refreshTunnels F now snapshot db E).2) := by
      rw [← hnone]
    unfold refreshTunnels at hres
    cases hg : GetEndpointByID F db E with
    | none => simp [hg] at hres
    | some ep =>
      simp only [hg] at hres
      cases snapshot with
      | none => simp at hres
      | some S =>
        simp only at hres
        by_cases hb : F.beginTx = true
        · simp [hb] at hres
        · simp only [hb] at hres
          cases hu : upsertLoop F E now 0 S db.tunnels [] with
          | error e => simp [hu] at hres
          | ok r =>
            obtain ⟨tx1, idSet⟩ := r
            simp only [hu] at hres
            by_cases hl : F.list = true
            · simp [hl] at hres
            · simp only [hl] at hres
              cases hd : deleteLoop F idSet (listTunnels E tx1) tx1 with
              | error e => simp [hd] at hres
              | ok tx2 =>
                simp only [hd] at hres
                by_cases hc : F.commit = true
                · simp [hc] at hres
                · obtain ⟨h1, h2⟩ := upsertLoop_ok F E now S 0 db.tunnels [] _ hu
                  simp only at h1 h2
                  rcases h with h | h | h | ⟨S2, hS, h⟩
                  · rw [hg] at h; exact Option.noConfusion h
                  · exact Option.noConfusion h
                  · exact hb h
                  · obtain rfl : S = S2 := Option.some.inj hS
                    rcases h with ⟨j, inst, hj, hT, hF⟩ | h | ⟨id, hid, hF⟩ | h
                    · obtain ⟨e, he⟩ := upsertLoop_fault F E now S 0 db.tunnels []
                        ⟨j, inst, hj, hT, by simpa using hF⟩
                      rw [he] at hu
                      exact Except.noConfusion hu
                    · exact hl h
                    · have hdo : doomedOf idSet (listTunnels E tx1) =
                          doomedOf (seenIDs S) (listTunnels E (upsertAll E now S db.tunnels)) := by
                        rw [h1, h2]
                        exact doomedOf_congr _ _ (by simp) _
                      obtain ⟨e, he⟩ := deleteLoop_fault F idSet (listTunnels E tx1) tx1
                        ⟨id, by rw [hdo]; exact hid, hF⟩
                      rw [he] at hd
                      exact Except.noConfusion hd
                    · exact hc h
  refine ⟨key, ?_⟩
  cases he : (refreshTunnels F now snapshot db E).1 with
  | none => exact absurd he key
  | some e => exact refreshTunnels_rollback F now snapshot db E e he

/-- Witness: the row of instance "x" is updated inside
the transaction, then the delete of the row with id 1 fails; the call returns an
error and the update is not visible. -/
theorem refreshTunnels_atomic_witness :
    StepFails { noFaults with delete := fun id => decide (id = 1) } 9 (some demoSnapshot) demoDB 1 ∧
      (refreshTunnels { noFaults with delete := fun id => decide (id = 1) } 9
        (some demoSnapshot) demoDB 1).1 ≠ none ∧
      (refreshTunnels { noFaults with delete := fun id => decide (id = 1) } 9
        (some demoSnapshot) demoDB 1).2 = demoDB :=
  have hfail : StepFails { noFaults with delete := fun id => decide (id = 1) } 9
      (some demoSnapshot) demoDB 1 :=
    Or.inr (Or.inr (Or.inr ⟨_, rfl, Or.inr (Or.inr (Or.inl ⟨1, by decide, rfl⟩))⟩))
  ⟨hfail, refreshTunnels_atomic _ _ _ _ _ hfail⟩

/-- C5: if the table `Tunnel` holds at most one row per (endpointId, instanceId)
pair before `refreshTunnels`, it still does after the call, whatever the snapshot
(also one that reports an instance id more than once) and whether the call
commits or rolls back. -/
theorem refreshTunnels_uniquePairs (F : Faults) (now : Nat) (snapshot : Option (List Instance))
    (db : DB) (E : Int) (h : UniquePairs db.tunnels) :
    UniquePairs (refreshTunnels F now snapshot db E).2.tunnels := by
  cases he : (refreshTunnels F now snapshot db E).1 with
  | some e => rw [refreshTunnels_rollback F now snapshot db E e he]; exact h
  | none =>
    have hres : refreshTunnels F now snapshot db E =
        (none, (refreshTunnels F now snapshot db E).2) := by rw [← he]
    obtain ⟨S, _, _, ht, _⟩ := refreshTunnels_commit F now snapshot db _ E hres
    rw [ht]
    exact reconcile_uniquePairs E now S db.tunnels h

/-- Witness: the snapshot reports "x" twice and
"n" once; "x" has a row, "n" has none. -/
theorem refreshTunnels_uniquePairs_witness :
    UniquePairs [demoRow 1 1 (some "x") "auto-x", demoRow 2 1 none "draft",
        demoRow 3 1 none "draft2"] ∧
      UniquePairs (refreshTunnels noFaults 9
        (some [demoInstance "x" "server" "server://:1/h:2" "", demoInstance "n" "client" "client://a:1/b:2" "",
          demoInstance "x" "server" "server://:1/h:2" "web"])
        { endpoints := [demoEndpoint 1 0],
          tunnels := [demoRow 1 1 (some "x") "auto-x", demoRow 2 1 none "draft",
            demoRow 3 1 none "draft2"] } 1).2.tunnels :=
  ⟨by decide, refreshTunnels_uniquePairs _ _ _ _ _ (by decide)⟩

/-- C6: after a `refreshTunnels` of endpoint `E` that returns nil, no row of `E`
has an instance id outside the set of seen ids (`instanceIDSet`, the ids of the
entries with a type), and every row of `E` that existed before with a seen id
is still present, under its surrogate id. -/
theorem refreshTunnels_deletes_unseen (F : Faults) (now : Nat) (S : List Instance)
    (db db2 : DB) (E : Int) (hid : DistinctIds db.tunnels)
    (h : refreshTunnels F now (some S) db E = (none, db2)) :
    (∀ t ∈ db2.tunnels, t.endpointId = E → ∀ iid, t.instanceId = some iid → iid ∈ seenIDs S) ∧
      (∀ t ∈ db.tunnels, t.endpointId = E → ∀ iid, t.instanceId = some iid → iid ∈ seenIDs S →
        ∃ t2 ∈ db2.tunnels, t2.id = t.id ∧ t2.endpointId = E ∧ t2.instanceId = some iid) := by
  obtain ⟨S2, hS, _, ht, _⟩ := refreshTunnels_commit F now _ db db2 E h
  obtain rfl : S = S2 := Option.some.inj hS
  rw [ht]
  constructor
  · intro t htm hE iid hi
    exact purge_clean t htm hE iid hi
  · intro t htm hE iid hi hseen
    obtain ⟨t2, h2, k⟩ := upsertAll_sameKey E now S db.tunnels t htm
    refine ⟨t2, ?_, k.1, k.2.1.trans hE, k.2.2.trans hi⟩
    unfold reconcile
    rw [mem_purge (upsertAll_distinctIds E now S _ hid)]
    refine ⟨h2, ?_⟩
    rintro ⟨_, iid2, hi2, hn⟩
    rw [k.2.2, hi] at hi2
    obtain rfl : iid = iid2 := Option.some.inj hi2
    exact hn hseen

/-- Witness: "x" is reported and its row with
id 2 is kept; "gone" is not reported and no row of it is left. -/
theorem refreshTunnels_deletes_unseen_witness :
    DistinctIds demoDB.tunnels ∧
      refreshTunnels noFaults 9 (some demoSnapshot) demoDB 1 =
        (none, (refreshTunnels noFaults 9 (some demoSnapshot) demoDB 1).2) ∧
      ∃ t2 ∈ (refreshTunnels noFaults 9 (some demoSnapshot) demoDB 1).2.tunnels,
        t2.id = 2 ∧ t2.endpointId = 1 ∧ t2.instanceId = some "x" :=
  ⟨by decide, by decide,
    (refreshTunnels_deletes_unseen noFaults 9 demoSnapshot demoDB _ 1 (by decide) (by decide)).2
      (demoRow 2 1 (some "x") "auto-x") (by decide) rfl "x" rfl (by decide)⟩

/-- C1, as stated, fails: an entry of the snapshot without a type is passed over,
so its id "y" is reported in the snapshot and is the instance id of no row of
the endpoint after a reconciliation that returns nil. -/
theorem refreshTunnels_skips_untyped_id :
    (refreshTunnels noFaults 9
        (some [demoInstance "x" "server" "server://:1/h:2" "", demoInstance "y" "" "" ""])
        { endpoints := [demoEndpoint 1 0], tunnels := [] } 1).1 = none ∧
      "y" ∈ [demoInstance "x" "server" "server://:1/h:2" "", demoInstance "y" "" "" ""].map
        (fun i => i.ID) ∧
      "y" ∉ endpointIDs 1 (refreshTunnels noFaults 9
        (some [demoInstance "x" "server" "server://:1/h:2" "", demoInstance "y" "" "" ""])
        { endpoints := [demoEndpoint 1 0], tunnels := [] } 1).2.tunnels := by
  decide

/-- C1, amended: when no row of another endpoint carries an instance id that the
snapshot reports with a type, after a `refreshTunnels` of endpoint `E` that
returns nil the set of instance ids of the rows of `E` is exactly the set of ids
of the snapshot entries with a non-empty type. -/
theorem refreshTunnels_converges (F : Faults) (now : Nat) (S : List Instance)
    (db db2 : DB) (E : Int) (hid : DistinctIds db.tunnels)
    (hforeign : ∀ t ∈ db.tunnels, t.endpointId ≠ E → ∀ iid, t.instanceId = some iid →
      iid ∉ seenIDs S)
    (h : refreshTunnels F now (some S) db E = (none, db2)) :
    ∀ x, x ∈ endpointIDs E db2.tunnels ↔ x ∈ seenIDs S := by
  obtain ⟨S2, hS, _, ht, _⟩ := refreshTunnels_commit F now _ db db2 E h
  obtain rfl : S = S2 := Option.some.inj hS
  intro x
  rw [ht, mem_endpointIDs]
  constructor
  · rintro ⟨t, htm, hE, hi⟩
    exact purge_clean t htm hE x hi
  · intro hx
    obtain ⟨inst, hinst, rfl⟩ := mem_seenIDs.mp hx
    obtain ⟨t, htm, hE, hi⟩ := foldl_upsert_has_row E now inst (typed S) db.tunnels hinst
      (fun t ht hi => by
        by_contra hE
        exact hforeign t ht hE _ hi hx)
    exact ⟨t, mem_reconcile_of_seen hid htm hi hx, hE, hi⟩

/-- Witness: endpoint 1 holds "gone" and "x", the
snapshot reports "x"; afterwards "x" is an instance id of endpoint 1. -/
theorem refreshTunnels_converges_witness :
    DistinctIds demoDB.tunnels ∧
      refreshTunnels noFaults 9 (some demoSnapshot) demoDB 1 =
        (none, (refreshTunnels noFaults 9 (some demoSnapshot) demoDB 1).2) ∧
      ("x" ∈ endpointIDs 1 (refreshTunnels noFaults 9 (some demoSnapshot) demoDB 1).2.tunnels ↔
        "x" ∈ seenIDs demoSnapshot) :=
  ⟨by decide, by decide,
    refreshTunnels_converges noFaults 9 demoSnapshot demoDB _ 1 (by decide) (by decide)
      (by decide) "x"⟩

/-- C7, as stated, fails: a reported instance without a type whose id has no row
is not inserted; the table is empty before and after the call, which returns
nil. -/
theorem refreshTunnels_untyped_not_inserted :
    refreshTunnels noFaults 9 (some [demoInstance "y" "" "server://:1/h:2" "web"])
        { endpoints := [demoEndpoint 1 0], tunnels := [] } 1 =
      (none, { endpoints := [demoEndpoint 1 0], tunnels := [] }) := by
  decide

/-- C7, amended: for every reported instance with a non-empty type whose remote id
has no row before the call, neither with `endpointId = E` nor under another
endpoint, a `refreshTunnels` of `E` that returns nil leaves a row with
`endpointId = E` and that `instanceId`, under a surrogate id that no row had. -/
theorem refreshTunnels_inserts (F : Faults) (now : Nat) (S : List Instance)
    (db db2 : DB) (E : Int) (inst : Instance) (hid : DistinctIds db.tunnels)
    (hin : inst ∈ S) (hT : inst.Typ ≠ "")
    (hnoE : ∀ t ∈ db.tunnels, t.endpointId = E → t.instanceId ≠ some inst.ID)
    (hforeign : ∀ t ∈ db.tunnels, t.endpointId ≠ E → t.instanceId ≠ some inst.ID)
    (h : refreshTunnels F now (some S) db E = (none, db2)) :
    ∃ t ∈ db2.tunnels, t.endpointId = E ∧ t.instanceId = some inst.ID ∧
      ∀ u ∈ db.tunnels, u.id ≠ t.id := by
  obtain ⟨S2, hS, _, ht, _⟩ := refreshTunnels_commit F now _ db db2 E h
  obtain rfl : S = S2 := Option.some.inj hS
  have hnew : ∀ t ∈ db.tunnels, t.instanceId ≠ some inst.ID := by
    intro t htm
    by_cases hE : t.endpointId = E
    · exact hnoE t htm hE
    · exact hforeign t htm hE
  have hx : inst.ID ∈ seenIDs S := mem_seenIDs.mpr ⟨inst, mem_typed.mpr ⟨hin, hT⟩, rfl⟩
  obtain ⟨t, htm, hE, hi⟩ := foldl_upsert_has_row E now inst (typed S) db.tunnels
    (mem_typed.mpr ⟨hin, hT⟩) (fun t ht hi => absurd hi (hnew t ht))
  refine ⟨t, by rw [ht]; exact mem_reconcile_of_seen hid htm hi hx, hE, hi, ?_⟩
  intro u hu heq
  obtain ⟨u2, hu2, k⟩ := upsertAll_sameKey E now S db.tunnels u hu
  have : u2 = t := eq_of_id_eq (upsertAll_distinctIds E now S _ hid) hu2 htm (k.1.trans heq)
  subst this
  exact hnew u hu (k.2.2 ▸ hi)

/-- Witness: "n" is reported with a type and has no
row; afterwards endpoint 1 has a row for it. -/
theorem refreshTunnels_inserts_witness :
    DistinctIds demoDB.tunnels ∧
      refreshTunnels noFaults 9 (some [demoNew]) demoDB 1 =
        (none, (refreshTunnels noFaults 9 (some [demoNew]) demoDB 1).2) ∧
      ∃ t ∈ (refreshTunnels noFaults 9 (some [demoNew]) demoDB 1).2.tunnels,
        t.endpointId = 1 ∧ t.instanceId = some demoNew.ID ∧ ∀ u ∈ demoDB.tunnels, u.id ≠ t.id :=
  ⟨by decide, by decide,
    refreshTunnels_inserts noFaults 9 [demoNew] demoDB _ 1 demoNew (by decide) (by decide)
      (by decide) (by decide) (by decide) (by decide)⟩

/-- C8: the row that `refreshTunnels` inserts for a reported instance is named by
the reported alias if the alias is not empty and "auto-" followed by the instance
id otherwise. This holds of the `INSERT` statement for every table and entry, and
of the table after a call that returns nil for every entry with a type that is
reported once and had no row: the table then holds its new row under that name. -/
theorem refreshTunnels_insert_name (F : Faults) (now : Nat) (S : List Instance)
    (db db2 : DB) (E : Int) (inst : Instance) (hid : DistinctIds db.tunnels)
    (hin : inst ∈ S) (hT : inst.Typ ≠ "")
    (hone : (S.map (fun i => i.ID)).count inst.ID = 1)
    (hnew : ∀ t ∈ db.tunnels, t.instanceId ≠ some inst.ID)
    (h : refreshTunnels F now (some S) db E = (none, db2)) :
    (∀ (tx : List Tunnel) (i : Instance), ∃ row, execInsert E now i tx = tx ++ [row] ∧
        row.endpointId = E ∧ row.instanceId = some i.ID ∧
        row.name = if i.Alias = "" then "auto-" ++ i.ID else i.Alias) ∧
      ∃ t ∈ db2.tunnels, (∀ u ∈ db.tunnels, u.id ≠ t.id) ∧ t.endpointId = E ∧
        t.instanceId = some inst.ID ∧
        t.name = if inst.Alias = "" then "auto-" ++ inst.ID else inst.Alias := by
  have hname : ∀ (id : Int) (i : Instance), (insertedTunnel id E now i).name =
      if i.Alias = "" then "auto-" ++ i.ID else i.Alias := by
    intro id i
    by_cases ha : i.Alias = "" <;> simp [insertedTunnel, ha]
  constructor
  · intro tx i
    exact ⟨insertedTunnel (freshId tx) E now i, rfl, rfl, rfl, hname _ i⟩
  · obtain ⟨S2, hS, _, ht, _⟩ := refreshTunnels_commit F now _ db db2 E h
    obtain rfl : S = S2 := Option.some.inj hS
    obtain ⟨id, hfresh, hmem⟩ := reconcile_single_insert E now S db.tunnels inst hid hin hT hone hnew
    exact ⟨insertedTunnel id E now inst, by rw [ht]; exact hmem, hfresh, rfl, rfl, hname _ inst⟩

/-- Witness: "n" is reported once without alias and
has no row; its new row is named "auto-n". -/
theorem refreshTunnels_insert_name_witness :
    DistinctIds demoDB.tunnels ∧
      refreshTunnels noFaults 9 (some [demoNew]) demoDB 1 =
        (none, (refreshTunnels noFaults 9 (some [demoNew]) demoDB 1).2) ∧
      ∃ t ∈ (refreshTunnels noFaults 9 (some [demoNew]) demoDB 1).2.tunnels,
        (∀ u ∈ demoDB.tunnels, u.id ≠ t.id) ∧ t.endpointId = 1 ∧
        t.instanceId = some demoNew.ID ∧
        t.name = if demoNew.Alias = "" then "auto-" ++ demoNew.ID else demoNew.Alias :=
  ⟨by decide, by decide,
    (refreshTunnels_insert_name noFaults 9 [demoNew] demoDB _ 1 demoNew (by decide) (by decide)
      (by decide) (by decide) (by decide) (by decide)).2⟩

/-- C3, as stated, fails: when the snapshot reports the instance "x" twice, with
the aliases "first" and "second", the row of "x" is named "second" after the
call, not "first" as the claim says of the first reported instance. -/
theorem refreshTunnels_last_alias_wins :
    (refreshTunnels noFaults 9
        (some [demoInstance "x" "server" "server://:1/h:2" "first",
          demoInstance "x" "server" "server://:1/h:2" "second"]) demoNamedDB 1).1 = none ∧
      (refreshTunnels noFaults 9
        (some [demoInstance "x" "server" "server://:1/h:2" "first",
          demoInstance "x" "server" "server://:1/h:2" "second"]) demoNamedDB 1).2.tunnels.map
        (fun t => (t.id, t.instanceId, t.name)) = [(2, some "x", "second")] := by
  decide

/-- C3, amended: for every instance that the snapshot reports exactly once, with a
non-empty type, that has a local row and whose id no row of another endpoint
carries, after a `refreshTunnels` that returns nil the row is present and its name
is the reported alias when the alias is non-empty, and its previous name when the
alias is empty. -/
theorem refreshTunnels_update_name (F : Faults) (now : Nat) (S : List Instance)
    (db db2 : DB) (E : Int) (inst : Instance) (r : Tunnel) (hid : DistinctIds db.tunnels)
    (hu : UniquePairs db.tunnels) (hin : inst ∈ S) (hT : inst.Typ ≠ "")
    (hone : (S.map (fun i => i.ID)).count inst.ID = 1)
    (hr : r ∈ db.tunnels) (hrE : r.endpointId = E) (hri : r.instanceId = some inst.ID)
    (hforeign : ∀ t ∈ db.tunnels, t.endpointId ≠ E → t.instanceId ≠ some inst.ID)
    (h : refreshTunnels F now (some S) db E = (none, db2)) :
    ∃ t ∈ db2.tunnels, t.id = r.id ∧ t.endpointId = E ∧ t.instanceId = some inst.ID ∧
      t.name = if inst.Alias = "" then r.name else inst.Alias := by
  obtain ⟨S2, hS, _, ht, _⟩ := refreshTunnels_commit F now _ db db2 E h
  obtain rfl : S = S2 := Option.some.inj hS
  have hmem := reconcile_single_update E now S db.tunnels inst r hid hin hT hone hr hri
    (unique_row hu hr hrE hri hforeign)
  refine ⟨updatedTunnel now inst r, by rw [ht]; exact hmem, rfl, hrE, hri, ?_⟩
  by_cases ha : inst.Alias = "" <;> simp [updatedTunnel, ha]

/-- Witness: the row of "x" is named "web"; "x" is
reported once, without alias; the row is still named "web". -/
theorem refreshTunnels_update_name_witness :
    DistinctIds demoNamedDB.tunnels ∧ UniquePairs demoNamedDB.tunnels ∧
      refreshTunnels noFaults 9 (some [demoPlain]) demoNamedDB 1 =
        (none, (refreshTunnels noFaults 9 (some [demoPlain]) demoNamedDB 1).2) ∧
      ∃ t ∈ (refreshTunnels noFaults 9 (some [demoPlain]) demoNamedDB 1).2.tunnels,
        t.id = (demoRow 2 1 (some "x") "web").id ∧ t.endpointId = 1 ∧
        t.instanceId = some demoPlain.ID ∧
        t.name = if demoPlain.Alias = "" then (demoRow 2 1 (some "x") "web").name
          else demoPlain.Alias :=
  ⟨by decide, by decide, by decide,
    refreshTunnels_update_name noFaults 9 [demoPlain] demoNamedDB _ 1 demoPlain
      (demoRow 2 1 (some "x") "web") (by decide) (by decide) (by decide) (by decide) (by decide)
      (by decide) rfl rfl (by decide) (by decide)⟩

/-- C10, as stated, fails on two counts. The instance "u" is reported once, without
a type, and has a local row: the row is deleted instead of updated. The instance
"x" is reported once with the descriptor "server://host:abc/target:80": the parsed
tunnel port is "abc", which is no integer, and the row stores the tunnel port 0. -/
theorem refreshTunnels_untyped_deleted_and_port_zero :
    (refreshTunnels noFaults 9
        (some [demoInstance "u" "" "server://:1/h:2" "",
          demoInstance "x" "server" "server://host:abc/target:80" ""])
        { endpoints := [demoEndpoint 1 2],
          tunnels := [demoRow 1 1 (some "u") "a", demoRow 2 1 (some "x") "b"] } 1).1 = none ∧
      (refreshTunnels noFaults 9
        (some [demoInstance "u" "" "server://:1/h:2" "",
          demoInstance "x" "server" "server://host:abc/target:80" ""])
        { endpoints := [demoEndpoint 1 2],
          tunnels := [demoRow 1 1 (some "u") "a", demoRow 2 1 (some "x") "b"] } 1).2.tunnels.map
        (fun t => (t.id, t.instanceId, t.tunnelPort)) = [(2, some "x", 0)] ∧
      (parseInstanceURL "server://host:abc/target:80" "server").TunnelPort = "abc" ∧
      Atoi "abc" = (0, false) := by
  decide

/-- C10, amended: for every instance that the snapshot reports exactly once, with a
non-empty type, that has a local row and whose id no row of another endpoint
carries, after a `refreshTunnels` that returns nil the row is present; its mode is
the reported type; its tunnel and target address, TLS mode, cert and key path, log
level and password are the fields of `parseInstanceURL inst.URL inst.Type`; its
tunnel and target port are the integers that `strconv.Atoi` yields for the parsed
port strings (0 for a string that is no integer); its command line is `inst.URL`;
its status, restart flag and four traffic counters are the reported values. -/
theorem refreshTunnels_update_fields (F : Faults) (now : Nat) (S : List Instance)
    (db db2 : DB) (E : Int) (inst : Instance) (r : Tunnel) (hid : DistinctIds db.tunnels)
    (hu : UniquePairs db.tunnels) (hin : inst ∈ S) (hT : inst.Typ ≠ "")
    (hone : (S.map (fun i => i.ID)).count inst.ID = 1)
    (hr : r ∈ db.tunnels) (hrE : r.endpointId = E) (hri : r.instanceId = some inst.ID)
    (hforeign : ∀ t ∈ db.tunnels, t.endpointId ≠ E → t.instanceId ≠ some inst.ID)
    (h : refreshTunnels F now (some S) db E = (none, db2)) :
    ∃ t ∈ db2.tunnels, t.id = r.id ∧ t.endpointId = E ∧ t.instanceId = some inst.ID ∧
      t.mode = inst.Typ ∧
      t.tunnelAddress = (parseInstanceURL inst.URL inst.Typ).TunnelAddress ∧
      t.tunnelPort = (Atoi (parseInstanceURL inst.URL inst.Typ).TunnelPort).1 ∧
      t.targetAddress = (parseInstanceURL inst.URL inst.Typ).TargetAddress ∧
      t.targetPort = (Atoi (parseInstanceURL inst.URL inst.Typ).TargetPort).1 ∧
      t.tlsMode = (parseInstanceURL inst.URL inst.Typ).TLSMode ∧
      t.certPath = (parseInstanceURL inst.URL inst.Typ).CertPath ∧
      t.keyPath = (parseInstanceURL inst.URL inst.Typ).KeyPath ∧
      t.logLevel = (parseInstanceURL inst.URL inst.Typ).LogLevel ∧
      t.password = (parseInstanceURL inst.URL inst.Typ).Password ∧
      t.commandLine = inst.URL ∧ t.status = inst.Status ∧ t.restart = inst.Restart ∧
      t.tcpRx = inst.TCPRx ∧ t.tcpTx = inst.TCPTx ∧ t.udpRx = inst.UDPRx ∧
      t.udpTx = inst.UDPTx := by
  obtain ⟨S2, hS, _, ht, _⟩ := refreshTunnels_commit F now _ db db2 E h
  obtain rfl : S = S2 := Option.some.inj hS
  have hmem := reconcile_single_update E now S db.tunnels inst r hid hin hT hone hr hri
    (unique_row hu hr hrE hri hforeign)
  exact ⟨updatedTunnel now inst r, by rw [ht]; exact hmem, rfl, hrE, hri, rfl, rfl, rfl, rfl, rfl,
    rfl, rfl, rfl, rfl, rfl, rfl, rfl, rfl, rfl, rfl, rfl, rfl⟩

/-- Witness: the row of "x" in the sample state
takes the fields of the one entry of the sample snapshot. -/
theorem refreshTunnels_update_fields_witness :
    DistinctIds demoDB.tunnels ∧ UniquePairs demoDB.tunnels ∧
      refreshTunnels noFaults 9 (some demoSnapshot) demoDB 1 =
        (none, (refreshTunnels noFaults 9 (some demoSnapshot) demoDB 1).2) ∧
      ∃ t ∈ (refreshTunnels noFaults 9 (some demoSnapshot) demoDB 1).2.tunnels,
        t.id = 2 ∧ t.mode = "server" ∧ t.tunnelAddress = "0.0.0.0" ∧ t.tunnelPort = 10101 ∧
        t.targetAddress = "127.0.0.1" ∧ t.targetPort = 8080 ∧ t.tlsMode = "mode1" ∧
        t.tcpRx = 10 ∧ t.udpTx = 40 :=
  ⟨by decide, by decide, by decide,
    match refreshTunnels_update_fields noFaults 9 demoSnapshot demoDB _ 1
      (demoInstance "x" "server" "server://0.0.0.0:10101/127.0.0.1:8080?tls=1" "web")
      (demoRow 2 1 (some "x") "auto-x") (by decide) (by decide) (by decide) (by decide)
      (by decide) (by decide) rfl rfl (by decide) (by decide) with
    | ⟨t, ht, h1, _, _, h2, h3, h4, h5, h6, h7, _, _, _, _, _, _, _, h8, _, _, h9⟩ =>
      ⟨t, ht, h1, h2.trans (by decide), h3.trans (by decide), h4.trans (by decide),
        h5.trans (by decide), h6.trans (by decide), h7.trans (by decide), h8, h9⟩⟩

theorem applyQueryItem_nil (mode : String) (res : ParsedURL) :
    applyQueryItem mode res [] = res := by
  simp [applyQueryItem]

theorem foldl_query_guard (mode : String) (res : ParsedURL) (q : List Char) :
    (if q ≠ [] then (splitOnChar '&' q).foldl (applyQueryItem mode) res else res) =
      (splitOnChar '&' q).foldl (applyQueryItem mode) res := by
  by_cases hq : q = []
  · subst hq; simp [splitOnChar, applyQueryItem_nil]
  · simp [hq]

/-- The part of `parseInstanceURL` after the password is cut off. -/
theorem parseRest_unfold (mode : String) (password rest : List Char) :
    (let (query, raw4) := match indexOf ['?'] rest with
        | some qIdx => (rest.drop (qIdx + 1), rest.take qIdx)
        | none => ([], rest)
      let (hostPart, pathPart) := match indexOf ['/'] raw4 with
        | some pIdx => (raw4.take pIdx, raw4.drop (pIdx + 1))
        | none => (raw4, [])
      let res1 := { defaultParsed with Password := String.mk password }
      let res2 :=
        if hostPart ≠ [] then
          let r := parsePart (String.mk hostPart)
          { res1 with TunnelAddress := r.1, TunnelPort := r.2 }
        else res1
      let res3 :=
        if pathPart ≠ [] then
          let r := parsePart (String.mk pathPart)
          { res2 with TargetAddress := r.1, TargetPort := r.2 }
        else res2
      if query ≠ [] then (splitOnChar '&' query).foldl (applyQueryItem mode) res3
      else res3) =
      (splitOnChar '&' (queryOf rest)).foldl (applyQueryItem mode) (baseParsed password rest) := by
  cases h3 : indexOf ['?'] rest with
  | none =>
    simp only [queryOf, beforeQuery, baseParsed, hostOf, pathOf, h3]
    rw [foldl_query_guard]
    cases h4 : indexOf ['/'] rest <;> simp only []
  | some q =>
    simp only [queryOf, beforeQuery, baseParsed, hostOf, pathOf, h3]
    rw [foldl_query_guard]
    cases h4 : indexOf ['/'] (rest.take q) <;> simp only []

/-- The parser is the scheme stripping followed by `parseBody`. -/
theorem parseInstanceURL_eq (raw mode : String) :
    parseInstanceURL raw mode = parseBody mode (stripScheme raw.data) := by
  by_cases h0 : raw = ""
  · subst h0
    rfl
  · have key : ∀ body : List Char,
        (let (password, raw3) := match indexOf ['@'] body with
            | some atIdx => (body.take atIdx, body.drop (atIdx + 1))
            | none => ([], body)
          let (query, raw4) := match indexOf ['?'] raw3 with
            | some qIdx => (raw3.drop (qIdx + 1), raw3.take qIdx)
            | none => ([], raw3)
          let (hostPart, pathPart) := match indexOf ['/'] raw4 with
            | some pIdx => (raw4.take pIdx, raw4.drop (pIdx + 1))
            | none => (raw4, [])
          let res1 := { defaultParsed with Password := String.mk password }
          let res2 :=
            if hostPart ≠ [] then
              let r := parsePart (String.mk hostPart)
              { res1 with TunnelAddress := r.1, TunnelPort := r.2 }
            else res1
          let res3 :=
            if pathPart ≠ [] then
              let r := parsePart (String.mk pathPart)
              { res2 with TargetAddress := r.1, TargetPort := r.2 }
            else res2
          if query ≠ [] then (splitOnChar '&' query).foldl (applyQueryItem mode) res3
          else res3) = parseBody mode body := by
      intro body
      cases h2 : indexOf ['@'] body with
      | none =>
        simp only [parseBody, passwordPart, afterPassword, h2]
        exact parseRest_unfold mode [] body
      | some atIdx =>
        simp only [parseBody, passwordPart, afterPassword, h2]
        exact parseRest_unfold mode (body.take atIdx) (body.drop (atIdx + 1))
    have := key (stripScheme raw.data)
    unfold parseInstanceURL
    simp only [h0, if_false]
    exact this

theorem applyQueryItem_eq (mode : String) (res : ParsedURL) (kv : List Char) :
    applyQueryItem mode res kv =
      match itemOf kv with
      | none => res
      | some p => applyParam mode res p := by
  unfold applyQueryItem itemOf
  by_cases h : kv = []
  · simp [h]
  · simp only [h, if_false]
    cases indexOf ['='] kv with
    | none => rfl
    | some i => rfl

theorem foldl_applyQueryItem (mode : String) (L : List (List Char)) :
    ∀ res : ParsedURL, L.foldl (applyQueryItem mode) res =
      (L.filterMap itemOf).foldl (applyParam mode) res := by
  induction L with
  | nil => intro res; rfl
  | cons kv rest ih =>
    intro res
    rw [List.foldl_cons, applyQueryItem_eq, List.filterMap_cons]
    cases itemOf kv with
    | none => exact ih res
    | some p => simp only [List.foldl_cons]; exact ih _

/-- The parser as a fold of the query items over the record of the other pieces. -/
theorem parseInstanceURL_items (raw mode : String) :
    parseInstanceURL raw mode =
      (queryItems raw).foldl (applyParam mode)
        (baseParsed (passwordPart (stripScheme raw.data))
          (afterPassword (stripScheme raw.data))) := by
  rw [parseInstanceURL_eq, parseBody, foldl_applyQueryItem]
  rfl

/-- A field that the items with one key set, and that no other item touches, is
after the loop what the values of these items make of it, in order. -/
theorem foldl_applyParam_field (mode : String) (f : ParsedURL → String) (k : String)
    (g : String → String → String)
    (hk : ∀ res v, f (applyParam mode res (k, v)) = g v (f res))
    (hother : ∀ res k2 v, k2 ≠ k → f (applyParam mode res (k2, v)) = f res)
    (items : List (String × String)) :
    ∀ res : ParsedURL, f (items.foldl (applyParam mode) res) =
      ((items.filter (fun kv => decide (kv.1 = k))).map (fun kv => kv.2)).foldl
        (fun cur v => g v cur) (f res) := by
  induction items with
  | nil => intro res; rfl
  | cons kv rest ih =>
    intro res
    obtain ⟨k2, v⟩ := kv
    rw [List.foldl_cons, ih]
    by_cases h : k2 = k
    · subst h
      simp [hk]
    · simp [h, hother res k2 v h]

/-- A field that no item touches is after the loop what it was before. -/
theorem foldl_applyParam_frame (mode : String) (f : ParsedURL → String)
    (h : ∀ res kv, f (applyParam mode res kv) = f res) (items : List (String × String)) :
    ∀ res : ParsedURL, f (items.foldl (applyParam mode) res) = f res := by
  induction items with
  | nil => intro res; rfl
  | cons kv rest ih => intro res; rw [List.foldl_cons, ih, h]

theorem baseParsed_TLSMode (password rest : List Char) :
    (baseParsed password rest).TLSMode = "inherit" := by
  unfold baseParsed
  split_ifs <;> rfl

theorem baseParsed_CertPath (password rest : List Char) :
    (baseParsed password rest).CertPath = "" := by
  unfold baseParsed
  split_ifs <;> rfl

theorem baseParsed_KeyPath (password rest : List Char) :
    (baseParsed password rest).KeyPath = "" := by
  unfold baseParsed
  split_ifs <;> rfl

theorem baseParsed_Password (password rest : List Char) :
    (baseParsed password rest).Password = String.mk password := by
  unfold baseParsed
  split_ifs <;> rfl

theorem applyParam_TLSMode_of_ne_server (mode : String) (h : mode ≠ "server")
    (res : ParsedURL) (kv : String × String) :
    (applyParam mode res kv).TLSMode = res.TLSMode := by
  unfold applyParam
  simp only [h, if_false]
  split_ifs <;> first | rfl | (cases QueryUnescape kv.2 <;> rfl)

theorem foldl_const_last (h : String → String) (L : List String) :
    ∀ init : String, L.foldl (fun _ v => h v) init = (L.getLast?.map h).getD init := by
  induction L with
  | nil => intro init; rfl
  | cons a rest ih =>
    intro init
    rw [List.foldl_cons, ih, List.getLast?_cons]
    cases rest.getLast? <;> rfl

theorem applyParam_tls_server (res : ParsedURL) (v : String) :
    (applyParam "server" res ("tls", v)).TLSMode = tlsAfter res.TLSMode v := by
  unfold applyParam tlsAfter tlsModeOf
  by_cases h0 : v = "0"
  · subst h0; rfl
  · by_cases h1 : v = "1"
    · subst h1; rfl
    · by_cases h2 : v = "2"
      · subst h2; rfl
      · simp [h0, h1, h2]

theorem applyParam_TLSMode_other (mode : String) (res : ParsedURL) (k v : String)
    (h : k ≠ "tls") : (applyParam mode res (k, v)).TLSMode = res.TLSMode := by
  unfold applyParam
  simp only [h, if_false]
  split_ifs <;> first | rfl | (cases QueryUnescape v <;> rfl)

/-- In server mode the TLS mode is what the `tls` values of the query make of
"inherit", in order. -/
theorem parseInstanceURL_tls_fold (raw : String) :
    (parseInstanceURL raw "server").TLSMode =
      (paramValues "tls" raw).foldl tlsAfter "inherit" := by
  rw [parseInstanceURL_items,
    foldl_applyParam_field "server" (fun r => r.TLSMode) "tls" (fun v cur => tlsAfter cur v)
      (fun res v => applyParam_tls_server res v)
      (fun res k2 v h => applyParam_TLSMode_other "server" res k2 v h),
    baseParsed_TLSMode]
  rfl

theorem indexOf_single_none (c : Char) :
    ∀ s : List Char, c ∉ s → indexOf [c] s = none := by
  intro s
  induction s with
  | nil => intro _; rfl
  | cons d ds ih =>
    intro h
    simp only [List.mem_cons, not_or] at h
    have hne : ¬ c = d := h.1
    simp [indexOf, List.isPrefixOf, hne, ih h.2]

theorem indexOf_single_append (c : Char) :
    ∀ a b : List Char, c ∉ a → indexOf [c] (a ++ c :: b) = some a.length := by
  intro a
  induction a with
  | nil => intro b _; simp [indexOf, List.isPrefixOf]
  | cons d ds ih =>
    intro b h
    simp only [List.mem_cons, not_or] at h
    have hne : ¬ c = d := h.1
    simp [indexOf, List.isPrefixOf, hne, ih b h.2]

theorem indexOf_scheme_append :
    ∀ a b : List Char, ':' ∉ a →
      indexOf [':', '/', '/'] (a ++ ':' :: '/' :: '/' :: b) = some a.length := by
  intro a
  induction a with
  | nil => intro b _; simp [indexOf, List.isPrefixOf]
  | cons d ds ih =>
    intro b h
    simp only [List.mem_cons, not_or] at h
    have hne : ¬ ':' = d := h.1
    simp [indexOf, List.isPrefixOf, hne, ih b h.2]

theorem indexOf_single_some (c : Char) :
    ∀ (s : List Char) (i : Nat), indexOf [c] s = some i →
      s = s.take i ++ c :: s.drop (i + 1) ∧ c ∉ s.take i := by
  intro s
  induction s with
  | nil => intro i h; simp [indexOf] at h
  | cons d ds ih =>
    intro i h
    by_cases hd : c = d
    · subst hd
      simp [indexOf, List.isPrefixOf] at h
      subst h
      simp
    · simp only [indexOf, List.isPrefixOf, List.isPrefixOf_nil_left, Bool.and_true,
        beq_iff_eq, hd, if_false] at h
      cases hi : indexOf [c] ds with
      | none => simp [hi] at h
      | some j =>
        simp only [hi, Option.some.injEq] at h
        subst h
        obtain ⟨h1, h2⟩ := ih j hi
        refine ⟨?_, ?_⟩
        · simp only [List.take_succ_cons, List.drop_succ_cons, List.cons_append]
          rw [← h1]
        · simp only [List.take_succ_cons, List.mem_cons, not_or]
          exact ⟨hd, h2⟩

theorem indexOf_single_eq_none_iff (c : Char) (s : List Char) :
    indexOf [c] s = none ↔ c ∉ s := by
  constructor
  · intro h hm
    obtain ⟨a, b, rfl⟩ := List.append_of_mem hm
    induction a with
    | nil => simp [indexOf, List.isPrefixOf] at h
    | cons d ds ih =>
      by_cases hd : c = d
      · subst hd; simp [indexOf, List.isPrefixOf] at h
      · apply ih
        · simp only [List.cons_append, indexOf, List.isPrefixOf, List.isPrefixOf_nil_left,
            Bool.and_true, beq_iff_eq, hd, if_false] at h
          cases hi : indexOf [c] (ds ++ c :: b) with
          | none => rfl
          | some j => simp [hi] at h
        · simp
  · exact indexOf_single_none c s

theorem applyParam_set_password (mode : String) (res : ParsedURL) (kv : String × String)
    (x : String) :
    applyParam mode { res with Password := x } kv =
      { applyParam mode res kv with Password := x } := by
  unfold applyParam
  split_ifs <;> first | rfl | (cases QueryUnescape kv.2 <;> rfl)

theorem foldl_applyParam_set_password (mode : String) (x : String)
    (items : List (String × String)) :
    ∀ res : ParsedURL, items.foldl (applyParam mode) { res with Password := x } =
      { items.foldl (applyParam mode) res with Password := x } := by
  induction items with
  | nil => intro res; rfl
  | cons kv rest ih =>
    intro res
    rw [List.foldl_cons, List.foldl_cons, applyParam_set_password, ih]

theorem baseParsed_set_password (password rest : List Char) :
    baseParsed password rest = { baseParsed [] rest with Password := String.mk password } := by
  unfold baseParsed
  split_ifs <;> rfl

/-- The parse of a descriptor without scheme is the parse of the text after the
password with the password set. -/
theorem parseBody_eq_parseRest (mode : String) (body : List Char) :
    parseBody mode body =
      { parseRest mode (afterPassword body) with Password := String.mk (passwordPart body) } := by
  unfold parseBody parseRest
  rw [foldl_applyQueryItem, foldl_applyQueryItem, baseParsed_set_password,
    foldl_applyParam_set_password]

theorem parseRest_Password (mode : String) (rest : List Char) :
    (parseRest mode rest).Password = "" := by
  unfold parseRest
  rw [foldl_applyQueryItem]
  have h : ∀ res kv, (applyParam mode res kv).Password = res.Password := by
    intro res kv
    unfold applyParam
    split_ifs <;> first | rfl | (cases QueryUnescape kv.2 <;> rfl)
  rw [foldl_applyParam_frame mode (fun r => r.Password) h, baseParsed_Password]

theorem stripScheme_of_none {raw : List Char} (h : indexOf [':', '/', '/'] raw = none) :
    stripScheme raw = raw := by
  simp [stripScheme, h]

theorem passwordPart_append (p r : List Char) (h : '@' ∉ p) :
    passwordPart (p ++ '@' :: r) = p ∧ afterPassword (p ++ '@' :: r) = r := by
  unfold passwordPart afterPassword
  rw [indexOf_single_append '@' p r h]
  simp

theorem passwordPart_of_not_mem (body : List Char) (h : '@' ∉ body) :
    passwordPart body = [] ∧ afterPassword body = body := by
  unfold passwordPart afterPassword
  rw [indexOf_single_none '@' body h]
  simp

/-- A text without "://" and without '@' is parsed as host, path and query. -/
theorem parseInstanceURL_of_plain (mode : String) (r : List Char)
    (hs : indexOf [':', '/', '/'] r = none) (ha : '@' ∉ r) :
    parseInstanceURL (String.mk r) mode = parseRest mode r := by
  rw [parseInstanceURL_eq]
  simp only [stripScheme_of_none hs]
  rw [parseBody_eq_parseRest, (passwordPart_of_not_mem r ha).1, (passwordPart_of_not_mem r ha).2]
  have := parseRest_Password mode r
  cases hr : parseRest mode r
  rw [hr] at this
  simp only at this
  subst this
  rfl

theorem unhex_plusToSpace (c : Char) :
    unhex (if c = '+' then ' ' else c) = unhex c := by
  by_cases h : c = '+'
  · subst h; decide
  · simp [h]

theorem unescapeBytes_eq_percentBytes_aux :
    ∀ (n : Nat) (s : List Char), s.length ≤ n →
      unescapeBytes s = percentBytes (s.map (fun c => if c = '+' then ' ' else c)) := by
  intro n
  induction n with
  | zero =>
    intro s hs
    have : s = [] := List.length_eq_zero.mp (Nat.le_zero.mp hs)
    subst this
    rfl
  | succ n ih =>
    intro s hs
    rcases s with _ | ⟨c, rest⟩
    · rfl
    · by_cases hp : c = '%'
      · subst hp
        rcases rest with _ | ⟨h, _ | ⟨l, rest⟩⟩
        · rfl
        · simp [unescapeBytes, percentBytes]
        · have hr := ih rest (by simp at hs; omega)
          simp only [unescapeBytes, List.map_cons, percentBytes, hr, unhex_plusToSpace]
      · have hr := ih rest (by simp at hs; omega)
        by_cases hq : c = '+'
        · subst hq
          simp only [unescapeBytes, List.map_cons, hr]
          simp [percentBytes, utf8Encode]
        · simp only [List.map_cons, hq, if_false]
          rw [unescapeBytes, percentBytes, hr]
          all_goals first | exact hp | exact hq | exact fun _ _ _ e _ => hp e

theorem percentBytes_isSome_aux :
    ∀ (n : Nat) (s : List Char), s.length ≤ n →
      (percentBytes (s.map (fun c => if c = '+' then ' ' else c))).isSome =
        (percentBytes s).isSome := by
  intro n
  induction n with
  | zero =>
    intro s hs
    have : s = [] := List.length_eq_zero.mp (Nat.le_zero.mp hs)
    subst this
    rfl
  | succ n ih =>
    intro s hs
    rcases s with _ | ⟨c, rest⟩
    · rfl
    · by_cases hp : c = '%'
      · subst hp
        rcases rest with _ | ⟨h, _ | ⟨l, rest⟩⟩
        · rfl
        · simp [percentBytes]
        · have hr := ih rest (by simp at hs; omega)
          simp only [List.map_cons, percentBytes, unhex_plusToSpace]
          cases unhex h <;> cases unhex l <;>
            cases h1 : percentBytes (List.map (fun c => if c = '+' then ' ' else c) rest) <;>
            cases h2 : percentBytes rest <;> simp_all
      · have hr := ih rest (by simp at hs; omega)
        by_cases hq : c = '+'
        · subst hq
          simp only [List.map_cons, if_true]
          rw [percentBytes, percentBytes]
          · cases h1 : percentBytes (List.map (fun c => if c = '+' then ' ' else c) rest) <;>
              cases h2 : percentBytes rest <;> simp_all
          all_goals first | decide | exact fun _ _ _ e _ => absurd e (by decide)
        · simp only [List.map_cons, hq, if_false]
          rw [percentBytes, percentBytes]
          · cases h1 : percentBytes (List.map (fun c => if c = '+' then ' ' else c) rest) <;>
              cases h2 : percentBytes rest <;> simp_all
          all_goals first | exact hp | exact fun _ _ _ e _ => hp e

theorem QueryUnescape_eq_percentDecode (v : String) :
    QueryUnescape v = percentDecode (plusToSpace v) := by
  unfold QueryUnescape percentDecode plusToSpace
  rw [unescapeBytes_eq_percentBytes_aux v.data.length v.data (le_refl _)]

theorem percentDecode_plusToSpace_eq_none_iff (v : String) :
    percentDecode (plusToSpace v) = none ↔ percentDecode v = none := by
  have h := percentBytes_isSome_aux v.data.length v.data (le_refl _)
  unfold percentDecode plusToSpace
  simp only []
  cases h1 : percentBytes (List.map (fun c => if c = '+' then ' ' else c) v.data) <;>
    cases h2 : percentBytes v.data <;> simp_all

theorem plusToSpace_of_no_plus (v : String) (h : '+' ∉ v.data) : plusToSpace v = v := by
  unfold plusToSpace
  have : v.data.map (fun c => if c = '+' then ' ' else c) = v.data := by
    conv_rhs => rw [← List.map_id v.data]
    apply List.map_congr_left
    intro c hc
    have : c ≠ '+' := fun e => h (e ▸ hc)
    simp [this]
  rw [this]

theorem applyParam_crt (mode : String) (res : ParsedURL) (v : String) :
    (applyParam mode res ("crt", v)).CertPath = (QueryUnescape v).getD v := by
  unfold applyParam
  simp only [show ¬ ("crt" = "tls") by decide, show ¬ ("crt" = "log") by decide, if_false,
    if_true]
  cases QueryUnescape v <;> rfl

theorem applyParam_CertPath_other (mode : String) (res : ParsedURL) (k v : String)
    (h : k ≠ "crt") : (applyParam mode res (k, v)).CertPath = res.CertPath := by
  unfold applyParam
  simp only [h, if_false]
  split_ifs <;> first | rfl | (cases QueryUnescape v <;> rfl)

theorem applyParam_key (mode : String) (res : ParsedURL) (v : String) :
    (applyParam mode res ("key", v)).KeyPath = (QueryUnescape v).getD v := by
  unfold applyParam
  simp only [show ¬ ("key" = "tls") by decide, show ¬ ("key" = "log") by decide,
    show ¬ ("key" = "crt") by decide, if_false, if_true]
  cases QueryUnescape v <;> rfl

theorem applyParam_KeyPath_other (mode : String) (res : ParsedURL) (k v : String)
    (h : k ≠ "key") : (applyParam mode res (k, v)).KeyPath = res.KeyPath := by
  unfold applyParam
  simp only [h, if_false]
  split_ifs <;> first | rfl | (cases QueryUnescape v <;> rfl)

/-- The cert path is what `url.QueryUnescape` makes of the last `crt` value of the
query, the value itself when it returns an error, and empty without `crt` item. -/
theorem parseInstanceURL_crt_last (raw mode : String) :
    (parseInstanceURL raw mode).CertPath =
      (((paramValues "crt" raw).getLast?).map (fun v => (QueryUnescape v).getD v)).getD "" := by
  rw [parseInstanceURL_items,
    foldl_applyParam_field mode (fun r => r.CertPath) "crt"
      (fun v _ => (QueryUnescape v).getD v)
      (fun res v => applyParam_crt mode res v)
      (fun res k2 v h => applyParam_CertPath_other mode res k2 v h),
    baseParsed_CertPath]
  exact foldl_const_last (fun v => (QueryUnescape v).getD v) _ _

/-- The key path, as the cert path, for the `key` items. -/
theorem parseInstanceURL_key_last (raw mode : String) :
    (parseInstanceURL raw mode).KeyPath =
      (((paramValues "key" raw).getLast?).map (fun v => (QueryUnescape v).getD v)).getD "" := by
  rw [parseInstanceURL_items,
    foldl_applyParam_field mode (fun r => r.KeyPath) "key"
      (fun v _ => (QueryUnescape v).getD v)
      (fun res v => applyParam_key mode res v)
      (fun res k2 v h => applyParam_KeyPath_other mode res k2 v h),
    baseParsed_KeyPath]
  exact foldl_const_last (fun v => (QueryUnescape v).getD v) _ _

theorem parsePart_bracketed (seg addr tail : List Char)
    (hseg : trimSpace seg = '[' :: addr ++ ']' :: tail) (haddr : ']' ∉ addr) :
    parsePart (String.mk seg) =
      (String.mk ('[' :: addr ++ [']']), String.mk (portAfterBracket tail)) := by
  have hidx : indexOf [']'] ('[' :: addr ++ ']' :: tail) = some (addr.length + 1) := by
    have := indexOf_single_append ']' ('[' :: addr) tail (by
      simp only [List.mem_cons, not_or]
      exact ⟨by decide, haddr⟩)
    simpa using this
  have ht : List.take (addr.length + 1) (addr ++ ']' :: tail) = addr ++ [']'] := by
    have h1 : addr ++ ']' :: tail = (addr ++ [']']) ++ tail := by simp
    have h2 : addr.length + 1 = (addr ++ [']']).length := by simp
    rw [h1, h2, List.take_left]
  have hg : ∀ (c : Char) (rest : List Char) (hb : addr.length + 1 < (addr ++ ']' :: c :: rest).length),
      (addr ++ ']' :: c :: rest)[addr.length + 1] = c := by
    intro c rest hb
    have h1 : addr ++ ']' :: c :: rest = (addr ++ [']']) ++ c :: rest := by simp
    simp only [h1]
    rw [List.getElem_append_right (by simp)]
    simp
  unfold parsePart
  simp only [hseg, hidx]
  cases tail with
  | nil => simp [portAfterBracket, ht]
  | cons c rest =>
    by_cases hc : c = ':'
    · subst hc; simp [portAfterBracket, ht, hg]
    · simp [portAfterBracket, hc, ht, hg]

theorem lastIndexOf_none (c : Char) : ∀ s : List Char, c ∉ s → lastIndexOf c s = none := by
  intro s
  induction s with
  | nil => intro _; rfl
  | cons d ds ih =>
    intro h
    simp only [List.mem_cons, not_or] at h
    have hne : ¬ d = c := fun e => h.1 e.symm
    simp [lastIndexOf, ih h.2, hne]

theorem lastIndexOf_append (c : Char) :
    ∀ a p : List Char, c ∉ p → lastIndexOf c (a ++ c :: p) = some a.length := by
  intro a
  induction a with
  | nil => intro p h; simp [lastIndexOf, lastIndexOf_none c p h]
  | cons d ds ih => intro p h; simp [lastIndexOf, ih p h]

theorem parsePart_multi_colon (seg a p : List Char)
    (hseg : trimSpace seg = a ++ ':' :: p) (ha : ':' ∈ a) (hp : ':' ∉ p)
    (hb : ¬ startsBracketed (a ++ ':' :: p)) :
    parsePart (String.mk seg) =
      if isPortNumber p then (String.mk a, String.mk p)
      else (String.mk (a ++ ':' :: p), "") := by
  have hbr : (if (a ++ ':' :: p).head? = some '[' then indexOf [']'] (a ++ ':' :: p) else none) =
      none := by
    by_cases hh : (a ++ ':' :: p).head? = some '['
    · have : ']' ∉ a ++ ':' :: p := fun hm => hb ⟨hh, hm⟩
      simp [hh, indexOf_single_none ']' _ this]
    · rw [if_neg hh]
  have hcount : (a ++ ':' :: p).count ':' > 1 := by
    have := List.count_pos_iff.mpr ha
    simp only [List.count_append, List.count_cons_self]
    omega
  have hlast := lastIndexOf_append ':' a p hp
  have htake : List.take a.length (a ++ ':' :: p) = a := List.take_left _ _
  have hdrop : List.drop (a.length + 1) (a ++ ':' :: p) = p := by
    have h1 : a ++ ':' :: p = (a ++ [':']) ++ p := by simp
    have h2 : a.length + 1 = (a ++ [':']).length := by simp
    rw [h1, h2, List.drop_left]
  have hne : a ++ ':' :: p ≠ [] := by simp
  have hmem : ':' ∈ a ++ ':' :: p := by simp
  unfold parsePart
  simp only [hseg, hbr, hne, hmem, hcount, hlast, htake, hdrop, if_true, if_false, true_or]
  by_cases hpe : p = []
  · subst hpe
    have : ¬ isPortNumber [] := by decide
    simp [this]
  · have hlt : a.length < (a ++ ':' :: p).length - 1 := by
      have := List.length_pos.mpr hpe
      simp
      omega
    simp only [hlt, if_true]
    by_cases hport : isPortNumber p
    · have h2 := hport
      unfold isPortNumber at h2
      simp only [hport, if_true]
      simp [h2.1, h2.2.1, h2.2.2]
    · have h2 := hport
      unfold isPortNumber at h2
      simp only [hport, if_false]
      rw [if_neg]
      intro h3
      exact h2 ⟨h3.1, h3.2.1, h3.2.2⟩

theorem applyParam_tunnel_target (mode : String) (res : ParsedURL) (kv : String × String) :
    (applyParam mode res kv).TunnelAddress = res.TunnelAddress ∧
      (applyParam mode res kv).TunnelPort = res.TunnelPort ∧
      (applyParam mode res kv).TargetAddress = res.TargetAddress ∧
      (applyParam mode res kv).TargetPort = res.TargetPort := by
  unfold applyParam
  split_ifs <;> first | exact ⟨rfl, rfl, rfl, rfl⟩ | (cases QueryUnescape kv.2 <;> exact ⟨rfl, rfl, rfl, rfl⟩)

theorem baseParsed_tunnel (password rest : List Char) (h : hostOf rest ≠ []) :
    (baseParsed password rest).TunnelAddress = (parsePart (String.mk (hostOf rest))).1 ∧
      (baseParsed password rest).TunnelPort = (parsePart (String.mk (hostOf rest))).2 := by
  unfold baseParsed
  split_ifs <;> exact ⟨rfl, rfl⟩

theorem baseParsed_target (password rest : List Char) (h : pathOf rest ≠ []) :
    (baseParsed password rest).TargetAddress = (parsePart (String.mk (pathOf rest))).1 ∧
      (baseParsed password rest).TargetPort = (parsePart (String.mk (pathOf rest))).2 := by
  unfold baseParsed
  split_ifs <;> exact ⟨rfl, rfl⟩

/-- The tunnel address and port are those of `parsePart` on the host segment. -/
theorem parseInstanceURL_tunnel (raw mode : String) (h : hostPart raw ≠ []) :
    (parseInstanceURL raw mode).TunnelAddress = (parsePart (String.mk (hostPart raw))).1 ∧
      (parseInstanceURL raw mode).TunnelPort = (parsePart (String.mk (hostPart raw))).2 := by
  rw [parseInstanceURL_items,
    foldl_applyParam_frame mode (fun r => r.TunnelAddress)
      (fun res kv => (applyParam_tunnel_target mode res kv).1),
    foldl_applyParam_frame mode (fun r => r.TunnelPort)
      (fun res kv => (applyParam_tunnel_target mode res kv).2.1)]
  exact baseParsed_tunnel _ _ h

/-- The target address and port are those of `parsePart` on the target segment. -/
theorem parseInstanceURL_target (raw mode : String) (h : pathPart raw ≠ []) :
    (parseInstanceURL raw mode).TargetAddress = (parsePart (String.mk (pathPart raw))).1 ∧
      (parseInstanceURL raw mode).TargetPort = (parsePart (String.mk (pathPart raw))).2 := by
  rw [parseInstanceURL_items,
    foldl_applyParam_frame mode (fun r => r.TargetAddress)
      (fun res kv => (applyParam_tunnel_target mode res kv).2.2.1),
    foldl_applyParam_frame mode (fun r => r.TargetPort)
      (fun res kv => (applyParam_tunnel_target mode res kv).2.2.2)]
  exact baseParsed_target _ _ h

theorem ne_nil_of_trimSpace {seg part : List Char} (h : trimSpace seg = part)
    (hp : part ≠ []) : seg ≠ [] := by
  intro hs
  subst hs
  exact hp h.symm

/-! ## Properties of the descriptor parser -/

/-- C11: the worked example of the specification. With mode "server" the
descriptor "tcp://pass@[2001:db8::1]:9000/10.0.0.1:8080?tls=1&min=4&max=16" parses
to tunnel "[2001:db8::1]" port "9000", target "10.0.0.1" port "8080", TLS mode
"mode1", min "4", max "16", password "pass", with log level "inherit" and empty
cert and key paths. -/
theorem parseInstanceURL_worked_example :
    parseInstanceURL "tcp://pass@[2001:db8::1]:9000/10.0.0.1:8080?tls=1&min=4&max=16" "server" =
      { TunnelAddress := "[2001:db8::1]", TunnelPort := "9000", TargetAddress := "10.0.0.1",
        TargetPort := "8080", TLSMode := "mode1", LogLevel := "inherit", CertPath := "",
        KeyPath := "", Password := "pass", Min := "4", Max := "16" } := by
  decide

/-- C14: for every mode, the empty descriptor parses to the record with TLS mode
and log level "inherit" and every other field empty. -/
theorem parseInstanceURL_empty (mode : String) :
    parseInstanceURL "" mode =
      { TunnelAddress := "", TunnelPort := "", TargetAddress := "", TargetPort := "",
        TLSMode := "inherit", LogLevel := "inherit", CertPath := "", KeyPath := "",
        Password := "", Min := "", Max := "" } := by
  rfl

/-- C15: for every descriptor and every mode other than "server", the parser
returns the TLS mode "inherit", whatever `tls` parameters the query contains. -/
theorem parseInstanceURL_tls_ignored (raw mode : String) (h : mode ≠ "server") :
    (parseInstanceURL raw mode).TLSMode = "inherit" := by
  rw [parseInstanceURL_items,
    foldl_applyParam_frame mode (fun r => r.TLSMode) (applyParam_TLSMode_of_ne_server mode h)]
  exact baseParsed_TLSMode _ _

/-- Witness: a client descriptor with `tls=1` in its query. -/
theorem parseInstanceURL_tls_ignored_witness :
    "client" ≠ "server" ∧
      (parseInstanceURL "client://10.0.0.1:10101/127.0.0.1:8080?tls=1" "client").TLSMode =
        "inherit" :=
  ⟨by decide, parseInstanceURL_tls_ignored _ _ (by decide)⟩

/-- C16, as stated, fails: in server mode the query "tls=1&tls=9" contains a `tls`
parameter whose value, "9", is none of "0", "1", "2", and the parser returns the
TLS mode "mode1", not "inherit": a value outside "0", "1", "2" leaves the mode
that an earlier parameter has set. -/
theorem parseInstanceURL_tls_not_reset :
    paramValues "tls" "server://:10101/127.0.0.1:8080?tls=1&tls=9" = ["1", "9"] ∧
      tlsModeOf "9" = "inherit" ∧
      (parseInstanceURL "server://:10101/127.0.0.1:8080?tls=1&tls=9" "server").TLSMode =
        "mode1" := by
  decide

/-- C16, amended: in server mode, for every descriptor whose query contains exactly
one `tls` parameter, the parser returns the TLS mode "mode0", "mode1" or "mode2"
when the value is "0", "1" or "2", and "inherit" when the value is anything else.
With several `tls` parameters the values are applied in order: "0", "1" or "2"
sets the mode, any other value leaves it as it is. -/
theorem parseInstanceURL_tls_server (raw v : String) (h : paramValues "tls" raw = [v]) :
    (parseInstanceURL raw "server").TLSMode = tlsModeOf v ∧
      ∀ raw2 : String, (parseInstanceURL raw2 "server").TLSMode =
        (paramValues "tls" raw2).foldl tlsAfter "inherit" := by
  refine ⟨?_, parseInstanceURL_tls_fold⟩
  rw [parseInstanceURL_tls_fold, h]
  simp only [List.foldl_cons, List.foldl_nil, tlsAfter, tlsModeOf]
  by_cases h0 : v = "0"
  · simp [h0]
  · by_cases h1 : v = "1"
    · simp [h1]
    · by_cases h2 : v = "2"
      · simp [h2]
      · simp [h0, h1, h2]

/-- Witness: a server descriptor with the one parameter `tls=2`. -/
theorem parseInstanceURL_tls_server_witness :
    paramValues "tls" "server://:10101/127.0.0.1:8080?log=debug&tls=2" = ["2"] ∧
      (parseInstanceURL "server://:10101/127.0.0.1:8080?log=debug&tls=2" "server").TLSMode =
        tlsModeOf "2" :=
  ⟨by decide, (parseInstanceURL_tls_server _ "2" (by decide)).1⟩

/-- C17: for every descriptor, after the scheme is stripped: if the remaining text
contains '@', the password is exactly the text before the first '@' and all other
fields are those of the parse of the text after it (`parseRest`: host, target and
query; it is the parser itself on a text without "://" and '@'); if the remaining
text contains no '@', the password is empty. -/
theorem parseInstanceURL_password (raw mode : String) :
    (∀ p r : List Char, stripScheme raw.data = p ++ '@' :: r → '@' ∉ p →
        (parseInstanceURL raw mode).Password = String.mk p ∧
        parseInstanceURL raw mode = { parseRest mode r with Password := String.mk p } ∧
        (indexOf [':', '/', '/'] r = none → '@' ∉ r →
          parseRest mode r = parseInstanceURL (String.mk r) mode)) ∧
      ('@' ∉ stripScheme raw.data → (parseInstanceURL raw mode).Password = "") := by
  constructor
  · intro p r hbody hp
    have key : parseInstanceURL raw mode = { parseRest mode r with Password := String.mk p } := by
      rw [parseInstanceURL_eq, parseBody_eq_parseRest, hbody, (passwordPart_append p r hp).1,
        (passwordPart_append p r hp).2]
    refine ⟨by rw [key], key, ?_⟩
    intro hs ha
    exact (parseInstanceURL_of_plain mode r hs ha).symm
  · intro h
    rw [parseInstanceURL_eq, parseBody_eq_parseRest, (passwordPart_of_not_mem _ h).1]

/-- Witness: the descriptor "tcp://s3cret@10.0.0.1:10101/127.0.0.1:8080?log=info":
the password is "s3cret" and the other fields are those of the parse of
"10.0.0.1:10101/127.0.0.1:8080?log=info". -/
theorem parseInstanceURL_password_witness :
    stripScheme "tcp://s3cret@10.0.0.1:10101/127.0.0.1:8080?log=info".data =
        "s3cret".data ++ '@' :: "10.0.0.1:10101/127.0.0.1:8080?log=info".data ∧
      '@' ∉ "s3cret".data ∧
      (parseInstanceURL "tcp://s3cret@10.0.0.1:10101/127.0.0.1:8080?log=info" "client").Password =
        String.mk "s3cret".data ∧
      parseInstanceURL "tcp://s3cret@10.0.0.1:10101/127.0.0.1:8080?log=info" "client" =
        { parseRest "client" "10.0.0.1:10101/127.0.0.1:8080?log=info".data with
          Password := String.mk "s3cret".data } :=
  ⟨by decide, by decide,
    ((parseInstanceURL_password "tcp://s3cret@10.0.0.1:10101/127.0.0.1:8080?log=info" "client").1
      "s3cret".data "10.0.0.1:10101/127.0.0.1:8080?log=info".data (by decide) (by decide)).1,
    ((parseInstanceURL_password "tcp://s3cret@10.0.0.1:10101/127.0.0.1:8080?log=info" "client").1
      "s3cret".data "10.0.0.1:10101/127.0.0.1:8080?log=info".data (by decide) (by decide)).2.1⟩

/-- C18, as stated, fails: for the scheme "tcp" and the body
"0.0.0.0:10101/127.0.0.1:8080?crt=file://cert.pem", which itself contains "://",
the descriptor with scheme has the tunnel port "10101", while the body alone is
cut at its own "://" and has an empty tunnel port. -/
theorem parseInstanceURL_scheme_in_body :
    (∀ c ∈ "tcp".data, c.isAlpha = true) ∧
      (parseInstanceURL ("tcp" ++ "://" ++ "0.0.0.0:10101/127.0.0.1:8080?crt=file://cert.pem")
        "server").TunnelPort = "10101" ∧
      (parseInstanceURL "0.0.0.0:10101/127.0.0.1:8080?crt=file://cert.pem"
        "server").TunnelPort = "" := by
  decide

/-- C18, amended: for every scheme name `s` made of ASCII letters, every
descriptor body `d` that does not itself contain "://", and every mode, the
descriptor `s ++ "://" ++ d` parses to the same record as `d`. -/
theorem parseInstanceURL_scheme_optional (s d mode : String)
    (hs : ∀ c ∈ s.data, c.isAlpha = true) (hd : indexOf [':', '/', '/'] d.data = none) :
    parseInstanceURL (s ++ "://" ++ d) mode = parseInstanceURL d mode := by
  have hcolon : ':' ∉ s.data := by
    intro hm
    have := hs ':' hm
    revert this
    decide
  rw [parseInstanceURL_eq, parseInstanceURL_eq, stripScheme_of_none hd]
  have hdata : (s ++ "://" ++ d).data = s.data ++ ':' :: '/' :: '/' :: d.data := by
    simp only [String.data_append, List.append_assoc]
    rfl
  rw [hdata]
  unfold stripScheme
  rw [indexOf_scheme_append s.data d.data hcolon]
  have hdrop : List.drop (s.data.length + 3) (s.data ++ ':' :: '/' :: '/' :: d.data) = d.data := by
    rw [List.drop_append]
    rfl
  simp only [hdrop]

/-- Witness: the scheme "server" before the body "0.0.0.0:10101/127.0.0.1:8080?tls=1". -/
theorem parseInstanceURL_scheme_optional_witness :
    (∀ c ∈ "server".data, c.isAlpha = true) ∧
      indexOf [':', '/', '/'] "0.0.0.0:10101/127.0.0.1:8080?tls=1".data = none ∧
      parseInstanceURL ("server" ++ "://" ++ "0.0.0.0:10101/127.0.0.1:8080?tls=1") "server" =
        parseInstanceURL "0.0.0.0:10101/127.0.0.1:8080?tls=1" "server" :=
  ⟨by decide, by decide, parseInstanceURL_scheme_optional _ _ _ (by decide) (by decide)⟩

/-- C19, as stated, fails: the value "/etc/ssl/my+cert.pem" of a `crt` parameter
is validly percent-encoded and its percent-decoding is the value itself, but the
cert path that the parser returns is "/etc/ssl/my cert.pem": `url.QueryUnescape`
also turns every '+' into a space. -/
theorem parseInstanceURL_crt_plus_becomes_space :
    paramValues "crt" "server://:10101/127.0.0.1:8080?tls=2&crt=/etc/ssl/my+cert.pem" =
        ["/etc/ssl/my+cert.pem"] ∧
      percentDecode "/etc/ssl/my+cert.pem" = some "/etc/ssl/my+cert.pem" ∧
      (parseInstanceURL "server://:10101/127.0.0.1:8080?tls=2&crt=/etc/ssl/my+cert.pem"
        "server").CertPath = "/etc/ssl/my cert.pem" := by
  decide

/-- C19, amended: for every descriptor with a `crt` (resp. `key`) query parameter
of value `v` (the last one when there are several), the cert path (resp. key
path) is the percent-decoding of `v` with every '+' read as a space when `v` is
validly percent-encoded, and is `v` itself, unchanged, when it is not. For a value
without '+' this is the percent-decoding of `v`. -/
theorem parseInstanceURL_cert_key (raw mode : String) :
    (∀ v, (paramValues "crt" raw).getLast? = some v →
        (parseInstanceURL raw mode).CertPath = (percentDecode (plusToSpace v)).getD v) ∧
      (∀ v, (paramValues "key" raw).getLast? = some v →
        (parseInstanceURL raw mode).KeyPath = (percentDecode (plusToSpace v)).getD v) ∧
      (∀ v : String, percentDecode (plusToSpace v) = none ↔ percentDecode v = none) ∧
      (∀ v : String, '+' ∉ v.data → percentDecode (plusToSpace v) = percentDecode v) := by
  refine ⟨?_, ?_, percentDecode_plusToSpace_eq_none_iff, ?_⟩
  · intro v h
    rw [parseInstanceURL_crt_last, h, ← QueryUnescape_eq_percentDecode]
    rfl
  · intro v h
    rw [parseInstanceURL_key_last, h, ← QueryUnescape_eq_percentDecode]
    rfl
  · intro v h
    rw [plusToSpace_of_no_plus v h]

/-- Witness: the value "%2Fetc%2Fssl%2Fcert.pem" of `crt` decodes to
"/etc/ssl/cert.pem"; the value "%zz" of `key` is not validly encoded and is kept. -/
theorem parseInstanceURL_cert_key_witness :
    (paramValues "crt" "server://:1/h:2?crt=%2Fetc%2Fssl%2Fcert.pem&key=%zz").getLast? =
        some "%2Fetc%2Fssl%2Fcert.pem" ∧
      (parseInstanceURL "server://:1/h:2?crt=%2Fetc%2Fssl%2Fcert.pem&key=%zz" "server").CertPath =
        (percentDecode (plusToSpace "%2Fetc%2Fssl%2Fcert.pem")).getD "%2Fetc%2Fssl%2Fcert.pem" ∧
      (percentDecode (plusToSpace "%2Fetc%2Fssl%2Fcert.pem")).getD "%2Fetc%2Fssl%2Fcert.pem" =
        "/etc/ssl/cert.pem" ∧
      (parseInstanceURL "server://:1/h:2?crt=%2Fetc%2Fssl%2Fcert.pem&key=%zz" "server").KeyPath =
        "%zz" :=
  ⟨by decide,
    (parseInstanceURL_cert_key "server://:1/h:2?crt=%2Fetc%2Fssl%2Fcert.pem&key=%zz" "server").1
      "%2Fetc%2Fssl%2Fcert.pem" (by decide),
    by decide, by decide⟩

/-- C12, as stated, fails: the host segment "[2001:db8::1]:abc" is a bracketed
IPv6 literal followed by ":abc"; the parser keeps the brackets in the tunnel
address and returns the tunnel port "abc", which is not empty and holds no
decimal digit: the text after "]:" is taken as the port without a check. -/
theorem parseInstanceURL_bracketed_port_unchecked :
    hostPart "tcp://[2001:db8::1]:abc/10.0.0.1:8080" = "[2001:db8::1]:abc".data ∧
      (parseInstanceURL "tcp://[2001:db8::1]:abc/10.0.0.1:8080" "server").TunnelAddress =
        "[2001:db8::1]" ∧
      (parseInstanceURL "tcp://[2001:db8::1]:abc/10.0.0.1:8080" "server").TunnelPort = "abc" ∧
      ("abc".data.all isDigit) = false := by
  decide

/-- C12, amended: for every descriptor whose host segment, white space trimmed, is
a bracketed literal "[addr]" followed by any text, the tunnel address is the
literal including both brackets, and the tunnel port is the text after "]:" when
the literal is followed by ':' and is empty otherwise; so the tunnel port consists
only of decimal digits when the text after "]:" does. -/
theorem parseInstanceURL_bracketed_host (raw mode : String) (addr tail : List Char)
    (hhost : trimSpace (hostPart raw) = '[' :: addr ++ ']' :: tail) (haddr : ']' ∉ addr) :
    (parseInstanceURL raw mode).TunnelAddress = String.mk ('[' :: addr ++ [']']) ∧
      (parseInstanceURL raw mode).TunnelPort = String.mk (portAfterBracket tail) ∧
      (∀ port : List Char, tail = ':' :: port → port.all isDigit = true →
        (parseInstanceURL raw mode).TunnelPort.data.all isDigit = true) := by
  have hne : hostPart raw ≠ [] := ne_nil_of_trimSpace hhost (by simp)
  obtain ⟨h1, h2⟩ := parseInstanceURL_tunnel raw mode hne
  rw [parsePart_bracketed (hostPart raw) addr tail hhost haddr] at h1 h2
  refine ⟨h1, h2, ?_⟩
  intro port ht hd
  rw [h2, ht]
  simpa [portAfterBracket] using hd

/-- Witness: the host segment "[2001:db8::1]:9000". -/
theorem parseInstanceURL_bracketed_host_witness :
    trimSpace (hostPart "tcp://pass@[2001:db8::1]:9000/10.0.0.1:8080?tls=1") =
        '[' :: "2001:db8::1".data ++ ']' :: ":9000".data ∧
      ']' ∉ "2001:db8::1".data ∧
      (parseInstanceURL "tcp://pass@[2001:db8::1]:9000/10.0.0.1:8080?tls=1" "server").TunnelAddress =
        String.mk ('[' :: "2001:db8::1".data ++ [']']) ∧
      (parseInstanceURL "tcp://pass@[2001:db8::1]:9000/10.0.0.1:8080?tls=1" "server").TunnelPort =
        String.mk (portAfterBracket ":9000".data) :=
  ⟨by decide, by decide,
    (parseInstanceURL_bracketed_host "tcp://pass@[2001:db8::1]:9000/10.0.0.1:8080?tls=1" "server"
      "2001:db8::1".data ":9000".data (by decide) (by decide)).1,
    (parseInstanceURL_bracketed_host "tcp://pass@[2001:db8::1]:9000/10.0.0.1:8080?tls=1" "server"
      "2001:db8::1".data ":9000".data (by decide) (by decide)).2.1⟩

/-- C13, as stated, fails: the target segment "2001:db8::1:8080 " (with a space at
its end) has more than one colon and no bracket; the text after its last colon is
"8080 ", which `strconv.Atoi` does not read as an integer, so the rule gives the
whole segment as address and no port (and the port "8080 ", space included, if
the text is taken for an integer all the same); the parser trims the segment
first and returns the address "2001:db8::1" and the port "8080". -/
theorem parseInstanceURL_segment_trimmed :
    pathPart "tcp://relay.example:10101/2001:db8::1:8080 " = "2001:db8::1:8080 ".data ∧
      ¬ isPortNumber "8080 ".data ∧
      (parseInstanceURL "tcp://relay.example:10101/2001:db8::1:8080 " "client").TargetAddress =
        "2001:db8::1" ∧
      (parseInstanceURL "tcp://relay.example:10101/2001:db8::1:8080 " "client").TargetPort =
        "8080" := by
  decide

/-- C13, amended: for every host or target segment that, with the white space at
its ends removed, contains more than one colon and does not start with a
bracketed literal: if the text after the last colon is read by `strconv.Atoi` as
an integer from 1 to 65535, the address is the text before the last colon and the
port is the text after it; otherwise the address is the whole trimmed segment and
the port is empty. Here `a` is the text before the last colon, `p` the text after
it. -/
theorem parseInstanceURL_multi_colon (raw mode : String) (a p : List Char)
    (ha : ':' ∈ a) (hp : ':' ∉ p) (hb : ¬ startsBracketed (a ++ ':' :: p)) :
    (trimSpace (hostPart raw) = a ++ ':' :: p →
        ((parseInstanceURL raw mode).TunnelAddress, (parseInstanceURL raw mode).TunnelPort) =
          if isPortNumber p then (String.mk a, String.mk p)
          else (String.mk (a ++ ':' :: p), "")) ∧
      (trimSpace (pathPart raw) = a ++ ':' :: p →
        ((parseInstanceURL raw mode).TargetAddress, (parseInstanceURL raw mode).TargetPort) =
          if isPortNumber p then (String.mk a, String.mk p)
          else (String.mk (a ++ ':' :: p), "")) := by
  constructor
  · intro hseg
    have hne : hostPart raw ≠ [] := ne_nil_of_trimSpace hseg (by simp)
    obtain ⟨h1, h2⟩ := parseInstanceURL_tunnel raw mode hne
    rw [h1, h2, ← parsePart_multi_colon (hostPart raw) a p hseg ha hp hb]
  · intro hseg
    have hne : pathPart raw ≠ [] := ne_nil_of_trimSpace hseg (by simp)
    obtain ⟨h1, h2⟩ := parseInstanceURL_target raw mode hne
    rw [h1, h2, ← parsePart_multi_colon (pathPart raw) a p hseg ha hp hb]

/-- Witness: the target segment "2001:db8::1:8080" gives the address "2001:db8::1"
and the port "8080"; in "2001:db8::beef" the text after the last colon is no
integer and the whole segment is the address. -/
theorem parseInstanceURL_multi_colon_witness :
    ':' ∈ "2001:db8::1".data ∧ ':' ∉ "8080".data ∧
      ¬ startsBracketed ("2001:db8::1".data ++ ':' :: "8080".data) ∧
      trimSpace (pathPart "tcp://relay.example:10101/2001:db8::1:8080") =
        "2001:db8::1".data ++ ':' :: "8080".data ∧
      ((parseInstanceURL "tcp://relay.example:10101/2001:db8::1:8080" "client").TargetAddress,
        (parseInstanceURL "tcp://relay.example:10101/2001:db8::1:8080" "client").TargetPort) =
        (if isPortNumber "8080".data then (String.mk "2001:db8::1".data, String.mk "8080".data)
          else (String.mk ("2001:db8::1".data ++ ':' :: "8080".data), "")) ∧
      (parseInstanceURL "tcp://relay.example:10101/2001:db8::beef" "client").TargetAddress =
        "2001:db8::beef" :=
  ⟨by decide, by decide, by decide, by decide,
    (parseInstanceURL_multi_colon "tcp://relay.example:10101/2001:db8::1:8080" "client"
      "2001:db8::1".data "8080".data (by decide) (by decide) (by decide)).2 (by decide),
    by decide⟩

/-! ## Arithmetic of the pagination -/

theorem wrapInt_of_range {x : Int} (h1 : -(2 ^ 63 : Int) ≤ x) (h2 : x < 2 ^ 63) : wrapInt x = x := by
  unfold wrapInt
  norm_num at h1 h2 ⊢
  omega

theorem Atoi_range (s : String) : -(2 ^ 63 : Int) ≤ (Atoi s).1 ∧ (Atoi s).1 < 2 ^ 63 := by
  unfold Atoi
  cases s.data with
  | nil => norm_num
  | cons c cs =>
    simp only []
    split_ifs <;> norm_num at * <;> omega

theorem Atoi_of_not_numeric (s : String) (h : isNumeric s = false) : (Atoi s).1 = 0 := by
  unfold isNumeric at h
  unfold Atoi
  cases hs : s.data with
  | nil => rfl
  | cons c cs =>
    rw [hs] at h
    simp only [] at h ⊢
    by_cases hb : (if c = '-' ∨ c = '+' then cs else c :: cs) = []
    · simp [hb]
    · by_cases hd : (if c = '-' ∨ c = '+' then cs else c :: cs).all isDigit = true
      · simp [hb, hd] at h
      · simp [hd]

theorem queryGet_missing (q : List (String × String)) (key : String)
    (h : ∀ kv ∈ q, kv.1 ≠ key) : queryGet q key = "" := by
  unfold queryGet
  have : q.find? (fun kv => decide (kv.1 = key)) = none := by
    rw [List.find?_eq_none]
    intro kv hkv
    simpa using h kv hkv
  rw [this]

theorem effectivePage_range (q : List (String × String)) :
    1 ≤ effectivePage q ∧ effectivePage q < 2 ^ 63 := by
  unfold effectivePage
  have := Atoi_range (queryGet q "page")
  simp only []
  split_ifs
  · norm_num
  · norm_num at *
    omega

theorem effectiveSize_range (q : List (String × String)) :
    1 ≤ effectiveSize q ∧ effectiveSize q < 2 ^ 63 := by
  unfold effectiveSize
  have := Atoi_range (queryGet q "size")
  simp only []
  split_ifs
  · norm_num
  · norm_num at *
    omega

theorem pageOffset_eq (page size : Int) (h1 : 1 ≤ page) (h2 : page < 2 ^ 63) :
    pageOffset page size = wrapInt ((page - 1) * size) := by
  unfold pageOffset
  rw [@wrapInt_of_range (page - 1) (by norm_num; omega) (by norm_num at h2 ⊢; omega)]

/-- For a total and a size in the range of `int`, the total not negative and the
size positive, `totalPages` is the quotient, plus one when the division leaves a
remainder. -/
theorem totalPages_eq (total size : Int) (h0 : 0 ≤ total) (ht : total < 2 ^ 63) (hs : 1 ≤ size) :
    totalPages total size = if total % size = 0 then total / size else total / size + 1 := by
  have hq : total.tdiv size = total / size := Int.tdiv_eq_ediv h0 (by omega)
  have hr : total.tmod size = total % size := Int.tmod_eq_emod h0 (by omega)
  have hq0 : 0 ≤ total / size := Int.ediv_nonneg h0 (by omega)
  have hdm : size * (total / size) + total % size = total := Int.ediv_add_emod total size
  have hr0 : 0 ≤ total % size := Int.emod_nonneg _ (by omega)
  have hle : total / size ≤ size * (total / size) := by nlinarith
  unfold totalPages
  rw [if_neg (by omega), hq, hr]
  by_cases h : total % size = 0
  · rw [if_pos h, if_pos h]
    exact wrapInt_of_range (by norm_num; omega) (by norm_num at ht ⊢; omega)
  · rw [if_neg h, if_neg h]
    exact wrapInt_of_range (by norm_num; omega) (by norm_num at ht ⊢; omega)

/-- The number of pages is the least `n` with `n * size ≥ total`. -/
theorem totalPages_least (total size : Int) (h0 : 0 ≤ total) (ht : total < 2 ^ 63)
    (hs : 1 ≤ size) :
    total ≤ totalPages total size * size ∧
      ∀ n : Int, total ≤ n * size → totalPages total size ≤ n := by
  have hdm : size * (total / size) + total % size = total := Int.ediv_add_emod total size
  have hr0 : 0 ≤ total % size := Int.emod_nonneg _ (by omega)
  have hr1 : total % size < size := Int.emod_lt_of_pos _ (by omega)
  rw [totalPages_eq total size h0 ht hs]
  by_cases h : total % size = 0
  · rw [if_pos h]
    constructor
    · nlinarith
    · intro n hn
      by_contra hlt
      have : n + 1 ≤ total / size := by omega
      nlinarith
  · rw [if_neg h]
    constructor
    · nlinarith
    · intro n hn
      by_contra hlt
      have hle : n ≤ total / size := by omega
      have hmul : n * size ≤ total / size * size :=
        mul_le_mul_of_nonneg_right hle (by omega)
      have hr : 1 ≤ total % size := by omega
      linarith [mul_comm size (total / size)]

/-! ## The deletion handlers -/

theorem mem_distinct (l : List String) (y : String) : y ∈ distinct l ↔ y ∈ l := by
  induction l with
  | nil => simp [distinct]
  | cons x xs ih =>
    by_cases h : y = x
    · simp [distinct, h]
    · simp [distinct, h, ih]

theorem mem_collectIDs (column : List (Option String)) (i : String) :
    i ∈ collectIDs column ↔ i ≠ "" ∧ some i ∈ column := by
  unfold collectIDs
  simp only [List.mem_filter, mem_distinct, List.mem_filterMap, id, decide_eq_true_eq]
  constructor
  · rintro ⟨⟨a, ha, rfl⟩, hne⟩
    exact ⟨hne, ha⟩
  · rintro ⟨hne, ha⟩
    exact ⟨⟨some i, ha, rfl⟩, hne⟩

/-- The ids collected before the deletion when both queries succeed: the non-empty
instance ids of the rows of the endpoint in `Tunnel` and in `TunnelRecycle`. -/
theorem mem_instanceIDsOf (F : HandlerFaults) (db : Store) (id : Int) (i : String)
    (h1 : F.selectTunnel = false) (h2 : F.selectRecycle = false) :
    i ∈ instanceIDsOf F db id ↔
      i ≠ "" ∧ ((∃ t ∈ db.tunnels, t.endpointId = id ∧ t.instanceId = some i) ∨
        ∃ r ∈ db.recycle, r.endpointId = id ∧ r.instanceId = some i) := by
  unfold instanceIDsOf
  simp only [h1, h2, Bool.false_eq_true, if_false, List.mem_append, mem_collectIDs,
    List.mem_map, List.mem_filter, decide_eq_true_eq]
  constructor
  · rintro (⟨hne, t, ⟨ht, hE⟩, hi⟩ | ⟨hne, r, ⟨hr, hE⟩, hi⟩)
    · exact ⟨hne, Or.inl ⟨t, ht, hE, hi⟩⟩
    · exact ⟨hne, Or.inr ⟨r, hr, hE, hi⟩⟩
  · rintro ⟨hne, ⟨t, ht, hE, hi⟩ | ⟨r, hr, hE, hi⟩⟩
    · exact Or.inl ⟨hne, t, ⟨ht, hE⟩, hi⟩
    · exact Or.inr ⟨hne, r, ⟨hr, hE⟩, hi⟩

/-- With a primary key on `id`, the row that the lookup of `HandleRecycleDelete`
returns is the row of the table with this id. -/
theorem recycle_find_unique (l : List RecycleRow) (hkey : (l.map (fun x => x.id)).Nodup)
    (row found : RecycleRow) (hrow : row ∈ l) (r E : Int) (hid : row.id = r)
    (hf : l.find? (fun x => decide (x.id = r ∧ x.endpointId = E)) = some found) :
    found = row := by
  have hm := List.mem_of_find?_eq_some hf
  have hp := List.find?_some hf
  simp only [decide_eq_true_eq] at hp
  exact List.inj_on_of_nodup_map hkey hm hrow (hp.1.trans hid.symm)

/-- What a call of `HandleRecycleDelete` that answers with success has done. -/
theorem HandleRecycleDelete_success (h : EndpointHandler) (F : HandlerFaults)
    (method epStr recStr : String) (db db2 : Store) (calls : List Call)
    (hok : HandleRecycleDelete h F method epStr recStr db = (.success, db2, calls)) :
    ∃ E r row, ParseInt epStr = some E ∧ ParseInt recStr = some r ∧
      db.recycle.find? (fun x => decide (x.id = r ∧ x.endpointId = E)) = some row ∧
      db2.tunnels = db.tunnels ∧
      db2.recycle = db.recycle.filter (fun x => decide (x.id ≠ r)) ∧
      db2.journal = (match row.instanceId with
        | some i => db.journal.filter (fun j => decide (¬ (j.endpointId = E ∧ j.instanceId = some i)))
        | none => db.journal) ∧
      calls = (match row.instanceId with
        | some i => if hasFileLogger h then [Call.clearLogs E i] else []
        | none => []) := by
  unfold HandleRecycleDelete at hok
  by_cases hmeth : method = "DELETE"
  swap
  · simp [hmeth] at hok
  simp only [hmeth, ne_eq, not_true_eq_false, if_false] at hok
  cases hE : ParseInt epStr with
  | none => simp [hE] at hok
  | some E =>
    cases hr : ParseInt recStr with
    | none => simp [hE, hr] at hok
    | some r =>
      simp only [hE, hr] at hok
      by_cases h1 : F.selectRecycle = true
      · simp [h1] at hok
      simp only [h1] at hok
      cases hf : db.recycle.find? (fun x => decide (x.id = r ∧ x.endpointId = E)) with
      | none =>
        rw [hf] at hok
        simp at hok
      | some row =>
        simp only [hf] at hok
        by_cases h2 : F.beginTx = true
        · simp [h2] at hok
        by_cases h3 : F.deleteRecycle = true
        · simp [h2, h3] at hok
        by_cases h5 : F.commit = true
        · cases hi : row.instanceId <;> by_cases h4 : F.deleteJournal = true <;>
            simp [h2, h3, h5, hi, h4] at hok
        cases hi : row.instanceId with
        | none =>
          simp only [h2, h3, h5, hi, if_false, Bool.false_eq_true, Prod.mk.injEq, true_and] at hok
          obtain ⟨rfl, rfl⟩ := hok
          exact ⟨E, r, row, rfl, rfl, hf, rfl, rfl, by simp [hi], by simp [hi]⟩
        | some i =>
          by_cases h4 : F.deleteJournal = true
          · simp [h2, h3, h5, hi, h4] at hok
          simp only [h2, h3, h4, h5, hi, if_false, Bool.false_eq_true, Prod.mk.injEq,
            true_and] at hok
          obtain ⟨rfl, rfl⟩ := hok
          exact ⟨E, r, row, rfl, rfl, hf, rfl, rfl, by simp [hi], by simp [hi]⟩

/-! ## Snapshot entries without a type -/

theorem typed_typed (S : List Instance) : typed (typed S) = typed S := by
  unfold typed
  rw [List.filter_filter]
  simp

theorem reconcile_typed (E : Int) (now : Nat) (S : List Instance) (tx : List Tunnel) :
    reconcile E now (typed S) tx = reconcile E now S tx := by
  unfold reconcile upsertAll seenIDs
  rw [typed_typed]

theorem upsertLoop_untyped (F : Faults) (E : Int) (now : Nat) (inst : Instance)
    (rest : List Instance) (i : Nat) (tx : List Tunnel) (idSet : List String)
    (hT : inst.Typ = "") :
    upsertLoop F E now i (inst :: rest) tx idSet = upsertLoop F E now (i + 1) rest tx idSet := by
  rw [upsertLoop, if_pos hT]

/-! ## Properties of the pagination and of the deletion handlers -/

/-- C26, as stated, fails: for the request "page=4294967297&size=4294967296" the
effective page is 4294967297 and the effective size 4294967296, so that
(page - 1) * size is 18446744073709551616, but the offset computed in `int`
arithmetic is 0. -/
theorem pageOffset_wraps :
    effectivePage [("page", "4294967297"), ("size", "4294967296")] = 4294967297 ∧
      effectiveSize [("page", "4294967297"), ("size", "4294967296")] = 4294967296 ∧
      ((4294967297 : Int) - 1) * 4294967296 = 18446744073709551616 ∧
      pageOffset (effectivePage [("page", "4294967297"), ("size", "4294967296")])
        (effectiveSize [("page", "4294967297"), ("size", "4294967296")]) = 0 := by
  decide

/-- C26, amended: for every request, the effective page and the effective size are
at least 1; the page is 1 and the size 20 when the request value is missing, is
not numeric or is not positive; the offset is (page - 1) * size reduced to a signed
64-bit integer, which is (page - 1) * size itself whenever that product is below
2^63; and for every total from 0 to 2^63 - 1 the reported `totalPages` is the least
`n` with `n * size ≥ total`. -/
theorem pagination_arithmetic (q : List (String × String)) :
    1 ≤ effectivePage q ∧ 1 ≤ effectiveSize q ∧
      (((∀ kv ∈ q, kv.1 ≠ "page") ∨ isNumeric (queryGet q "page") = false ∨
          (Atoi (queryGet q "page")).1 ≤ 0) → effectivePage q = 1) ∧
      (((∀ kv ∈ q, kv.1 ≠ "size") ∨ isNumeric (queryGet q "size") = false ∨
          (Atoi (queryGet q "size")).1 ≤ 0) → effectiveSize q = 20) ∧
      pageOffset (effectivePage q) (effectiveSize q) =
        wrapInt ((effectivePage q - 1) * effectiveSize q) ∧
      ((effectivePage q - 1) * effectiveSize q < 2 ^ 63 →
        pageOffset (effectivePage q) (effectiveSize q) =
          (effectivePage q - 1) * effectiveSize q) ∧
      ∀ total : Int, 0 ≤ total → total < 2 ^ 63 →
        total ≤ totalPages total (effectiveSize q) * effectiveSize q ∧
          ∀ n : Int, total ≤ n * effectiveSize q → totalPages total (effectiveSize q) ≤ n := by
  obtain ⟨hp1, hp2⟩ := effectivePage_range q
  obtain ⟨hs1, hs2⟩ := effectiveSize_range q
  have hoff := pageOffset_eq (effectivePage q) (effectiveSize q) hp1 hp2
  have hdefault : ∀ key : String, ((∀ kv ∈ q, kv.1 ≠ key) ∨ isNumeric (queryGet q key) = false ∨
      (Atoi (queryGet q key)).1 ≤ 0) → (Atoi (queryGet q key)).1 ≤ 0 := by
    intro key h
    rcases h with h | h | h
    · rw [queryGet_missing q key h]
      decide
    · rw [Atoi_of_not_numeric _ h]
    · exact h
  refine ⟨hp1, hs1, ?_, ?_, hoff, ?_, ?_⟩
  · intro h
    unfold effectivePage
    simp only [hdefault "page" h, if_true]
  · intro h
    unfold effectiveSize
    simp only [hdefault "size" h, if_true]
  · intro hlt
    rw [hoff]
    have h0 : 0 ≤ (effectivePage q - 1) * effectiveSize q :=
      mul_nonneg (by omega) (by omega)
    exact wrapInt_of_range (by norm_num; omega) hlt
  · intro total h0 ht
    exact totalPages_least total (effectiveSize q) h0 ht hs1

/-- Witness: the request "page=3&size=25" has the offset 50, and 101 records make
5 pages; a request without `page` and with `size=abc` has page 1 and size 20. -/
theorem pagination_arithmetic_witness :
    pageOffset (effectivePage [("page", "3"), ("size", "25")])
        (effectiveSize [("page", "3"), ("size", "25")]) = 50 ∧
      totalPages 101 (effectiveSize [("page", "3"), ("size", "25")]) = 5 ∧
      (101 : Int) ≤ totalPages 101 (effectiveSize [("page", "3"), ("size", "25")]) *
        effectiveSize [("page", "3"), ("size", "25")] ∧
      effectivePage [("size", "abc")] = 1 ∧ effectiveSize [("size", "abc")] = 20 :=
  ⟨by decide, by decide,
    ((pagination_arithmetic [("page", "3"), ("size", "25")]).2.2.2.2.2.2 101 (by decide)
      (by decide)).1,
    (pagination_arithmetic [("size", "abc")]).2.2.1 (Or.inl (by decide)),
    (pagination_arithmetic [("size", "abc")]).2.2.2.1 (Or.inr (Or.inl (by decide)))⟩

/-- C21, as stated, fails: with a handler that has no session manager, the recycle
record 5 of endpoint 1 with instance id "old" exists, `HandleRecycleDelete` answers
with success and removes the record and the journal of the pair, but makes no call
of `ClearLogs`: the call is guarded by `h.sseManager != nil` and
`GetFileLogger() != nil`. -/
theorem HandleRecycleDelete_without_manager :
    ({ id := 5, endpointId := 1, instanceId := some "old" } : RecycleRow) ∈ demoStore.recycle ∧
      (HandleRecycleDelete demoHandlerNoManager noHandlerFaults "DELETE" "1" "5" demoStore).1 =
        Reply.success ∧
      Call.clearLogs 1 "old" ∉
        (HandleRecycleDelete demoHandlerNoManager noHandlerFaults "DELETE" "1" "5" demoStore).2.2 := by
  decide

/-- C21, amended: for every existing recycle record with id `r` and non-null
instance id `i` (the ids of the table being a primary key), a call
`HandleRecycleDelete(E, r)` that answers with success was made for the endpoint
`E` of the record, leaves no `TunnelRecycle` row with id `r` and no journal record
with `endpointId = E` and `instanceId = i`, and, when the handler has a session
manager with a file logger, makes exactly the call `ClearLogs(E, i)` on the file
log store; without one it makes no call. -/
theorem HandleRecycleDelete_purges (h : EndpointHandler) (F : HandlerFaults)
    (method epStr recStr : String) (db db2 : Store) (calls : List Call) (E r : Int) (i : String)
    (row : RecycleRow) (hE : ParseInt epStr = some E) (hr : ParseInt recStr = some r)
    (hkey : (db.recycle.map (fun x => x.id)).Nodup) (hrow : row ∈ db.recycle)
    (hid : row.id = r) (hinst : row.instanceId = some i)
    (hok : HandleRecycleDelete h F method epStr recStr db = (.success, db2, calls)) :
    row.endpointId = E ∧ (∀ x ∈ db2.recycle, x.id ≠ r) ∧
      (∀ j ∈ db2.journal, ¬ (j.endpointId = E ∧ j.instanceId = some i)) ∧
      (hasFileLogger h = true → calls = [Call.clearLogs E i]) ∧
      (hasFileLogger h = false → calls = []) := by
  obtain ⟨E2, r2, found, hE2, hr2, hf, _, hrec, hj, hc⟩ :=
    HandleRecycleDelete_success h F method epStr recStr db db2 calls hok
  obtain rfl : E = E2 := Option.some.inj (hE.symm.trans hE2)
  obtain rfl : r = r2 := Option.some.inj (hr.symm.trans hr2)
  obtain rfl := recycle_find_unique db.recycle hkey row found hrow r E hid hf
  have hp := List.find?_some hf
  simp only [decide_eq_true_eq] at hp
  rw [hinst] at hj hc
  simp only at hj hc
  refine ⟨hp.2, ?_, ?_, ?_, ?_⟩
  · intro x hx
    rw [hrec] at hx
    simpa using (List.mem_filter.mp hx).2
  · intro j hjm
    rw [hj] at hjm
    have hkeep := (List.mem_filter.mp hjm).2
    simp only [decide_eq_true_eq] at hkeep
    exact hkeep
  · intro hl
    rw [hc, if_pos hl]
  · intro hl
    rw [hc, hl]
    rfl

/-- Witness: with a session manager and a file logger, deleting the recycle record
5 of endpoint 1, whose instance id is "old", is followed by `ClearLogs(1, "old")`. -/
theorem HandleRecycleDelete_purges_witness :
    ParseInt "1" = some 1 ∧ ParseInt "5" = some 5 ∧
      (demoStore.recycle.map (fun x => x.id)).Nodup ∧
      HandleRecycleDelete demoHandler noHandlerFaults "DELETE" "1" "5" demoStore =
        (Reply.success,
          (HandleRecycleDelete demoHandler noHandlerFaults "DELETE" "1" "5" demoStore).2.1,
          (HandleRecycleDelete demoHandler noHandlerFaults "DELETE" "1" "5" demoStore).2.2) ∧
      (hasFileLogger demoHandler = true →
        (HandleRecycleDelete demoHandler noHandlerFaults "DELETE" "1" "5" demoStore).2.2 =
          [Call.clearLogs 1 "old"]) :=
  ⟨by decide, by decide, by decide, by decide,
    (HandleRecycleDelete_purges demoHandler noHandlerFaults "DELETE" "1" "5" demoStore
      (HandleRecycleDelete demoHandler noHandlerFaults "DELETE" "1" "5" demoStore).2.1
      (HandleRecycleDelete demoHandler noHandlerFaults "DELETE" "1" "5" demoStore).2.2 1 5
      "old" { id := 5, endpointId := 1, instanceId := some "old" } (by decide) (by decide)
      (by decide) (by decide) rfl rfl (by decide)).2.2.2.1⟩

/-- C22, as stated, fails: endpoint 1 has the tunnel instance "x" and the recycled
instance "old". With a session manager that has no file logger, the deletion
succeeds and the calls are `DisconnectEndpoint(1)` and `DeleteEndpoint(1)` only;
with a file logger but a failing query on `Tunnel`, `ClearLogs(1, "x")` is not
among the calls. -/
theorem HandleDeleteEndpoint_without_file_logger :
    (∃ t ∈ demoStore.tunnels, t.endpointId = 1 ∧ t.instanceId = some "x") ∧
      HandleDeleteEndpoint demoHandlerNoLogger noHandlerFaults "DELETE" "1" demoStore =
        (Reply.success, (demoDeleteEndpoint demoStore 1).2,
          [Call.disconnectEndpoint 1, Call.deleteEndpoint 1]) ∧
      (HandleDeleteEndpoint demoHandler { noHandlerFaults with selectTunnel := true } "DELETE" "1"
        demoStore).2.2 =
        [Call.disconnectEndpoint 1, Call.deleteEndpoint 1, Call.clearLogs 1 "old"] := by
  decide

/-- C22, amended: for every valid endpoint id with a session manager present, the
calls of `HandleDeleteEndpoint` are, in this order, `DisconnectEndpoint(id)`,
`DeleteEndpoint(id)` and then calls `ClearLogs(id, i)` only; there is no call of
`ClearLogs` when `DeleteEndpoint` failed; and when it succeeded, the session
manager has a file logger and the two queries for the instance ids succeeded, the
ids `i` of these calls are exactly the non-empty instance ids that the endpoint
had in `Tunnel` or `TunnelRecycle` before the deletion. -/
theorem HandleDeleteEndpoint_order (h : EndpointHandler) (m : Manager) (F : HandlerFaults)
    (idStr : String) (db : Store) (id : Int) (hm : h.sseManager = some m)
    (hid : ParseInt idStr = some id) :
    ∃ cleared : List String,
      (HandleDeleteEndpoint h F "DELETE" idStr db).2.2 =
        Call.disconnectEndpoint id :: Call.deleteEndpoint id ::
          cleared.map (fun i => Call.clearLogs id i) ∧
      ((h.DeleteEndpoint db id).1 = false → cleared = []) ∧
      ((h.DeleteEndpoint db id).1 = true → m.hasFileLogger = true →
        F.selectTunnel = false → F.selectRecycle = false →
        ∀ i, i ∈ cleared ↔
          i ≠ "" ∧ ((∃ t ∈ db.tunnels, t.endpointId = id ∧ t.instanceId = some i) ∨
            ∃ r ∈ db.recycle, r.endpointId = id ∧ r.instanceId = some i)) := by
  have hlog : hasFileLogger h = m.hasFileLogger := by
    unfold hasFileLogger
    rw [hm]
  cases hd : (h.DeleteEndpoint db id).1 with
  | false =>
    refine ⟨[], ?_, fun _ => rfl, fun hc => absurd hc (by simp)⟩
    simp [HandleDeleteEndpoint, hid, hm, hd]
  | true =>
    cases hl : m.hasFileLogger with
    | false =>
      refine ⟨[], ?_, fun hc => absurd hc (by simp), fun _ hc => absurd hc (by simp)⟩
      simp [HandleDeleteEndpoint, hid, hm, hd, hlog, hl]
    | true =>
      refine ⟨instanceIDsOf F db id, ?_, fun hc => absurd hc (by simp), ?_⟩
      · simp [HandleDeleteEndpoint, hid, hm, hd, hlog, hl]
      · intro _ _ h1 h2 i
        exact mem_instanceIDsOf F db id i h1 h2

/-- Witness: endpoint 1 had "x" in `Tunnel` and "old" in `TunnelRecycle`; the calls
are `DisconnectEndpoint(1)`, `DeleteEndpoint(1)`, `ClearLogs(1, "x")` and
`ClearLogs(1, "old")`. -/
theorem HandleDeleteEndpoint_order_witness :
    demoHandler.sseManager = some { hasFileLogger := true } ∧ ParseInt "1" = some 1 ∧
      (HandleDeleteEndpoint demoHandler noHandlerFaults "DELETE" "1" demoStore).2.2 =
        [Call.disconnectEndpoint 1, Call.deleteEndpoint 1, Call.clearLogs 1 "x",
          Call.clearLogs 1 "old"] ∧
      ∃ cleared : List String,
        (HandleDeleteEndpoint demoHandler noHandlerFaults "DELETE" "1" demoStore).2.2 =
          Call.disconnectEndpoint 1 :: Call.deleteEndpoint 1 ::
            cleared.map (fun i => Call.clearLogs 1 i) ∧
        ((demoHandler.DeleteEndpoint demoStore 1).1 = false → cleared = []) ∧
        ((demoHandler.DeleteEndpoint demoStore 1).1 = true →
          ({ hasFileLogger := true } : Manager).hasFileLogger = true →
          noHandlerFaults.selectTunnel = false → noHandlerFaults.selectRecycle = false →
          ∀ i, i ∈ cleared ↔
            i ≠ "" ∧ ((∃ t ∈ demoStore.tunnels, t.endpointId = 1 ∧ t.instanceId = some i) ∨
              ∃ r ∈ demoStore.recycle, r.endpointId = 1 ∧ r.instanceId = some i)) :=
  ⟨rfl, by decide, by decide,
    HandleDeleteEndpoint_order demoHandler { hasFileLogger := true } noHandlerFaults "1" demoStore 1
      rfl (by decide)⟩

/-- C23 at the failing input: the recycle bin holds one entry, of endpoint 1 with
instance id "old", so (2, "old") is the pair of no recycle entry; the journal
record 2 belongs to the pair (2, "old"). `HandleRecycleClearAll` answers with
success and the record is gone: the statement of line 1016 selects the journal
rows by `instanceId` alone. -/
theorem HandleRecycleClearAll_purges_other_endpoint :
    demoJournal 2 2 (some "old") ∈ demoStore.journal ∧
      ¬ recycledPair demoStore 2 "old" ∧
      (HandleRecycleClearAll demoHandler noHandlerFaults "DELETE" demoStore).1 = Reply.success ∧
      demoJournal 2 2 (some "old") ∉
        (HandleRecycleClearAll demoHandler noHandlerFaults "DELETE" demoStore).2.1.journal ∧
      (HandleRecycleClearAll demoHandler noHandlerFaults "DELETE" demoStore).2.2 =
        [Call.clearLogs 1 "old"] := by
  decide

/-- C24 at the failing input: endpoint 2 holds the row 7 for the instance id "x",
endpoint 1 holds no row, and the snapshot of endpoint 1 reports an instance "x".
The call for endpoint 1 returns nil; the row 7, still a row of endpoint 2, has
received the name, mode, descriptor, status and counters of the reported
instance, and endpoint 1 has no row: the existence query of line 1101 selects by
`instanceId` alone. -/
theorem refreshTunnels_overwrites_other_endpoint :
    demoSharedDB.tunnels = [demoRow 7 2 (some "x") "theirs"] ∧
      (refreshTunnels noFaults 9 (some demoSnapshot) demoSharedDB 1).1 = none ∧
      (refreshTunnels noFaults 9 (some demoSnapshot) demoSharedDB 1).2.tunnels =
        [updatedTunnel 9 (demoInstance "x" "server" "server://0.0.0.0:10101/127.0.0.1:8080?tls=1" "web")
          (demoRow 7 2 (some "x") "theirs")] ∧
      (refreshTunnels noFaults 9 (some demoSnapshot) demoSharedDB 1).2.tunnels.map
          (fun t => (t.id, t.endpointId, t.name, t.mode, t.commandLine, t.status, t.tcpRx)) =
        [((7 : Int), (2 : Int), "web", "server", "server://0.0.0.0:10101/127.0.0.1:8080?tls=1",
          "running", (10 : Int))] ∧
      demoSharedDB.tunnels.map
          (fun t => (t.id, t.endpointId, t.name, t.mode, t.commandLine, t.status, t.tcpRx)) =
        [((7 : Int), (2 : Int), "theirs", "client", "client://old.example:1000/10.0.0.9:2000",
          "stopped", (1 : Int))] := by
  exact ⟨by decide, by decide, by decide, rfl, rfl⟩

/-- C25: in a call of `refreshTunnels` for endpoint `E` that returns nil, on a table
with distinct surrogate ids: the iteration of the upsert loop for an entry without
a type makes no statement and leaves the table and the seen set as they are; the
seen set holds exactly the ids of the entries with a type; the committed table is
the one that a call without failures commits for the snapshot with the entries
without a type removed; and a row of `E` whose instance id is the id of an entry
without a type is deleted when no entry with a type carries the same id, and is
kept, under its surrogate id, when one does. -/
theorem refreshTunnels_untyped_absent (F : Faults) (now : Nat) (S : List Instance)
    (db db2 : DB) (E : Int) (hid : DistinctIds db.tunnels)
    (h : refreshTunnels F now (some S) db E = (none, db2)) :
    (∀ (inst : Instance) (rest : List Instance) (i : Nat) (tx : List Tunnel)
        (idSet : List String), inst.Typ = "" →
        upsertLoop F E now i (inst :: rest) tx idSet =
          upsertLoop F E now (i + 1) rest tx idSet) ∧
      (∀ tx1 idSet, upsertLoop F E now 0 S db.tunnels [] = .ok (tx1, idSet) →
        ∀ x, x ∈ idSet ↔ ∃ j ∈ S, j.Typ ≠ "" ∧ j.ID = x) ∧
      db2.tunnels = (refreshTunnels noFaults now (some (typed S)) db E).2.tunnels ∧
      (∀ inst ∈ S, inst.Typ = "" → ∀ t ∈ db.tunnels, t.endpointId = E →
        t.instanceId = some inst.ID →
        ((∀ j ∈ S, j.ID = inst.ID → j.Typ = "") →
          (∀ u ∈ db2.tunnels, u.id ≠ t.id) ∧
            ∀ u ∈ db2.tunnels, u.endpointId = E → u.instanceId ≠ some inst.ID) ∧
        ((∃ j ∈ S, j.ID = inst.ID ∧ j.Typ ≠ "") →
          ∃ u ∈ db2.tunnels, u.id = t.id ∧ u.endpointId = E ∧ u.instanceId = some inst.ID)) := by
  obtain ⟨S2, hS, hE, ht, _⟩ := refreshTunnels_commit F now _ db db2 E h
  obtain rfl : S = S2 := Option.some.inj hS
  have hseen : ∀ x, x ∈ seenIDs S ↔ ∃ j ∈ S, j.Typ ≠ "" ∧ j.ID = x := by
    intro x
    rw [mem_seenIDs]
    constructor
    · rintro ⟨j, hj, rfl⟩
      exact ⟨j, (mem_typed.mp hj).1, (mem_typed.mp hj).2, rfl⟩
    · rintro ⟨j, hj, hT, rfl⟩
      exact ⟨j, mem_typed.mpr ⟨hj, hT⟩, rfl⟩
  refine ⟨fun inst rest i tx idSet hT => upsertLoop_untyped F E now inst rest i tx idSet hT,
    ?_, ?_, ?_⟩
  · intro tx1 idSet hu x
    obtain ⟨_, h2⟩ := upsertLoop_ok F E now S 0 db.tunnels [] _ hu
    simp only at h2
    rw [h2, ← hseen]
    simp
  · rw [refreshTunnels_noFaults now (typed S) db E hE, ht]
    simp only [updateTunnelCount]
    exact (reconcile_typed E now S db.tunnels).symm
  · intro inst _ hT t htm htE hti
    have hdist := upsertAll_distinctIds E now S db.tunnels hid
    obtain ⟨t2, ht2, k⟩ := upsertAll_sameKey E now S db.tunnels t htm
    constructor
    · intro hnone
      have hunseen : inst.ID ∉ seenIDs S := by
        rw [hseen]
        rintro ⟨j, hj, hjT, hjid⟩
        exact hjT (hnone j hj hjid)
      rw [ht]
      constructor
      · intro u hu hidu
        unfold reconcile at hu
        have hmem := (mem_purge hdist u).mp hu
        have hEq : u = t2 := eq_of_id_eq hdist hmem.1 ht2 (hidu.trans k.1.symm)
        subst hEq
        exact hmem.2 ⟨k.2.1.trans htE, inst.ID, k.2.2.trans hti, hunseen⟩
      · intro u hu huE hui
        exact hunseen (purge_clean u hu huE inst.ID hui)
    · rintro ⟨j, hj, hjid, hjT⟩
      have hs : inst.ID ∈ seenIDs S := (hseen inst.ID).mpr ⟨j, hj, hjT, hjid⟩
      refine ⟨t2, ?_, k.1, k.2.1.trans htE, k.2.2.trans hti⟩
      rw [ht]
      unfold reconcile
      rw [mem_purge hdist]
      refine ⟨ht2, ?_⟩
      rintro ⟨_, iid2, hi2, hn⟩
      rw [k.2.2, hti] at hi2
      obtain rfl : inst.ID = iid2 := Option.some.inj hi2
      exact hn hs

/-- Witness: endpoint 1 holds the rows 1 for "gone" and 2 for "x"; the snapshot
reports "x" with a type and "gone" without one. After the call no row has the
surrogate id 1 and no row of endpoint 1 carries the instance id "gone". -/
theorem refreshTunnels_untyped_absent_witness :
    DistinctIds demoDB.tunnels ∧
      refreshTunnels noFaults 9 (some demoUntypedSnapshot) demoDB 1 =
        (none, (refreshTunnels noFaults 9 (some demoUntypedSnapshot) demoDB 1).2) ∧
      ((∀ u ∈ (refreshTunnels noFaults 9 (some demoUntypedSnapshot) demoDB 1).2.tunnels, u.id ≠ 1) ∧
        ∀ u ∈ (refreshTunnels noFaults 9 (some demoUntypedSnapshot) demoDB 1).2.tunnels,
          u.endpointId = 1 → u.instanceId ≠ some "gone") :=
  ⟨by decide, by decide,
    ((refreshTunnels_untyped_absent noFaults 9 demoUntypedSnapshot demoDB
      (refreshTunnels noFaults 9 (some demoUntypedSnapshot) demoDB 1).2 1 (by decide)
      (by decide)).2.2.2 (demoInstance "gone" "" "" "") (by decide) rfl
      (demoRow 1 1 (some "gone") "old") (by decide) rfl rfl).1 (by decide)⟩

end NodePassDash
